import Mathlib

/-!
A shallow embedding of `minimal-json.h`, the streaming JSON token decoder.

The parse context of the C header is a record holding the 8-byte window
(`buffer`, `start`, `length`) and the data source.  The source is the list of
bytes that the reader callback has not yet delivered: a call
`reader(ctx, dst, limit)` stores the next `min(limit, available)` bytes at
`dst[0..]` and returns that count.  Bytes are natural numbers (`char` values
`0..255`), memory is a function from indices to bytes, `size_t` arithmetic on
the window fields wraps modulo `2^64`, statuses and type tags are the integer
constants of the header.  The byte counters `i` and `full_length` of the
string and number decoders are natural numbers: they count consumed bytes and
stay below `2^64` on every stream that can exist; only the counter of the
second loop of `mjson_read_number_as_string`, which never ends, wraps.  Loops
that are not bounded by a counter take a fuel argument and return `none` when
the fuel runs out; a loop `while (i < length)` whose every turn increments `i`
is modelled by recursion on `length - i`.  Output parameters are returned as
options: `none` when the function stored nothing through the pointer.
-/

namespace MinimalJson

/-! ## Constants -/

def MJSON_TYPE_NULL : Int := 1
def MJSON_TYPE_TRUE : Int := 2
def MJSON_TYPE_FALSE : Int := 3
def MJSON_TYPE_STRING : Int := 4
def MJSON_TYPE_NUMBER : Int := 5
def MJSON_TYPE_OBJECT : Int := 6
def MJSON_TYPE_ARRAY : Int := 7

def MJSON_SUBTYPE_OBJECT_SEPARATOR : Int := 8
def MJSON_SUBTYPE_OBJECT_END : Int := 9
def MJSON_SUBTYPE_ARRAY_SEPARATOR : Int := 10
def MJSON_SUBTYPE_ARRAY_END : Int := 11

def MJSON_OK : Int := 0
def MJSON_ERROR_READING : Int := -1
def MJSON_ERROR_UNKNOWN_TYPE : Int := -2
def MJSON_ERROR_CHECK_FAILURE : Int := -3
def MJSON_ERROR_TEST_NOT_TRUE : Int := -4

def MJSON_BUFFER_MAX_LENGTH : Nat := 8

/-- The number of values of `size_t` (64 bits). -/
def SIZE_MOD : Nat := 18446744073709551616

/-- Addition of `size_t` values. -/
def size_add (a b : Nat) : Nat := (a + b) % SIZE_MOD

/-- Subtraction of `size_t` values (`a, b < 2^64`). -/
def size_sub (a b : Nat) : Nat := (a + SIZE_MOD - b % SIZE_MOD) % SIZE_MOD

/-! ## The parse context -/

/-- Memory of bytes, indexed from the start of the object. -/
abbrev Mem := Nat → Nat

/-- The store `m[i] = v`. -/
def Mem.set (m : Mem) (i v : Nat) : Mem := fun j => if j = i then v else m j

structure mjson_ctx where
  /-- The bytes the data source (`userdata` and `reader`) has not delivered yet. -/
  source : List Nat
  buffer : Mem
  start : Nat
  length : Nat

/-- The expression `MJSON_BUFFER_START_(ctx)[i]`. -/
def MJSON_BUFFER_START_ (ctx : mjson_ctx) (i : Nat) : Nat := ctx.buffer (ctx.start + i)

/-- The function `mjson_init`: the buffer keeps whatever it held. -/
def mjson_init (ctx : mjson_ctx) (source : List Nat) : mjson_ctx :=
  { ctx with source := source, start := 0, length := 0 }

/-- The stores `dst[pos + k] = bytes[k]` for every `k < bytes.length`. -/
def write_bytes (m : Mem) (pos : Nat) : List Nat → Mem
  | [] => m
  | b :: bs => write_bytes (m.set pos b) (pos + 1) bs

/-- The reader callback on a list source: it stores the next
`min(limit, available)` bytes at `buffer[pos..]` and returns how many. -/
def reader (ctx : mjson_ctx) (pos limit : Nat) : mjson_ctx × Nat :=
  ({ ctx with source := ctx.source.drop limit,
              buffer := write_bytes ctx.buffer pos (ctx.source.take limit) },
   (ctx.source.take limit).length)

/-- The loop of `mjson_shift_buffer_`, with `n` iterations left at index `i`. -/
def shift_loop (start : Nat) : Nat → Nat → Mem → Mem
  | 0, _, m => m
  | n + 1, i, m => shift_loop start n (i + 1) (m.set i (m (i + start)))

def mjson_shift_buffer_ (ctx : mjson_ctx) : mjson_ctx :=
  { ctx with buffer := shift_loop ctx.start ctx.length 0 ctx.buffer, start := 0 }

def mjson_ensure_byte_ (ctx : mjson_ctx) (byte : Nat) : Int × mjson_ctx :=
  if ctx.length ≥ byte then (MJSON_OK, ctx)
  else
    let byte := size_sub byte ctx.length
    let ctx := if size_sub (size_sub MJSON_BUFFER_MAX_LENGTH ctx.length) ctx.start < byte
               then mjson_shift_buffer_ ctx else ctx
    let r := reader ctx (ctx.start + ctx.length) byte
    if r.2 < byte then (MJSON_ERROR_READING, r.1)
    else (MJSON_OK, { r.1 with length := size_add r.1.length byte })

def mjson_consume_byte_ (ctx : mjson_ctx) (byte : Nat) : mjson_ctx :=
  { ctx with start := size_add ctx.start byte, length := size_sub ctx.length byte }

def mjson_read_byte_ (ctx : mjson_ctx) (ch : Nat) : Int × mjson_ctx :=
  let r := mjson_ensure_byte_ ctx 1
  if r.1 ≠ MJSON_OK then r
  else if MJSON_BUFFER_START_ r.2 0 = ch then (MJSON_OK, mjson_consume_byte_ r.2 1)
  else (MJSON_ERROR_TEST_NOT_TRUE, r.2)

/-- The loop of `mjson_equal_string_` with `k` iterations left: the final `i`. -/
def equal_string_loop (a b : Mem) (n : Nat) : Nat → Nat → Nat
  | 0, i => i
  | k + 1, i => if i < n ∧ a i ≠ 0 ∧ a i = b i then equal_string_loop a b n k (i + 1) else i

/-- The function `mjson_equal_string_`; the loop leaves after at most `n` steps. -/
def mjson_equal_string_ (a b : Mem) (n : Nat) : Int :=
  if equal_string_loop a b n n 0 = n then MJSON_OK else MJSON_ERROR_TEST_NOT_TRUE

/-- A string literal as memory (NUL after its last byte). -/
def literal (s : List Nat) : Mem := fun i => s.getD i 0

def mjson_read_type (ctx : mjson_ctx) : Int × mjson_ctx :=
  let r := mjson_ensure_byte_ ctx 1
  if r.1 ≠ MJSON_OK then r
  else
    let ctx := r.2
    let ch := MJSON_BUFFER_START_ ctx 0
    if ch = 34 then (MJSON_TYPE_STRING, mjson_consume_byte_ ctx 1)
    else if ch = 123 then (MJSON_TYPE_OBJECT, mjson_consume_byte_ ctx 1)
    else if ch = 91 then (MJSON_TYPE_ARRAY, mjson_consume_byte_ ctx 1)
    else if ch = 116 then
      let r := mjson_ensure_byte_ ctx 4
      if r.1 ≠ MJSON_OK then r
      else if mjson_equal_string_ (MJSON_BUFFER_START_ r.2) (literal [116, 114, 117, 101]) 4
                = MJSON_OK
      then (MJSON_TYPE_TRUE, mjson_consume_byte_ r.2 4)
      else (MJSON_ERROR_UNKNOWN_TYPE, r.2)
    else if ch = 102 then
      let r := mjson_ensure_byte_ ctx 5
      if r.1 ≠ MJSON_OK then r
      else if mjson_equal_string_ (MJSON_BUFFER_START_ r.2) (literal [102, 97, 108, 115, 101]) 5
                = MJSON_OK
      then (MJSON_TYPE_FALSE, mjson_consume_byte_ r.2 5)
      else (MJSON_ERROR_UNKNOWN_TYPE, r.2)
    else if ch = 110 then
      let r := mjson_ensure_byte_ ctx 4
      if r.1 ≠ MJSON_OK then r
      else if mjson_equal_string_ (MJSON_BUFFER_START_ r.2) (literal [110, 117, 108, 108]) 4
                = MJSON_OK
      then (MJSON_TYPE_NULL, mjson_consume_byte_ r.2 4)
      else (MJSON_ERROR_UNKNOWN_TYPE, r.2)
    else if ch = 45 ∨ (48 ≤ ch ∧ ch ≤ 57) then (MJSON_TYPE_NUMBER, ctx)
    else (MJSON_ERROR_UNKNOWN_TYPE, ctx)

def mjson_readcheck_null (ctx : mjson_ctx) : Int × mjson_ctx :=
  let r := mjson_read_type ctx
  (if r.1 = MJSON_TYPE_NULL then MJSON_OK else MJSON_ERROR_CHECK_FAILURE, r.2)

/-- What a reader of a boolean leaves: `b` is the value stored through the
output pointer, `none` when nothing was stored. -/
structure BoolResult where
  status : Int
  ctx : mjson_ctx
  b : Option Int

def mjson_readcheck_boolean (ctx : mjson_ctx) : BoolResult :=
  let r := mjson_read_type ctx
  if r.1 = MJSON_TYPE_TRUE then ⟨MJSON_OK, r.2, some 1⟩
  else if r.1 = MJSON_TYPE_FALSE then ⟨MJSON_OK, r.2, some 0⟩
  else ⟨MJSON_ERROR_CHECK_FAILURE, r.2, none⟩

def mjson_readcheck_string_start (ctx : mjson_ctx) : Int × mjson_ctx :=
  let r := mjson_read_type ctx
  (if r.1 = MJSON_TYPE_STRING then MJSON_OK else MJSON_ERROR_CHECK_FAILURE, r.2)

/-! ## Strings -/

/-- The `switch` on the byte after a backslash: the decoded byte, `none` for
the `default` branch. -/
def escape_byte (ch : Nat) : Option Nat :=
  if ch = 34 then some 34
  else if ch = 92 then some 92
  else if ch = 47 then some 47
  else if ch = 98 then some 8
  else if ch = 102 then some 12
  else if ch = 110 then some 10
  else if ch = 114 then some 13
  else if ch = 116 then some 9
  else none

/-- What a string or number-text decoder leaves: `data` is the caller's
buffer, `out_length` the value stored through the output pointer, `none` when
nothing was stored. -/
structure StringResult where
  status : Int
  ctx : mjson_ctx
  data : Mem
  out_length : Option Nat

/-- The loop `while (i < length)` of `mjson_read_partial_string`; the first
argument is `length - i`, the number of iterations the condition still allows. -/
def read_partial_string_loop : Nat → mjson_ctx → Mem → Nat → StringResult
  | 0, ctx, data, i => ⟨MJSON_OK, ctx, data, some i⟩
  | k + 1, ctx, data, i =>
    let r := mjson_ensure_byte_ ctx 1
    if r.1 ≠ MJSON_OK then ⟨r.1, r.2, data, none⟩
    else if MJSON_BUFFER_START_ r.2 0 = 34 then ⟨MJSON_OK, r.2, data, some i⟩
    else if MJSON_BUFFER_START_ r.2 0 = 92 then
      let r2 := mjson_ensure_byte_ r.2 2
      if r2.1 ≠ MJSON_OK then ⟨r2.1, r2.2, data, none⟩
      else
        match escape_byte (MJSON_BUFFER_START_ r2.2 1) with
        | some b => read_partial_string_loop k (mjson_consume_byte_ r2.2 2) (data.set i b) (i + 1)
        | none => ⟨MJSON_ERROR_UNKNOWN_TYPE, r2.2, data, none⟩
    else
      read_partial_string_loop k (mjson_consume_byte_ r.2 1)
        (data.set i (MJSON_BUFFER_START_ r.2 0)) (i + 1)

def mjson_read_partial_string (ctx : mjson_ctx) (data : Mem) (length : Nat) : StringResult :=
  read_partial_string_loop length ctx data 0

def mjson_read_string_end (ctx : mjson_ctx) : Int × mjson_ctx :=
  mjson_read_byte_ ctx 34

/-- The loop `while (1)` of `mjson_read_full_string`. -/
def read_full_string_loop : Nat → mjson_ctx → Mem → Nat → Option StringResult
  | 0, _, _, _ => none
  | fuel + 1, ctx, data, full_length =>
    let r := mjson_ensure_byte_ ctx 1
    if r.1 ≠ MJSON_OK then some ⟨r.1, r.2, data, none⟩
    else if MJSON_BUFFER_START_ r.2 0 = 34 then
      some ⟨MJSON_OK, mjson_consume_byte_ r.2 1, data, some full_length⟩
    else if MJSON_BUFFER_START_ r.2 0 = 92 then
      let r2 := mjson_ensure_byte_ r.2 2
      if r2.1 ≠ MJSON_OK then some ⟨r2.1, r2.2, data, none⟩
      else read_full_string_loop fuel (mjson_consume_byte_ r2.2 2) data (full_length + 1)
    else read_full_string_loop fuel (mjson_consume_byte_ r.2 1) data (full_length + 1)

def mjson_read_full_string (fuel : Nat) (ctx : mjson_ctx) (data : Mem) (length : Nat) :
    Option StringResult :=
  let p := mjson_read_partial_string ctx data length
  if p.status ≠ MJSON_OK then some ⟨p.status, p.ctx, p.data, none⟩
  else read_full_string_loop fuel p.ctx p.data (p.out_length.getD 0)

/-- The null pointer passed as a buffer of length 0: never stored to. -/
def NULL : Mem := fun _ => 0

def mjson_skip_string (fuel : Nat) (ctx : mjson_ctx) : Option (Int × mjson_ctx) :=
  (mjson_read_full_string fuel ctx NULL 0).map fun r => (r.status, r.ctx)

/-! ## Separators -/

def mjson_readcheck_array_start (ctx : mjson_ctx) : Int × mjson_ctx :=
  let r := mjson_read_type ctx
  (if r.1 = MJSON_TYPE_ARRAY then MJSON_OK else MJSON_ERROR_CHECK_FAILURE, r.2)

def mjson_read_array_separator_or_end (ctx : mjson_ctx) : Int × mjson_ctx :=
  let r := mjson_ensure_byte_ ctx 1
  if r.1 ≠ MJSON_OK then r
  else if MJSON_BUFFER_START_ r.2 0 = 44 then
    (MJSON_SUBTYPE_ARRAY_SEPARATOR, mjson_consume_byte_ r.2 1)
  else if MJSON_BUFFER_START_ r.2 0 = 93 then
    (MJSON_SUBTYPE_ARRAY_END, mjson_consume_byte_ r.2 1)
  else (MJSON_ERROR_TEST_NOT_TRUE, r.2)

def mjson_readcheck_object_start (ctx : mjson_ctx) : Int × mjson_ctx :=
  let r := mjson_read_type ctx
  (if r.1 = MJSON_TYPE_OBJECT then MJSON_OK else MJSON_ERROR_CHECK_FAILURE, r.2)

def mjson_read_object_key_separator (ctx : mjson_ctx) : Int × mjson_ctx :=
  mjson_read_byte_ ctx 58

def mjson_read_object_separator_or_end (ctx : mjson_ctx) : Int × mjson_ctx :=
  let r := mjson_ensure_byte_ ctx 1
  if r.1 ≠ MJSON_OK then r
  else if MJSON_BUFFER_START_ r.2 0 = 44 then
    (MJSON_SUBTYPE_OBJECT_SEPARATOR, mjson_consume_byte_ r.2 1)
  else if MJSON_BUFFER_START_ r.2 0 = 125 then
    (MJSON_SUBTYPE_OBJECT_END, mjson_consume_byte_ r.2 1)
  else (MJSON_ERROR_TEST_NOT_TRUE, r.2)

/-! ## Numbers -/

/-- Conversion to the signed integer type of `w` bits (two's complement). -/
def wrap_int (w : Nat) (x : Int) : Int := (x + 2 ^ (w - 1)) % 2 ^ w - 2 ^ (w - 1)

/-- The test of the second loop of the integer readers and of both loops of
`mjson_read_number_as_string`: a digit, `.`, `e`, `E`, `+` or `-`. -/
def is_number_byte (ch : Nat) : Prop :=
  (48 ≤ ch ∧ ch ≤ 57) ∨ ch = 46 ∨ ch = 101 ∨ ch = 69 ∨ ch = 43 ∨ ch = 45

instance (ch : Nat) : Decidable (is_number_byte ch) := by
  unfold is_number_byte; infer_instance

/-- What an integer reader leaves: `out` is the value stored through the
output pointer, `none` when nothing was stored. -/
structure IntResult where
  status : Int
  ctx : mjson_ctx
  out : Option Int

/-- The digit loop of the integer readers: `(status, ctx, val)`. The sum
`val * 10 + digit` is stored back into the `w`-bit variable `val`. -/
def read_int_digits (w : Nat) : Nat → mjson_ctx → Int → Option (Int × mjson_ctx × Int)
  | 0, _, _ => none
  | fuel + 1, ctx, val =>
    if 48 ≤ MJSON_BUFFER_START_ ctx 0 ∧ MJSON_BUFFER_START_ ctx 0 ≤ 57 then
      let val := wrap_int w (val * 10 + ((MJSON_BUFFER_START_ ctx 0 : Int) - 48))
      let r := mjson_ensure_byte_ (mjson_consume_byte_ ctx 1) 1
      if r.1 ≠ MJSON_OK then some (r.1, r.2, val)
      else read_int_digits w fuel r.2 val
    else some (MJSON_OK, ctx, val)

/-- The loop after `Skip additional parts` of the integer readers. -/
def read_int_tail : Nat → mjson_ctx → Option (Int × mjson_ctx)
  | 0, _ => none
  | fuel + 1, ctx =>
    if is_number_byte (MJSON_BUFFER_START_ ctx 0) then
      let r := mjson_ensure_byte_ (mjson_consume_byte_ ctx 1) 1
      if r.1 ≠ MJSON_OK then some r
      else read_int_tail fuel r.2
    else some (MJSON_OK, ctx)

/-- The body shared by `mjson_read_int8`, `mjson_read_int16`, `mjson_read_int32`
and `mjson_read_int64`, which differ in the width `w` of `val`, `sign` and
`*out` only. -/
def mjson_read_int (w : Nat) (fuel : Nat) (ctx : mjson_ctx) : Option IntResult :=
  let r := mjson_ensure_byte_ ctx 1
  if r.1 ≠ MJSON_OK then some ⟨r.1, r.2, none⟩
  else
    let neg := MJSON_BUFFER_START_ r.2 0 = 45
    let ctx := if neg then mjson_consume_byte_ r.2 1 else r.2
    let sign : Int := if neg then -1 else 1
    let r := mjson_ensure_byte_ ctx 1
    if r.1 ≠ MJSON_OK then some ⟨r.1, r.2, none⟩
    else
      match read_int_digits w fuel r.2 0 with
      | none => none
      | some (status, ctx, val) =>
        if status ≠ MJSON_OK then some ⟨status, ctx, none⟩
        else
          match read_int_tail fuel ctx with
          | none => none
          | some (status, ctx) => some ⟨status, ctx, some (wrap_int w (val * sign))⟩

def mjson_read_int8 (fuel : Nat) (ctx : mjson_ctx) : Option IntResult := mjson_read_int 8 fuel ctx
def mjson_read_int16 (fuel : Nat) (ctx : mjson_ctx) : Option IntResult := mjson_read_int 16 fuel ctx
def mjson_read_int32 (fuel : Nat) (ctx : mjson_ctx) : Option IntResult := mjson_read_int 32 fuel ctx
def mjson_read_int64 (fuel : Nat) (ctx : mjson_ctx) : Option IntResult := mjson_read_int 64 fuel ctx

/-- The loop `while (i < length)` of `mjson_read_number_as_string`; the first
argument is `length - i`. The status is `MJSON_OK` when the loop was left by
its condition or by `break`, and the status returned otherwise. -/
def read_number_copy_loop : Nat → mjson_ctx → Mem → Nat → Int × mjson_ctx × Mem × Nat
  | 0, ctx, data, i => (MJSON_OK, ctx, data, i)
  | k + 1, ctx, data, i =>
    let r := mjson_ensure_byte_ ctx 1
    if r.1 ≠ MJSON_OK then (r.1, r.2, data, i)
    else if is_number_byte (MJSON_BUFFER_START_ r.2 0) then
      read_number_copy_loop k (mjson_consume_byte_ r.2 1)
        (data.set i (MJSON_BUFFER_START_ r.2 0)) (i + 1)
    else (MJSON_OK, r.2, data, i)

/-- The second loop of `mjson_read_number_as_string`: its condition tests the
local `ch`, which the body does not assign. -/
def read_number_tail_loop (ch : Nat) : Nat → mjson_ctx → Nat → Option (mjson_ctx × Nat)
  | 0, _, _ => none
  | fuel + 1, ctx, i =>
    if is_number_byte ch then read_number_tail_loop ch fuel (mjson_consume_byte_ ctx 1) (size_add i 1)
    else some (ctx, i)

def mjson_read_number_as_string (fuel : Nat) (ctx : mjson_ctx) (data : Mem) (length : Nat) :
    Option StringResult :=
  let p := read_number_copy_loop length ctx data 0
  if p.1 ≠ MJSON_OK then some ⟨p.1, p.2.1, p.2.2.1, none⟩
  else
    let r := mjson_ensure_byte_ p.2.1 1
    if r.1 ≠ MJSON_OK then some ⟨r.1, r.2, p.2.2.1, none⟩
    else
      match read_number_tail_loop (MJSON_BUFFER_START_ r.2 0) fuel r.2 p.2.2.2 with
      | none => none
      | some (ctx, i) => some ⟨MJSON_OK, ctx, p.2.2.1, some i⟩

def mjson_skip_number (fuel : Nat) (ctx : mjson_ctx) : Option (Int × mjson_ctx) :=
  (mjson_read_number_as_string fuel ctx NULL 0).map fun r => (r.status, r.ctx)

/-! ## Skipping values -/

mutual

def mjson_skip_value : Nat → mjson_ctx → Option (Int × mjson_ctx)
  | 0, _ => none
  | fuel + 1, ctx =>
    let t := mjson_read_type ctx
    if t.1 = MJSON_TYPE_ARRAY then mjson_skip_array fuel t.2
    else if t.1 = MJSON_TYPE_OBJECT then mjson_skip_object fuel t.2
    else if t.1 = MJSON_TYPE_NUMBER then mjson_skip_number fuel t.2
    else if t.1 = MJSON_TYPE_STRING then mjson_skip_string fuel t.2
    else if t.1 = MJSON_TYPE_NULL ∨ t.1 = MJSON_TYPE_TRUE ∨ t.1 = MJSON_TYPE_FALSE then
      some (MJSON_OK, t.2)
    else some t

def mjson_skip_array : Nat → mjson_ctx → Option (Int × mjson_ctx)
  | 0, _ => none
  | fuel + 1, ctx =>
    let r := mjson_read_array_separator_or_end ctx
    if r.1 ≠ MJSON_SUBTYPE_ARRAY_END then
      match mjson_skip_value fuel r.2 with
      | none => none
      | some v => if v.1 ≠ MJSON_OK then some v else mjson_skip_array fuel v.2
    else some (MJSON_OK, r.2)

def mjson_skip_object : Nat → mjson_ctx → Option (Int × mjson_ctx)
  | 0, _ => none
  | fuel + 1, ctx =>
    let r := mjson_read_object_separator_or_end ctx
    if r.1 ≠ MJSON_SUBTYPE_OBJECT_END then
      let s := mjson_readcheck_string_start r.2
      if s.1 ≠ MJSON_OK then some s
      else
        match mjson_skip_string fuel s.2 with
        | none => none
        | some k =>
          if k.1 ≠ MJSON_OK then some k
          else
            let p := mjson_read_object_key_separator k.2
            if p.1 ≠ MJSON_OK then some p
            else
              match mjson_skip_value fuel p.2 with
              | none => none
              | some v => if v.1 ≠ MJSON_OK then some v else mjson_skip_object fuel v.2
    else some (MJSON_OK, r.2)

end

/-! ## The stream a context stands for -/

/-- The unconsumed bytes held in the window, `buffer[start .. start + length)`. -/
def window (ctx : mjson_ctx) : List Nat :=
  (List.range ctx.length).map fun i => ctx.buffer (ctx.start + i)

/-- All unconsumed bytes: the window, then what the source has yet to deliver. -/
def unconsumed (ctx : mjson_ctx) : List Nat := window ctx ++ ctx.source

/-- The window invariant `start + length <= MJSON_BUFFER_MAX_LENGTH`. -/
def WindowInv (ctx : mjson_ctx) : Prop := ctx.start + ctx.length ≤ MJSON_BUFFER_MAX_LENGTH

instance (ctx : mjson_ctx) : Decidable (WindowInv ctx) := by
  unfold WindowInv; infer_instance

/-- A context whose buffer holds zeros, before `mjson_init`. -/
def blank_ctx : mjson_ctx := ⟨[], fun _ => 0, 0, 0⟩

/-! ## String bodies -/

/-- One element of a string body: a byte that stands for itself, or a
backslash and the byte after it. -/
inductive StrItem
  | plain (b : Nat)
  | esc (e : Nat)

/-- The escape table of the specification. -/
def table_escape : Nat → Option Nat
  | 34 => some 34
  | 92 => some 92
  | 47 => some 47
  | 98 => some 8
  | 102 => some 12
  | 110 => some 10
  | 114 => some 13
  | 116 => some 9
  | _ => none

/-- A plain byte is neither `"` nor `\`; an escape may name any byte. -/
def StrItem.skippable : StrItem → Bool
  | .plain b => b != 34 && b != 92
  | .esc _ => true

/-- A plain byte is neither `"` nor `\`; an escape is one of the table. -/
def StrItem.in_table : StrItem → Bool
  | .plain b => b != 34 && b != 92
  | .esc e => (table_escape e).isSome

/-- The source bytes of an element. -/
def StrItem.encode : StrItem → List Nat
  | .plain b => [b]
  | .esc e => [92, e]

/-- The byte an element stands for. -/
def StrItem.decode : StrItem → Nat
  | .plain b => b
  | .esc e => (table_escape e).getD 0

/-- The source bytes of a string body, without the quotes. -/
def encode_body : List StrItem → List Nat
  | [] => []
  | it :: its => it.encode ++ encode_body its

/-- The decoded bytes of a string body. -/
def decode_body (items : List StrItem) : List Nat := items.map StrItem.decode

/-- The first `n` bytes of a memory. -/
def first_bytes (m : Mem) (n : Nat) : List Nat := (List.range n).map m

/-! ## Numbers as the specification reads them -/

/-- The value of a run of decimal digits. -/
def decimal_value (digits : List Nat) : Int :=
  digits.foldl (fun v d => v * 10 + ((d : Int) - 48)) 0

/-- The value the digit loop of the integer readers leaves in its `w`-bit
variable after the digits `digits`, starting from `val`. -/
def digits_value (w : Nat) (val : Int) (digits : List Nat) : Int :=
  digits.foldl (fun v d => wrap_int w (v * 10 + ((d : Int) - 48))) val

/-! ## JSON values without whitespace and without numbers -/

mutual

/-- A JSON value built from `null`, `true`, `false`, strings, arrays and
objects with string keys. -/
inductive JValue
  | null
  | true
  | false
  | str (body : List StrItem)
  | arr (elems : JElems)
  | obj (members : JMembers)

/-- The elements of an array, in order. -/
inductive JElems
  | nil
  | cons (v : JValue) (rest : JElems)

/-- The members of an object, in order: key and value. -/
inductive JMembers
  | nil
  | cons (key : List StrItem) (v : JValue) (rest : JMembers)

end

mutual

/-- The bytes of a value, without any whitespace. -/
def JValue.encode : JValue → List Nat
  | .null => [110, 117, 108, 108]
  | .true => [116, 114, 117, 101]
  | .false => [102, 97, 108, 115, 101]
  | .str body => 34 :: (encode_body body ++ [34])
  | .arr .nil => [91, 93]
  | .arr (.cons v rest) => 91 :: (v.encode ++ (rest.encode_tail ++ [93]))
  | .obj .nil => [123, 125]
  | .obj (.cons key v rest) =>
    123 :: 34 :: (encode_body key ++ 34 :: 58 :: (v.encode ++ (rest.encode_tail ++ [125])))

/-- The bytes of the elements after the first: each one after a comma. -/
def JElems.encode_tail : JElems → List Nat
  | .nil => []
  | .cons v rest => 44 :: (v.encode ++ rest.encode_tail)

/-- The bytes of the members after the first: each one after a comma. -/
def JMembers.encode_tail : JMembers → List Nat
  | .nil => []
  | .cons key v rest =>
    44 :: 34 :: (encode_body key ++ 34 :: 58 :: (v.encode ++ rest.encode_tail))

end

mutual

/-- Every string body and key is made of skippable elements: plain bytes
other than `"` and `\`, and backslash pairs. -/
def JValue.skippable : JValue → Bool
  | .null => Bool.true
  | .true => Bool.true
  | .false => Bool.true
  | .str body => body.all StrItem.skippable
  | .arr elems => elems.skippable
  | .obj members => members.skippable

def JElems.skippable : JElems → Bool
  | .nil => Bool.true
  | .cons v rest => v.skippable && rest.skippable

def JMembers.skippable : JMembers → Bool
  | .nil => Bool.true
  | .cons key v rest => key.all StrItem.skippable && v.skippable && rest.skippable

end

/-! ## Reading a string in chunks -/

/-- The caller that streams a string through a buffer of `k` bytes: it calls
`mjson_read_partial_string` with capacity `k` until a call reports fewer than
`k` bytes, then calls `mjson_read_string_end`. The result is the last status,
the context, the concatenation of the chunks and the sum of the reported
lengths. -/
def read_string_in_chunks (k : Nat) :
    Nat → mjson_ctx → Mem → List Nat → Nat → Option (Int × mjson_ctx × List Nat × Nat)
  | 0, _, _, _, _ => none
  | fuel + 1, ctx, data, chunks, total =>
    let r := mjson_read_partial_string ctx data k
    if r.status ≠ MJSON_OK then some (r.status, r.ctx, chunks, total)
    else
      let n := r.out_length.getD 0
      if n < k then
        let e := mjson_read_string_end r.ctx
        some (e.1, e.2, chunks ++ first_bytes r.data n, total + n)
      else read_string_in_chunks k fuel r.ctx r.data (chunks ++ first_bytes r.data n) (total + n)

/-! ## The window manager on streams -/

theorem shift_loop_apply (start : Nat) : ∀ (n i : Nat) (m : Mem) (j : Nat),
    shift_loop start n i m j = if i ≤ j ∧ j < i + n then m (j + start) else m j := by
  intro n
  induction n with
  | zero =>
    intro i m j
    have h : ¬ (i ≤ j ∧ j < i + 0) := by omega
    rw [if_neg h]; rfl
  | succ n ih =>
    intro i m j
    rw [shift_loop, ih]
    by_cases h1 : i + 1 ≤ j ∧ j < i + 1 + n
    · have h2 : i ≤ j ∧ j < i + (n + 1) := by omega
      have h3 : j + start ≠ i := by omega
      rw [if_pos h1, if_pos h2]; simp [Mem.set, h3]
    · rw [if_neg h1]
      by_cases h4 : j = i
      · subst h4
        have h2 : j ≤ j ∧ j < j + (n + 1) := by omega
        rw [if_pos h2]; simp [Mem.set]
      · have h2 : ¬ (i ≤ j ∧ j < i + (n + 1)) := by omega
        rw [if_neg h2]; simp [Mem.set, h4]

theorem write_bytes_apply : ∀ (bs : List Nat) (m : Mem) (pos j : Nat),
    write_bytes m pos bs j = if pos ≤ j ∧ j < pos + bs.length then bs.getD (j - pos) 0 else m j := by
  intro bs
  induction bs with
  | nil =>
    intro m pos j
    have h : ¬ (pos ≤ j ∧ j < pos + ([] : List Nat).length) := by simp
    rw [if_neg h]; rfl
  | cons b bs ih =>
    intro m pos j
    rw [write_bytes, ih]
    have hl : (b :: bs).length = bs.length + 1 := rfl
    by_cases h1 : pos + 1 ≤ j ∧ j < pos + 1 + bs.length
    · have h2 : pos ≤ j ∧ j < pos + (b :: bs).length := by rw [hl]; omega
      obtain ⟨k, hk⟩ : ∃ k, j - pos = k + 1 := ⟨j - pos - 1, by omega⟩
      have h3 : j - (pos + 1) = k := by omega
      rw [if_pos h1, if_pos h2, hk, h3]; simp
    · rw [if_neg h1]
      by_cases h4 : j = pos
      · subst h4
        have h2 : j ≤ j ∧ j < j + (b :: bs).length := by rw [hl]; omega
        rw [if_pos h2]; simp [Mem.set]
      · have h2 : ¬ (pos ≤ j ∧ j < pos + (b :: bs).length) := by rw [hl]; omega
        rw [if_neg h2]; simp [Mem.set, h4]

theorem window_length (c : mjson_ctx) : (window c).length = c.length := by
  simp [window]

theorem window_getElem? (c : mjson_ctx) (i : Nat) :
    (window c)[i]? = if i < c.length then some (c.buffer (c.start + i)) else none := by
  simp only [window, List.getElem?_map, List.getElem?_range]
  by_cases h : i < c.length
  · simp [h, List.getElem?_range]
  · have : c.length ≤ i := by omega
    simp [h, List.getElem?_eq_none, this]

theorem size_sub_eq {a b : Nat} (h : b ≤ a) (ha : a < SIZE_MOD) : size_sub a b = a - b := by
  unfold size_sub SIZE_MOD at *; omega

theorem size_add_eq {a b : Nat} (h : a + b < SIZE_MOD) : size_add a b = a + b := by
  unfold size_add SIZE_MOD at *; omega

theorem window_shift (c : mjson_ctx) : window (mjson_shift_buffer_ c) = window c := by
  apply List.ext_getElem?
  intro i
  rw [window_getElem?, window_getElem?]
  by_cases h : i < c.length
  · have h2 : i < (mjson_shift_buffer_ c).length := h
    rw [if_pos h, if_pos h2]
    simp only [mjson_shift_buffer_, shift_loop_apply]
    have h3 : 0 ≤ 0 + i ∧ 0 + i < 0 + c.length := by omega
    rw [if_pos h3]
    congr 2; omega
  · have h2 : ¬ i < (mjson_shift_buffer_ c).length := h
    rw [if_neg h, if_neg h2]

/-- The effect of a successful `mjson_ensure_byte_` on the window and the source. -/
theorem ensure_ok (c : mjson_ctx) (n : Nat) (hinv : WindowInv c) (hn : n ≤ MJSON_BUFFER_MAX_LENGTH)
    (hav : n ≤ c.length + c.source.length) :
    ∃ c2, mjson_ensure_byte_ c n = (MJSON_OK, c2) ∧ WindowInv c2 ∧
      c2.length = max c.length n ∧
      window c2 = window c ++ c.source.take (n - c.length) ∧
      c2.source = c.source.drop (n - c.length) := by
  unfold WindowInv MJSON_BUFFER_MAX_LENGTH at *
  by_cases h : n ≤ c.length
  · refine ⟨c, ?_, hinv, ?_, ?_, ?_⟩
    · simp [mjson_ensure_byte_, h]
    · omega
    · have : n - c.length = 0 := by omega
      simp [this]
    · have : n - c.length = 0 := by omega
      simp [this]
  · have hd : size_sub n c.length = n - c.length :=
      size_sub_eq (by omega) (by unfold SIZE_MOD; omega)
    have h8 : size_sub (size_sub 8 c.length) c.start = 8 - c.length - c.start := by
      have e1 : size_sub 8 c.length = 8 - c.length :=
        size_sub_eq (by omega) (by unfold SIZE_MOD; omega)
      rw [e1, size_sub_eq (by omega) (by unfold SIZE_MOD; omega)]
    obtain ⟨c1, hc1, hlen1, hsrc1, hwin1, hfit⟩ : ∃ c1 : mjson_ctx,
        (if 8 - c.length - c.start < n - c.length then mjson_shift_buffer_ c else c) = c1 ∧
        c1.length = c.length ∧ c1.source = c.source ∧ window c1 = window c ∧
        c1.start + c1.length + (n - c.length) ≤ 8 := by
      by_cases hs : 8 - c.length - c.start < n - c.length
      · refine ⟨mjson_shift_buffer_ c, by rw [if_pos hs], rfl, rfl, window_shift c, ?_⟩
        show 0 + c.length + (n - c.length) ≤ 8
        omega
      · refine ⟨c, by rw [if_neg hs], rfl, rfl, rfl, ?_⟩
        omega
    have htl : (c1.source.take (n - c.length)).length = n - c.length := by
      rw [List.length_take, hsrc1]; omega
    refine ⟨{ (reader c1 (c1.start + c1.length) (n - c.length)).1 with
              length := size_add c1.length (n - c.length) }, ?_, ?_, ?_, ?_, ?_⟩
    · simp only [mjson_ensure_byte_, MJSON_BUFFER_MAX_LENGTH, hd, h8, hc1]
      have h1 : ¬ c.length ≥ n := by omega
      have h2 : ¬ (reader c1 (c1.start + c1.length) (n - c.length)).2 < n - c.length := by
        simp only [reader, htl]; omega
      rw [if_neg h1, if_neg h2]
      rfl
    · show c1.start + size_add c1.length (n - c.length) ≤ 8
      rw [size_add_eq (by unfold SIZE_MOD; omega)]; omega
    · show size_add c1.length (n - c.length) = max c.length n
      rw [size_add_eq (by unfold SIZE_MOD; omega)]; omega
    · rw [← hwin1, ← hsrc1]
      apply List.ext_getElem?
      intro i
      rw [window_getElem?]
      show (if i < size_add c1.length (n - c.length) then
        some (write_bytes c1.buffer (c1.start + c1.length) (c1.source.take (n - c.length))
          (c1.start + i)) else none) = _
      rw [size_add_eq (by unfold SIZE_MOD; omega), write_bytes_apply, htl]
      by_cases hi : i < c1.length
      · have h1 : i < c1.length + (n - c.length) := by omega
        have h2 : ¬ (c1.start + c1.length ≤ c1.start + i ∧
            c1.start + i < c1.start + c1.length + (n - c.length)) := by omega
        rw [if_pos h1, if_neg h2, List.getElem?_append_left (by rw [window_length]; exact hi),
          window_getElem?, if_pos hi]
      · rw [List.getElem?_append_right (by rw [window_length]; omega), window_length]
        by_cases hi2 : i < c1.length + (n - c.length)
        · have h2 : c1.start + c1.length ≤ c1.start + i ∧
              c1.start + i < c1.start + c1.length + (n - c.length) := by omega
          have h3 : c1.start + i - (c1.start + c1.length) = i - c1.length := by omega
          have h4 : i - c1.length < (c1.source.take (n - c.length)).length := by omega
          rw [if_pos hi2, if_pos h2, h3, List.getD_eq_getElem?_getD,
            List.getElem?_eq_getElem h4]
          rfl
        · rw [if_neg hi2, List.getElem?_eq_none (by omega)]
    · show c1.source.drop (n - c.length) = _
      rw [hsrc1]

/-- When window and source together hold fewer than `n` bytes, `mjson_ensure_byte_`
fails with `MJSON_ERROR_READING`. -/
theorem ensure_fail (c : mjson_ctx) (n : Nat)
    (hn : n ≤ MJSON_BUFFER_MAX_LENGTH) (hav : c.length + c.source.length < n) :
    (mjson_ensure_byte_ c n).1 = MJSON_ERROR_READING := by
  unfold MJSON_BUFFER_MAX_LENGTH at *
  have hd : size_sub n c.length = n - c.length :=
    size_sub_eq (by omega) (by unfold SIZE_MOD; omega)
  have h1 : ¬ c.length ≥ n := by omega
  simp only [mjson_ensure_byte_, hd, if_neg h1]
  rw [if_pos]
  simp only [reader, List.length_take]
  split <;> simp [mjson_shift_buffer_] <;> omega

theorem consume_window (c : mjson_ctx) (k : Nat) (hinv : WindowInv c) (hk : k ≤ c.length) :
    WindowInv (mjson_consume_byte_ c k) ∧
      window (mjson_consume_byte_ c k) = (window c).drop k ∧
      (mjson_consume_byte_ c k).source = c.source ∧
      (mjson_consume_byte_ c k).length = c.length - k := by
  unfold WindowInv MJSON_BUFFER_MAX_LENGTH at *
  have e1 : size_add c.start k = c.start + k := size_add_eq (by unfold SIZE_MOD; omega)
  have e2 : size_sub c.length k = c.length - k := size_sub_eq hk (by unfold SIZE_MOD; omega)
  refine ⟨?_, ?_, rfl, ?_⟩
  · show size_add c.start k + size_sub c.length k ≤ 8
    rw [e1, e2]; omega
  · apply List.ext_getElem?
    intro i
    rw [window_getElem?, List.getElem?_drop, window_getElem?]
    show (if i < size_sub c.length k then some (c.buffer (size_add c.start k + i)) else none) = _
    rw [e1, e2]
    by_cases hi : i < c.length - k
    · have h2 : k + i < c.length := by omega
      rw [if_pos hi, if_pos h2]
      congr 2; omega
    · have h2 : ¬ k + i < c.length := by omega
      rw [if_neg hi, if_neg h2]
  · exact e2

theorem unconsumed_length (c : mjson_ctx) :
    (unconsumed c).length = c.length + c.source.length := by
  simp [unconsumed, window_length]

/-- A successful `mjson_ensure_byte_` leaves the stream of unconsumed bytes as it was. -/
theorem ensure_stream (c : mjson_ctx) (n : Nat) (hinv : WindowInv c)
    (hn : n ≤ MJSON_BUFFER_MAX_LENGTH) (hav : n ≤ (unconsumed c).length) :
    ∃ c2, mjson_ensure_byte_ c n = (MJSON_OK, c2) ∧ WindowInv c2 ∧
      unconsumed c2 = unconsumed c ∧ n ≤ c2.length := by
  rw [unconsumed_length] at hav
  obtain ⟨c2, h1, h2, h3, h4, h5⟩ := ensure_ok c n hinv hn hav
  refine ⟨c2, h1, h2, ?_, by omega⟩
  simp only [unconsumed, h4, h5, List.append_assoc, List.take_append_drop]

theorem ensure_stream_fail (c : mjson_ctx) (n : Nat)
    (hn : n ≤ MJSON_BUFFER_MAX_LENGTH) (hav : (unconsumed c).length < n) :
    (mjson_ensure_byte_ c n).1 = MJSON_ERROR_READING := by
  rw [unconsumed_length] at hav
  exact ensure_fail c n hn hav

/-- The byte at offset `i` of the window is byte `i` of the unconsumed stream. -/
theorem peek_stream (c : mjson_ctx) (i : Nat) (hi : i < c.length) :
    MJSON_BUFFER_START_ c i = (unconsumed c).getD i 0 := by
  rw [List.getD_eq_getElem?_getD, unconsumed,
    List.getElem?_append_left (by rw [window_length]; exact hi), window_getElem?, if_pos hi]
  rfl

/-- Consuming `k` buffered bytes drops them from the stream of unconsumed bytes. -/
theorem consume_stream (c : mjson_ctx) (k : Nat) (hinv : WindowInv c) (hk : k ≤ c.length) :
    WindowInv (mjson_consume_byte_ c k) ∧
      unconsumed (mjson_consume_byte_ c k) = (unconsumed c).drop k := by
  obtain ⟨h1, h2, h3, _⟩ := consume_window c k hinv hk
  refine ⟨h1, ?_⟩
  rw [unconsumed, h2, h3, unconsumed, List.drop_append_of_le_length (by rw [window_length]; exact hk)]

theorem init_inv (c : mjson_ctx) (src : List Nat) : WindowInv (mjson_init c src) := by
  simp [WindowInv, mjson_init]

theorem init_stream (c : mjson_ctx) (src : List Nat) : unconsumed (mjson_init c src) = src := by
  simp [unconsumed, window, mjson_init]

/-! ## The type dispatcher on streams -/

/-- A successful `mjson_ensure_byte_` of `n` bytes, with the bytes then seen
through `MJSON_BUFFER_START_`. -/
theorem ensure_peek (c : mjson_ctx) (n : Nat) (l : List Nat) (hinv : WindowInv c)
    (hn : n ≤ MJSON_BUFFER_MAX_LENGTH) (hs : unconsumed c = l) (hl : n ≤ l.length) :
    ∃ c2, mjson_ensure_byte_ c n = (MJSON_OK, c2) ∧ WindowInv c2 ∧ unconsumed c2 = l ∧
      n ≤ c2.length ∧ ∀ i, i < n → MJSON_BUFFER_START_ c2 i = l.getD i 0 := by
  obtain ⟨c2, h1, h2, h3, h4⟩ := ensure_stream c n hinv hn (by rw [hs]; exact hl)
  refine ⟨c2, h1, h2, by rw [h3, hs], h4, ?_⟩
  intro i hi
  rw [peek_stream c2 i (by omega), h3, hs]

/-- Consuming `k` buffered bytes of a known stream. -/
theorem consume_drop (c : mjson_ctx) (k : Nat) (l : List Nat) (hinv : WindowInv c)
    (hk : k ≤ c.length) (hs : unconsumed c = l) :
    WindowInv (mjson_consume_byte_ c k) ∧ unconsumed (mjson_consume_byte_ c k) = l.drop k := by
  obtain ⟨h1, h2⟩ := consume_stream c k hinv hk
  exact ⟨h1, by rw [h2, hs]⟩

theorem read_type_string (c : mjson_ctx) (t : List Nat) (hinv : WindowInv c)
    (hs : unconsumed c = 34 :: t) :
    ∃ c2, mjson_read_type c = (MJSON_TYPE_STRING, c2) ∧ WindowInv c2 ∧ unconsumed c2 = t := by
  obtain ⟨c1, h1, hi1, hs1, hl1, hp1⟩ := ensure_peek c 1 _ hinv (by decide) hs (by simp)
  have hp := hp1 0 (by omega)
  obtain ⟨hi2, hs2⟩ := consume_drop c1 1 _ hi1 hl1 hs1
  refine ⟨mjson_consume_byte_ c1 1, ?_, hi2, hs2⟩
  simp at hp
  simp [mjson_read_type, h1, hp]

theorem read_type_object (c : mjson_ctx) (t : List Nat) (hinv : WindowInv c)
    (hs : unconsumed c = 123 :: t) :
    ∃ c2, mjson_read_type c = (MJSON_TYPE_OBJECT, c2) ∧ WindowInv c2 ∧ unconsumed c2 = t := by
  obtain ⟨c1, h1, hi1, hs1, hl1, hp1⟩ := ensure_peek c 1 _ hinv (by decide) hs (by simp)
  have hp := hp1 0 (by omega)
  obtain ⟨hi2, hs2⟩ := consume_drop c1 1 _ hi1 hl1 hs1
  refine ⟨mjson_consume_byte_ c1 1, ?_, hi2, hs2⟩
  simp at hp
  simp [mjson_read_type, h1, hp]

theorem read_type_array (c : mjson_ctx) (t : List Nat) (hinv : WindowInv c)
    (hs : unconsumed c = 91 :: t) :
    ∃ c2, mjson_read_type c = (MJSON_TYPE_ARRAY, c2) ∧ WindowInv c2 ∧ unconsumed c2 = t := by
  obtain ⟨c1, h1, hi1, hs1, hl1, hp1⟩ := ensure_peek c 1 _ hinv (by decide) hs (by simp)
  have hp := hp1 0 (by omega)
  obtain ⟨hi2, hs2⟩ := consume_drop c1 1 _ hi1 hl1 hs1
  refine ⟨mjson_consume_byte_ c1 1, ?_, hi2, hs2⟩
  simp at hp
  simp [mjson_read_type, h1, hp]

theorem equal_string_true (a : Mem) :
    mjson_equal_string_ a (literal [116, 114, 117, 101]) 4 = MJSON_OK ↔
      a 0 = 116 ∧ a 1 = 114 ∧ a 2 = 117 ∧ a 3 = 101 := by
  simp only [mjson_equal_string_, equal_string_loop, literal, MJSON_OK, MJSON_ERROR_TEST_NOT_TRUE]
  by_cases h0 : a 0 = 116 <;> by_cases h1 : a 1 = 114 <;> by_cases h2 : a 2 = 117 <;>
    by_cases h3 : a 3 = 101 <;> simp [h0, h1, h2, h3]

theorem equal_string_null (a : Mem) :
    mjson_equal_string_ a (literal [110, 117, 108, 108]) 4 = MJSON_OK ↔
      a 0 = 110 ∧ a 1 = 117 ∧ a 2 = 108 ∧ a 3 = 108 := by
  simp only [mjson_equal_string_, equal_string_loop, literal, MJSON_OK, MJSON_ERROR_TEST_NOT_TRUE]
  by_cases h0 : a 0 = 110 <;> by_cases h1 : a 1 = 117 <;> by_cases h2 : a 2 = 108 <;>
    by_cases h3 : a 3 = 108 <;> simp [h0, h1, h2, h3]

theorem equal_string_false (a : Mem) :
    mjson_equal_string_ a (literal [102, 97, 108, 115, 101]) 5 = MJSON_OK ↔
      a 0 = 102 ∧ a 1 = 97 ∧ a 2 = 108 ∧ a 3 = 115 ∧ a 4 = 101 := by
  simp only [mjson_equal_string_, equal_string_loop, literal, MJSON_OK, MJSON_ERROR_TEST_NOT_TRUE]
  by_cases h0 : a 0 = 102 <;> by_cases h1 : a 1 = 97 <;> by_cases h2 : a 2 = 108 <;>
    by_cases h3 : a 3 = 115 <;> by_cases h4 : a 4 = 101 <;> simp [h0, h1, h2, h3, h4]

/-- On a stream of at least four bytes that starts with `t`: `true` is
consumed, anything else is left in place. -/
theorem read_type_t (c : mjson_ctx) (b1 b2 b3 : Nat) (t : List Nat) (hinv : WindowInv c)
    (hs : unconsumed c = 116 :: b1 :: b2 :: b3 :: t) :
    ∃ c2, mjson_read_type c =
        (if b1 = 114 ∧ b2 = 117 ∧ b3 = 101 then MJSON_TYPE_TRUE else MJSON_ERROR_UNKNOWN_TYPE, c2) ∧
      WindowInv c2 ∧
      unconsumed c2 = if b1 = 114 ∧ b2 = 117 ∧ b3 = 101 then t else 116 :: b1 :: b2 :: b3 :: t := by
  obtain ⟨c1, h1, hi1, hs1, hl1, hp1⟩ := ensure_peek c 1 _ hinv (by decide) hs (by simp)
  have hp := hp1 0 (by omega)
  obtain ⟨c2, h2, hi2, hs2, hl2, hp2⟩ := ensure_peek c1 4 _ hi1 (by decide) hs1 (by simp)
  have q0 := hp2 0 (by omega)
  have q1 := hp2 1 (by omega)
  have q2 := hp2 2 (by omega)
  have q3 := hp2 3 (by omega)
  obtain ⟨hi3, hs3⟩ := consume_drop c2 4 _ hi2 hl2 hs2
  simp at hp q0 q1 q2 q3
  have he := equal_string_true (MJSON_BUFFER_START_ c2)
  rw [q0, q1, q2, q3] at he
  by_cases hm : b1 = 114 ∧ b2 = 117 ∧ b3 = 101
  · refine ⟨mjson_consume_byte_ c2 4, ?_, hi3, ?_⟩
    · have he2 := he.2 ⟨rfl, hm⟩
      simp [mjson_read_type, h1, hp, h2, he2, hm]
    · rw [if_pos hm, hs3]; rfl
  · refine ⟨c2, ?_, hi2, ?_⟩
    · have he2 : ¬ mjson_equal_string_ (MJSON_BUFFER_START_ c2) (literal [116, 114, 117, 101]) 4
          = MJSON_OK := fun h => hm (he.1 h).2
      simp [mjson_read_type, h1, hp, h2, he2, hm]
    · rw [if_neg hm, hs2]

theorem read_type_n (c : mjson_ctx) (b1 b2 b3 : Nat) (t : List Nat) (hinv : WindowInv c)
    (hs : unconsumed c = 110 :: b1 :: b2 :: b3 :: t) :
    ∃ c2, mjson_read_type c =
        (if b1 = 117 ∧ b2 = 108 ∧ b3 = 108 then MJSON_TYPE_NULL else MJSON_ERROR_UNKNOWN_TYPE, c2) ∧
      WindowInv c2 ∧
      unconsumed c2 = if b1 = 117 ∧ b2 = 108 ∧ b3 = 108 then t else 110 :: b1 :: b2 :: b3 :: t := by
  obtain ⟨c1, h1, hi1, hs1, hl1, hp1⟩ := ensure_peek c 1 _ hinv (by decide) hs (by simp)
  have hp := hp1 0 (by omega)
  obtain ⟨c2, h2, hi2, hs2, hl2, hp2⟩ := ensure_peek c1 4 _ hi1 (by decide) hs1 (by simp)
  have q0 := hp2 0 (by omega)
  have q1 := hp2 1 (by omega)
  have q2 := hp2 2 (by omega)
  have q3 := hp2 3 (by omega)
  obtain ⟨hi3, hs3⟩ := consume_drop c2 4 _ hi2 hl2 hs2
  simp at hp q0 q1 q2 q3
  have he := equal_string_null (MJSON_BUFFER_START_ c2)
  rw [q0, q1, q2, q3] at he
  by_cases hm : b1 = 117 ∧ b2 = 108 ∧ b3 = 108
  · refine ⟨mjson_consume_byte_ c2 4, ?_, hi3, ?_⟩
    · have he2 := he.2 ⟨rfl, hm⟩
      simp [mjson_read_type, h1, hp, h2, he2, hm]
    · rw [if_pos hm, hs3]; rfl
  · refine ⟨c2, ?_, hi2, ?_⟩
    · have he2 : ¬ mjson_equal_string_ (MJSON_BUFFER_START_ c2) (literal [110, 117, 108, 108]) 4
          = MJSON_OK := fun h => hm (he.1 h).2
      simp [mjson_read_type, h1, hp, h2, he2, hm]
    · rw [if_neg hm, hs2]

theorem read_type_f (c : mjson_ctx) (b1 b2 b3 b4 : Nat) (t : List Nat) (hinv : WindowInv c)
    (hs : unconsumed c = 102 :: b1 :: b2 :: b3 :: b4 :: t) :
    ∃ c2, mjson_read_type c =
        (if b1 = 97 ∧ b2 = 108 ∧ b3 = 115 ∧ b4 = 101 then MJSON_TYPE_FALSE
          else MJSON_ERROR_UNKNOWN_TYPE, c2) ∧
      WindowInv c2 ∧
      unconsumed c2 = if b1 = 97 ∧ b2 = 108 ∧ b3 = 115 ∧ b4 = 101 then t
        else 102 :: b1 :: b2 :: b3 :: b4 :: t := by
  obtain ⟨c1, h1, hi1, hs1, hl1, hp1⟩ := ensure_peek c 1 _ hinv (by decide) hs (by simp)
  have hp := hp1 0 (by omega)
  obtain ⟨c2, h2, hi2, hs2, hl2, hp2⟩ := ensure_peek c1 5 _ hi1 (by decide) hs1 (by simp)
  have q0 := hp2 0 (by omega)
  have q1 := hp2 1 (by omega)
  have q2 := hp2 2 (by omega)
  have q3 := hp2 3 (by omega)
  have q4 := hp2 4 (by omega)
  obtain ⟨hi3, hs3⟩ := consume_drop c2 5 _ hi2 hl2 hs2
  simp at hp q0 q1 q2 q3 q4
  have he := equal_string_false (MJSON_BUFFER_START_ c2)
  rw [q0, q1, q2, q3, q4] at he
  by_cases hm : b1 = 97 ∧ b2 = 108 ∧ b3 = 115 ∧ b4 = 101
  · refine ⟨mjson_consume_byte_ c2 5, ?_, hi3, ?_⟩
    · have he2 := he.2 ⟨rfl, hm⟩
      simp [mjson_read_type, h1, hp, h2, he2, hm]
    · rw [if_pos hm, hs3]; rfl
  · refine ⟨c2, ?_, hi2, ?_⟩
    · have he2 : ¬ mjson_equal_string_ (MJSON_BUFFER_START_ c2)
          (literal [102, 97, 108, 115, 101]) 5 = MJSON_OK := fun h => hm (he.1 h).2
      simp [mjson_read_type, h1, hp, h2, he2, hm]
    · rw [if_neg hm, hs2]

/-- A first byte that opens no token, or the first byte of a number: nothing
is consumed. -/
theorem read_type_other (c : mjson_ctx) (b : Nat) (t : List Nat) (hinv : WindowInv c)
    (hs : unconsumed c = b :: t)
    (hb : b ≠ 34 ∧ b ≠ 123 ∧ b ≠ 91 ∧ b ≠ 116 ∧ b ≠ 102 ∧ b ≠ 110) :
    ∃ c2, mjson_read_type c =
        (if b = 45 ∨ (48 ≤ b ∧ b ≤ 57) then MJSON_TYPE_NUMBER else MJSON_ERROR_UNKNOWN_TYPE, c2) ∧
      WindowInv c2 ∧ unconsumed c2 = b :: t ∧ 1 ≤ c2.length ∧ MJSON_BUFFER_START_ c2 0 = b := by
  obtain ⟨c1, h1, hi1, hs1, hl1, hp1⟩ := ensure_peek c 1 _ hinv (by decide) hs (by simp)
  have hp := hp1 0 (by omega)
  simp at hp
  refine ⟨c1, ?_, hi1, hs1, hl1, hp⟩
  obtain ⟨n1, n2, n3, n4, n5, n6⟩ := hb
  by_cases hnum : b = 45 ∨ (48 ≤ b ∧ b ≤ 57)
  · simp [mjson_read_type, h1, hp, n1, n2, n3, n4, n5, n6, hnum]
  · simp [mjson_read_type, h1, hp, n1, n2, n3, n4, n5, n6, hnum]

/-- On an exhausted stream `mjson_read_type` fails with `MJSON_ERROR_READING`. -/
theorem read_type_nil (c : mjson_ctx) (hs : unconsumed c = []) :
    (mjson_read_type c).1 = MJSON_ERROR_READING := by
  have h := ensure_stream_fail c 1 (by decide) (by rw [hs]; decide)
  simp only [mjson_read_type]
  rw [if_pos (by rw [h]; decide)]
  exact h

/-! ## Claims on the type dispatcher and the checked readers -/

/-- C2: on a context that satisfies the window invariant, `mjson_read_type`
follows the dispatch table. A first byte `"`, `{` or `[` gives String, Object
or Array and exactly that byte is consumed; a stream that starts with `true`,
`false` or `null` gives True, False or Null and exactly the literal is
consumed; a first byte `-` or `0`..`9` gives Number, nothing is consumed and
the byte is the next one in the window; a first byte `t`, `n` (with three
more bytes supplied) or `f` (with four more) that does not start the literal
gives `MJSON_ERROR_UNKNOWN_TYPE` with nothing consumed, and so does every
other first byte. -/
theorem read_type_dispatch_table (c : mjson_ctx) (hinv : WindowInv c) :
    (∀ t, unconsumed c = 34 :: t →
      (mjson_read_type c).1 = MJSON_TYPE_STRING ∧ unconsumed (mjson_read_type c).2 = t) ∧
    (∀ t, unconsumed c = 123 :: t →
      (mjson_read_type c).1 = MJSON_TYPE_OBJECT ∧ unconsumed (mjson_read_type c).2 = t) ∧
    (∀ t, unconsumed c = 91 :: t →
      (mjson_read_type c).1 = MJSON_TYPE_ARRAY ∧ unconsumed (mjson_read_type c).2 = t) ∧
    (∀ t, unconsumed c = [116, 114, 117, 101] ++ t →
      (mjson_read_type c).1 = MJSON_TYPE_TRUE ∧ unconsumed (mjson_read_type c).2 = t) ∧
    (∀ t, unconsumed c = [102, 97, 108, 115, 101] ++ t →
      (mjson_read_type c).1 = MJSON_TYPE_FALSE ∧ unconsumed (mjson_read_type c).2 = t) ∧
    (∀ t, unconsumed c = [110, 117, 108, 108] ++ t →
      (mjson_read_type c).1 = MJSON_TYPE_NULL ∧ unconsumed (mjson_read_type c).2 = t) ∧
    (∀ b t, unconsumed c = b :: t → b = 45 ∨ (48 ≤ b ∧ b ≤ 57) →
      (mjson_read_type c).1 = MJSON_TYPE_NUMBER ∧ unconsumed (mjson_read_type c).2 = b :: t ∧
      1 ≤ (mjson_read_type c).2.length ∧ MJSON_BUFFER_START_ (mjson_read_type c).2 0 = b) ∧
    (∀ b1 b2 b3 t, unconsumed c = 116 :: b1 :: b2 :: b3 :: t → ¬ (b1 = 114 ∧ b2 = 117 ∧ b3 = 101) →
      (mjson_read_type c).1 = MJSON_ERROR_UNKNOWN_TYPE ∧
      unconsumed (mjson_read_type c).2 = unconsumed c) ∧
    (∀ b1 b2 b3 b4 t, unconsumed c = 102 :: b1 :: b2 :: b3 :: b4 :: t →
      ¬ (b1 = 97 ∧ b2 = 108 ∧ b3 = 115 ∧ b4 = 101) →
      (mjson_read_type c).1 = MJSON_ERROR_UNKNOWN_TYPE ∧
      unconsumed (mjson_read_type c).2 = unconsumed c) ∧
    (∀ b1 b2 b3 t, unconsumed c = 110 :: b1 :: b2 :: b3 :: t → ¬ (b1 = 117 ∧ b2 = 108 ∧ b3 = 108) →
      (mjson_read_type c).1 = MJSON_ERROR_UNKNOWN_TYPE ∧
      unconsumed (mjson_read_type c).2 = unconsumed c) ∧
    (∀ b t, unconsumed c = b :: t →
      b ≠ 34 ∧ b ≠ 123 ∧ b ≠ 91 ∧ b ≠ 116 ∧ b ≠ 102 ∧ b ≠ 110 ∧ b ≠ 45 ∧ ¬ (48 ≤ b ∧ b ≤ 57) →
      (mjson_read_type c).1 = MJSON_ERROR_UNKNOWN_TYPE ∧
      unconsumed (mjson_read_type c).2 = unconsumed c) := by
  refine ⟨?_, ?_, ?_, ?_, ?_, ?_, ?_, ?_, ?_, ?_, ?_⟩
  · intro t hs
    obtain ⟨c2, h, _, h2⟩ := read_type_string c t hinv hs
    rw [h]; exact ⟨rfl, h2⟩
  · intro t hs
    obtain ⟨c2, h, _, h2⟩ := read_type_object c t hinv hs
    rw [h]; exact ⟨rfl, h2⟩
  · intro t hs
    obtain ⟨c2, h, _, h2⟩ := read_type_array c t hinv hs
    rw [h]; exact ⟨rfl, h2⟩
  · intro t hs
    obtain ⟨c2, h, _, h2⟩ := read_type_t c 114 117 101 t hinv hs
    rw [h]; exact ⟨rfl, h2⟩
  · intro t hs
    obtain ⟨c2, h, _, h2⟩ := read_type_f c 97 108 115 101 t hinv hs
    rw [h]; exact ⟨rfl, h2⟩
  · intro t hs
    obtain ⟨c2, h, _, h2⟩ := read_type_n c 117 108 108 t hinv hs
    rw [h]; exact ⟨rfl, h2⟩
  · intro b t hs hb
    obtain ⟨c2, h, _, h2, h3, h4⟩ := read_type_other c b t hinv hs (by omega)
    rw [h, if_pos hb]; exact ⟨rfl, h2, h3, h4⟩
  · intro b1 b2 b3 t hs hm
    obtain ⟨c2, h, _, h2⟩ := read_type_t c b1 b2 b3 t hinv hs
    rw [if_neg hm] at h h2
    rw [h, hs]; exact ⟨rfl, h2⟩
  · intro b1 b2 b3 b4 t hs hm
    obtain ⟨c2, h, _, h2⟩ := read_type_f c b1 b2 b3 b4 t hinv hs
    rw [if_neg hm] at h h2
    rw [h, hs]; exact ⟨rfl, h2⟩
  · intro b1 b2 b3 t hs hm
    obtain ⟨c2, h, _, h2⟩ := read_type_n c b1 b2 b3 t hinv hs
    rw [if_neg hm] at h h2
    rw [h, hs]; exact ⟨rfl, h2⟩
  · intro b t hs hb
    obtain ⟨c2, h, _, h2, _⟩ := read_type_other c b t hinv hs
      ⟨hb.1, hb.2.1, hb.2.2.1, hb.2.2.2.1, hb.2.2.2.2.1, hb.2.2.2.2.2.1⟩
    have hn : ¬ (b = 45 ∨ (48 ≤ b ∧ b ≤ 57)) := by
      intro hx
      rcases hx with hx | hx
      · exact hb.2.2.2.2.2.2.1 hx
      · exact hb.2.2.2.2.2.2.2 hx
    rw [h, if_neg hn, hs]; exact ⟨rfl, h2⟩

/-- The stream `false,` on a fresh context: tag False, five bytes consumed. -/
theorem read_type_dispatch_table_witness :
    WindowInv (mjson_init blank_ctx [102, 97, 108, 115, 101, 44]) ∧
    (mjson_read_type (mjson_init blank_ctx [102, 97, 108, 115, 101, 44])).1 = MJSON_TYPE_FALSE ∧
    unconsumed (mjson_read_type (mjson_init blank_ctx [102, 97, 108, 115, 101, 44])).2 = [44] :=
  ⟨by decide,
   (read_type_dispatch_table (mjson_init blank_ctx [102, 97, 108, 115, 101, 44])
      (by decide)).2.2.2.2.1 [44] (by decide)⟩

/-- C9: each checked reader returns `MJSON_OK` exactly when `mjson_read_type`
on the same context returns the expected tag and `MJSON_ERROR_CHECK_FAILURE`
on every other result, and leaves the context as `mjson_read_type` leaves it;
`mjson_readcheck_boolean` stores 1 on True, 0 on False and nothing when it
fails. -/
theorem readcheck_follows_read_type (c : mjson_ctx) :
    (((mjson_readcheck_null c).1 = MJSON_OK ↔ (mjson_read_type c).1 = MJSON_TYPE_NULL) ∧
      ((mjson_read_type c).1 ≠ MJSON_TYPE_NULL →
        (mjson_readcheck_null c).1 = MJSON_ERROR_CHECK_FAILURE) ∧
      (mjson_readcheck_null c).2 = (mjson_read_type c).2) ∧
    (((mjson_readcheck_string_start c).1 = MJSON_OK ↔
        (mjson_read_type c).1 = MJSON_TYPE_STRING) ∧
      ((mjson_read_type c).1 ≠ MJSON_TYPE_STRING →
        (mjson_readcheck_string_start c).1 = MJSON_ERROR_CHECK_FAILURE) ∧
      (mjson_readcheck_string_start c).2 = (mjson_read_type c).2) ∧
    (((mjson_readcheck_array_start c).1 = MJSON_OK ↔
        (mjson_read_type c).1 = MJSON_TYPE_ARRAY) ∧
      ((mjson_read_type c).1 ≠ MJSON_TYPE_ARRAY →
        (mjson_readcheck_array_start c).1 = MJSON_ERROR_CHECK_FAILURE) ∧
      (mjson_readcheck_array_start c).2 = (mjson_read_type c).2) ∧
    (((mjson_readcheck_object_start c).1 = MJSON_OK ↔
        (mjson_read_type c).1 = MJSON_TYPE_OBJECT) ∧
      ((mjson_read_type c).1 ≠ MJSON_TYPE_OBJECT →
        (mjson_readcheck_object_start c).1 = MJSON_ERROR_CHECK_FAILURE) ∧
      (mjson_readcheck_object_start c).2 = (mjson_read_type c).2) ∧
    (((mjson_readcheck_boolean c).status = MJSON_OK ↔
        ((mjson_read_type c).1 = MJSON_TYPE_TRUE ∨ (mjson_read_type c).1 = MJSON_TYPE_FALSE)) ∧
      ((mjson_read_type c).1 = MJSON_TYPE_TRUE → (mjson_readcheck_boolean c).b = some 1) ∧
      ((mjson_read_type c).1 = MJSON_TYPE_FALSE → (mjson_readcheck_boolean c).b = some 0) ∧
      ((mjson_read_type c).1 ≠ MJSON_TYPE_TRUE → (mjson_read_type c).1 ≠ MJSON_TYPE_FALSE →
        (mjson_readcheck_boolean c).status = MJSON_ERROR_CHECK_FAILURE ∧
        (mjson_readcheck_boolean c).b = none) ∧
      (mjson_readcheck_boolean c).ctx = (mjson_read_type c).2) := by
  refine ⟨⟨?_, ?_, rfl⟩, ⟨?_, ?_, rfl⟩, ⟨?_, ?_, rfl⟩, ⟨?_, ?_, rfl⟩, ?_, ?_, ?_, ?_, ?_⟩
  · simp only [mjson_readcheck_null]
    by_cases h : (mjson_read_type c).1 = MJSON_TYPE_NULL <;>
      simp [h, MJSON_OK, MJSON_ERROR_CHECK_FAILURE]
  · intro h; simp [mjson_readcheck_null, h]
  · simp only [mjson_readcheck_string_start]
    by_cases h : (mjson_read_type c).1 = MJSON_TYPE_STRING <;>
      simp [h, MJSON_OK, MJSON_ERROR_CHECK_FAILURE]
  · intro h; simp [mjson_readcheck_string_start, h]
  · simp only [mjson_readcheck_array_start]
    by_cases h : (mjson_read_type c).1 = MJSON_TYPE_ARRAY <;>
      simp [h, MJSON_OK, MJSON_ERROR_CHECK_FAILURE]
  · intro h; simp [mjson_readcheck_array_start, h]
  · simp only [mjson_readcheck_object_start]
    by_cases h : (mjson_read_type c).1 = MJSON_TYPE_OBJECT <;>
      simp [h, MJSON_OK, MJSON_ERROR_CHECK_FAILURE]
  · intro h; simp [mjson_readcheck_object_start, h]
  · simp only [mjson_readcheck_boolean]
    by_cases h : (mjson_read_type c).1 = MJSON_TYPE_TRUE
    · simp [h]
    · by_cases h2 : (mjson_read_type c).1 = MJSON_TYPE_FALSE
      · have h3 : MJSON_TYPE_FALSE ≠ MJSON_TYPE_TRUE := by decide
        simp [h2, h3]
      · simp [h, h2, MJSON_OK, MJSON_ERROR_CHECK_FAILURE]
  · intro h; simp [mjson_readcheck_boolean, h]
  · intro h
    have h2 : MJSON_TYPE_FALSE ≠ MJSON_TYPE_TRUE := by decide
    simp [mjson_readcheck_boolean, h, h2]
  · intro h h2; simp [mjson_readcheck_boolean, h, h2]
  · simp only [mjson_readcheck_boolean]
    split_ifs <;> rfl

/-! ## The string decoders on streams -/

theorem escape_byte_eq_table (e : Nat) : escape_byte e = table_escape e := by
  by_cases h1 : e = 34
  · subst h1; rfl
  by_cases h2 : e = 92
  · subst h2; rfl
  by_cases h3 : e = 47
  · subst h3; rfl
  by_cases h4 : e = 98
  · subst h4; rfl
  by_cases h5 : e = 102
  · subst h5; rfl
  by_cases h6 : e = 110
  · subst h6; rfl
  by_cases h7 : e = 114
  · subst h7; rfl
  by_cases h8 : e = 116
  · subst h8; rfl
  simp only [escape_byte, h1, h2, h3, h4, h5, h6, h7, h8, if_false]
  unfold table_escape
  split <;> first | rfl | contradiction

theorem in_table_plain {b : Nat} (h : (StrItem.plain b).in_table = true) : b ≠ 34 ∧ b ≠ 92 := by
  simpa [StrItem.in_table] using h

theorem skippable_plain {b : Nat} (h : (StrItem.plain b).skippable = true) : b ≠ 34 ∧ b ≠ 92 := by
  simpa [StrItem.skippable] using h

theorem in_table_esc {e : Nat} (h : (StrItem.esc e).in_table = true) :
    escape_byte e = some (StrItem.esc e).decode := by
  rw [escape_byte_eq_table]
  simp only [StrItem.in_table] at h
  simp only [StrItem.decode]
  cases hte : table_escape e with
  | none => rw [hte] at h; simp at h
  | some d => rfl

/-- The copying loop of `mjson_read_partial_string` on a body of table
elements: it stops after `k` elements, or at the closing quote. -/
theorem partial_loop_spec : ∀ (k : Nat) (items : List StrItem) (c : mjson_ctx) (data : Mem)
    (i : Nat) (tail : List Nat), (∀ it ∈ items, it.in_table = true) → WindowInv c →
    unconsumed c = encode_body items ++ tail →
    (k ≤ items.length ∨ ∃ rest, tail = 34 :: rest) →
    ∃ c2, read_partial_string_loop k c data i =
        ⟨MJSON_OK, c2, write_bytes data i (decode_body (items.take k)),
          some (i + (items.take k).length)⟩ ∧
      WindowInv c2 ∧ unconsumed c2 = encode_body (items.drop k) ++ tail := by
  intro k
  induction k with
  | zero =>
    intro items c data i tail _ hinv hs _
    exact ⟨c, by simp [read_partial_string_loop, decode_body, write_bytes], hinv, by simpa using hs⟩
  | succ k ih =>
    intro items c data i tail htab hinv hs hk
    cases items with
    | nil =>
      obtain ⟨rest, hrest⟩ : ∃ rest, tail = 34 :: rest := by
        rcases hk with hk | hk
        · simp at hk
        · exact hk
      subst hrest
      simp only [encode_body, List.nil_append] at hs
      obtain ⟨c1, h1, hi1, hs1, hl1, hp1⟩ := ensure_peek c 1 _ hinv (by decide) hs (by simp)
      have hp := hp1 0 (by omega)
      simp at hp
      refine ⟨c1, ?_, hi1, by simpa [encode_body] using hs1⟩
      simp [read_partial_string_loop, h1, hp, decode_body, write_bytes]
    | cons it its =>
      have htab2 : ∀ x ∈ its, x.in_table = true := fun x hx => htab x (List.mem_cons_of_mem _ hx)
      have hk2 : k ≤ its.length ∨ ∃ rest, tail = 34 :: rest := by
        rcases hk with hk | hk
        · left; simp at hk; omega
        · right; exact hk
      cases it with
      | plain b =>
        obtain ⟨n1, n2⟩ := in_table_plain (htab _ (List.mem_cons_self _ _))
        simp only [encode_body, StrItem.encode, List.cons_append, List.nil_append] at hs
        obtain ⟨c1, h1, hi1, hs1, hl1, hp1⟩ := ensure_peek c 1 _ hinv (by decide) hs (by simp)
        have hp := hp1 0 (by omega)
        simp at hp
        obtain ⟨hi2, hs2⟩ := consume_drop c1 1 _ hi1 hl1 hs1
        obtain ⟨c3, h3, hi3, hs3⟩ := ih its (mjson_consume_byte_ c1 1) (data.set i b) (i + 1) tail
          htab2 hi2 (by simpa using hs2) hk2
        refine ⟨c3, ?_, hi3, by simpa using hs3⟩
        rw [read_partial_string_loop]
        simp only [h1, hp, n1, n2, if_false, ne_eq, not_true_eq_false, h3]
        simp [decode_body, write_bytes, StrItem.decode]
        omega
      | esc e =>
        have he := in_table_esc (htab _ (List.mem_cons_self _ _))
        simp only [encode_body, StrItem.encode, List.cons_append, List.nil_append] at hs
        obtain ⟨c1, h1, hi1, hs1, hl1, hp1⟩ := ensure_peek c 1 _ hinv (by decide) hs (by simp)
        have hp := hp1 0 (by omega)
        obtain ⟨c2, h2, hi2, hs2, hl2, hp2⟩ := ensure_peek c1 2 _ hi1 (by decide) hs1 (by simp)
        have hq := hp2 1 (by omega)
        simp at hp hq
        obtain ⟨hi3, hs3⟩ := consume_drop c2 2 _ hi2 hl2 hs2
        obtain ⟨c4, h4, hi4, hs4⟩ := ih its (mjson_consume_byte_ c2 2)
          (data.set i (StrItem.esc e).decode) (i + 1) tail htab2 hi3 (by simpa using hs3) hk2
        refine ⟨c4, ?_, hi4, by simpa using hs4⟩
        rw [read_partial_string_loop]
        simp only [h1, hp, h2, hq, he, if_false, ne_eq, not_true_eq_false, h4]
        simp [decode_body, write_bytes]
        omega

/-- The loop of `mjson_read_full_string` skips a body of skippable elements
and its closing quote, counting the elements. -/
theorem full_loop_spec : ∀ (items : List StrItem) (fuel : Nat) (c : mjson_ctx) (data : Mem)
    (n0 : Nat) (rest : List Nat), (∀ it ∈ items, it.skippable = true) → WindowInv c →
    unconsumed c = encode_body items ++ 34 :: rest → items.length < fuel →
    ∃ c2, read_full_string_loop fuel c data n0 =
        some ⟨MJSON_OK, c2, data, some (n0 + items.length)⟩ ∧
      WindowInv c2 ∧ unconsumed c2 = rest := by
  intro items
  induction items with
  | nil =>
    intro fuel c data n0 rest _ hinv hs hf
    obtain ⟨f, rfl⟩ : ∃ f, fuel = f + 1 := ⟨fuel - 1, by simp at hf; omega⟩
    simp only [encode_body, List.nil_append] at hs
    obtain ⟨c1, h1, hi1, hs1, hl1, hp1⟩ := ensure_peek c 1 _ hinv (by decide) hs (by simp)
    have hp := hp1 0 (by omega)
    simp at hp
    obtain ⟨hi2, hs2⟩ := consume_drop c1 1 _ hi1 hl1 hs1
    refine ⟨mjson_consume_byte_ c1 1, ?_, hi2, by simpa using hs2⟩
    simp [read_full_string_loop, h1, hp]
  | cons it its ih =>
    intro fuel c data n0 rest hsk hinv hs hf
    obtain ⟨f, rfl⟩ : ∃ f, fuel = f + 1 := ⟨fuel - 1, by simp at hf; omega⟩
    have hsk2 : ∀ x ∈ its, x.skippable = true := fun x hx => hsk x (List.mem_cons_of_mem _ hx)
    have hf2 : its.length < f := by simp at hf; omega
    cases it with
    | plain b =>
      obtain ⟨n1, n2⟩ := skippable_plain (hsk _ (List.mem_cons_self _ _))
      simp only [encode_body, StrItem.encode, List.cons_append, List.nil_append] at hs
      obtain ⟨c1, h1, hi1, hs1, hl1, hp1⟩ := ensure_peek c 1 _ hinv (by decide) hs (by simp)
      have hp := hp1 0 (by omega)
      simp at hp
      obtain ⟨hi2, hs2⟩ := consume_drop c1 1 _ hi1 hl1 hs1
      obtain ⟨c3, h3, hi3, hs3⟩ := ih f (mjson_consume_byte_ c1 1) data (n0 + 1) rest
        hsk2 hi2 (by simpa using hs2) hf2
      refine ⟨c3, ?_, hi3, hs3⟩
      rw [read_full_string_loop]
      simp only [h1, hp, n1, n2, if_false, ne_eq, not_true_eq_false, h3]
      simp
      omega
    | esc e =>
      simp only [encode_body, StrItem.encode, List.cons_append, List.nil_append] at hs
      obtain ⟨c1, h1, hi1, hs1, hl1, hp1⟩ := ensure_peek c 1 _ hinv (by decide) hs (by simp)
      have hp := hp1 0 (by omega)
      obtain ⟨c2, h2, hi2, hs2, hl2, _⟩ := ensure_peek c1 2 _ hi1 (by decide) hs1 (by simp)
      simp at hp
      obtain ⟨hi3, hs3⟩ := consume_drop c2 2 _ hi2 hl2 hs2
      obtain ⟨c4, h4, hi4, hs4⟩ := ih f (mjson_consume_byte_ c2 2) data (n0 + 1) rest
        hsk2 hi3 (by simpa using hs3) hf2
      refine ⟨c4, ?_, hi4, hs4⟩
      rw [read_full_string_loop]
      simp only [h1, hp, h2, if_false, ne_eq, not_true_eq_false, h4]
      simp
      omega

/-- The copying loop of `mjson_read_partial_string` rejects an escape outside
the table when it reaches it. -/
theorem partial_loop_unknown : ∀ (pre : List StrItem) (k : Nat) (c : mjson_ctx) (data : Mem)
    (i e : Nat) (rest : List Nat), (∀ it ∈ pre, it.in_table = true) → WindowInv c →
    unconsumed c = encode_body pre ++ 92 :: e :: rest → table_escape e = none →
    pre.length < k →
    (read_partial_string_loop k c data i).status = MJSON_ERROR_UNKNOWN_TYPE ∧
      (read_partial_string_loop k c data i).out_length = none := by
  intro pre
  induction pre with
  | nil =>
    intro k c data i e rest _ hinv hs he hk
    obtain ⟨f, rfl⟩ : ∃ f, k = f + 1 := ⟨k - 1, by simp at hk; omega⟩
    simp only [encode_body, List.nil_append] at hs
    obtain ⟨c1, h1, hi1, hs1, hl1, hp1⟩ := ensure_peek c 1 _ hinv (by decide) hs (by simp)
    have hp := hp1 0 (by omega)
    obtain ⟨c2, h2, hi2, hs2, hl2, hp2⟩ := ensure_peek c1 2 _ hi1 (by decide) hs1 (by simp)
    have hq := hp2 1 (by omega)
    simp at hp hq
    have he2 : escape_byte e = none := by rw [escape_byte_eq_table]; exact he
    rw [read_partial_string_loop]
    simp only [h1, hp, h2, hq, he2, if_false, ne_eq, not_true_eq_false]
    simp
  | cons it its ih =>
    intro k c data i e rest htab hinv hs he hk
    obtain ⟨f, rfl⟩ : ∃ f, k = f + 1 := ⟨k - 1, by simp at hk; omega⟩
    have htab2 : ∀ x ∈ its, x.in_table = true := fun x hx => htab x (List.mem_cons_of_mem _ hx)
    have hk2 : its.length < f := by simp at hk; omega
    cases it with
    | plain b =>
      obtain ⟨n1, n2⟩ := in_table_plain (htab _ (List.mem_cons_self _ _))
      simp only [encode_body, StrItem.encode, List.cons_append, List.nil_append] at hs
      obtain ⟨c1, h1, hi1, hs1, hl1, hp1⟩ := ensure_peek c 1 _ hinv (by decide) hs (by simp)
      have hp := hp1 0 (by omega)
      simp at hp
      obtain ⟨hi2, hs2⟩ := consume_drop c1 1 _ hi1 hl1 hs1
      have h3 := ih f (mjson_consume_byte_ c1 1) (data.set i b) (i + 1) e rest
        htab2 hi2 (by simpa using hs2) he hk2
      rw [read_partial_string_loop]
      simp only [h1, hp, n1, n2, if_false, ne_eq, not_true_eq_false]
      exact h3
    | esc x =>
      have hx := in_table_esc (htab _ (List.mem_cons_self _ _))
      simp only [encode_body, StrItem.encode, List.cons_append, List.nil_append] at hs
      obtain ⟨c1, h1, hi1, hs1, hl1, hp1⟩ := ensure_peek c 1 _ hinv (by decide) hs (by simp)
      have hp := hp1 0 (by omega)
      obtain ⟨c2, h2, hi2, hs2, hl2, hp2⟩ := ensure_peek c1 2 _ hi1 (by decide) hs1 (by simp)
      have hq := hp2 1 (by omega)
      simp at hp hq
      obtain ⟨hi3, hs3⟩ := consume_drop c2 2 _ hi2 hl2 hs2
      have h4 := ih f (mjson_consume_byte_ c2 2) (data.set i (StrItem.esc x).decode) (i + 1)
        e rest htab2 hi3 (by simpa using hs3) he hk2
      rw [read_partial_string_loop]
      simp only [h1, hp, h2, hq, hx, if_false, ne_eq, not_true_eq_false]
      exact h4

theorem first_bytes_write (data : Mem) (bs : List Nat) :
    first_bytes (write_bytes data 0 bs) bs.length = bs := by
  apply List.ext_getElem?
  intro j
  simp only [first_bytes, List.getElem?_map]
  by_cases hj : j < bs.length
  · rw [List.getElem?_range hj, List.getElem?_eq_getElem hj]
    simp only [Option.map_some', write_bytes_apply]
    rw [if_pos (by omega), List.getD_eq_getElem?_getD, List.getElem?_eq_getElem (by omega)]
    simp
  · rw [List.getElem?_eq_none (by simpa using hj), List.getElem?_eq_none (by simpa using hj)]
    rfl

theorem write_bytes_above (data : Mem) (pos : Nat) (bs : List Nat) (j : Nat)
    (hj : pos + bs.length ≤ j) : write_bytes data pos bs j = data j := by
  rw [write_bytes_apply, if_neg (by omega)]

theorem encode_body_append (a b : List StrItem) :
    encode_body (a ++ b) = encode_body a ++ encode_body b := by
  induction a with
  | nil => rfl
  | cons it its ih => simp [encode_body, ih]

/-! ## Claims on the string decoders -/

theorem in_table_skippable {it : StrItem} (h : it.in_table = true) : it.skippable = true := by
  cases it with
  | plain b => exact h
  | esc e => rfl

theorem decode_body_length (items : List StrItem) : (decode_body items).length = items.length := by
  simp [decode_body]

theorem decode_body_take (items : List StrItem) (k : Nat) :
    decode_body (items.take k) = (decode_body items).take k := by
  simp [decode_body, List.map_take]

/-- What `mjson_read_partial_string` returns on a body of table elements that
ends with a closing quote. -/
theorem partial_string_spec (items : List StrItem) (cap : Nat) (c : mjson_ctx) (data : Mem)
    (tail : List Nat) (htab : ∀ it ∈ items, it.in_table = true) (hinv : WindowInv c)
    (hs : unconsumed c = encode_body items ++ tail)
    (hk : cap ≤ items.length ∨ ∃ rest, tail = 34 :: rest) :
    ∃ c2, mjson_read_partial_string c data cap =
        ⟨MJSON_OK, c2, write_bytes data 0 ((decode_body items).take cap),
          some (min cap items.length)⟩ ∧
      WindowInv c2 ∧ unconsumed c2 = encode_body (items.drop cap) ++ tail := by
  obtain ⟨c2, h, hi, hu⟩ := partial_loop_spec cap items c data 0 tail htab hinv hs hk
  refine ⟨c2, ?_, hi, hu⟩
  rw [mjson_read_partial_string, h, decode_body_take]
  simp

/-- C8: on a body of table elements closed by a quote, with any capacity,
`mjson_read_partial_string` returns `MJSON_OK`, reports `min(capacity, decoded
length)`, the buffer holds exactly that decoded prefix (and is untouched
above it), exactly the source bytes that encode the prefix are consumed, the
closing quote stays unconsumed, and when fewer bytes than the capacity were
reported the next unconsumed byte is the closing quote. -/
theorem read_partial_string_bounded (items : List StrItem) (cap : Nat) (c : mjson_ctx)
    (data : Mem) (rest : List Nat) (htab : ∀ it ∈ items, it.in_table = true)
    (hinv : WindowInv c) (hs : unconsumed c = encode_body items ++ 34 :: rest) :
    (mjson_read_partial_string c data cap).status = MJSON_OK ∧
    (mjson_read_partial_string c data cap).out_length
      = some (min cap (decode_body items).length) ∧
    first_bytes (mjson_read_partial_string c data cap).data (min cap (decode_body items).length)
      = (decode_body items).take cap ∧
    (∀ j, min cap (decode_body items).length ≤ j →
      (mjson_read_partial_string c data cap).data j = data j) ∧
    unconsumed c = encode_body (items.take cap)
      ++ unconsumed (mjson_read_partial_string c data cap).ctx ∧
    decode_body (items.take cap) = (decode_body items).take cap ∧
    unconsumed (mjson_read_partial_string c data cap).ctx
      = encode_body (items.drop cap) ++ 34 :: rest ∧
    (min cap (decode_body items).length < cap →
      unconsumed (mjson_read_partial_string c data cap).ctx = 34 :: rest) := by
  obtain ⟨c2, h, _, hu⟩ := partial_string_spec items cap c data (34 :: rest) htab hinv hs
    (Or.inr ⟨rest, rfl⟩)
  have hl : ((decode_body items).take cap).length = min cap (decode_body items).length := by
    simp
  rw [h]
  refine ⟨rfl, ?_, ?_, ?_, ?_, decode_body_take items cap, hu, ?_⟩
  · simp [decode_body_length]
  · show first_bytes (write_bytes data 0 _) _ = _
    rw [← hl, first_bytes_write]
  · intro j hj
    exact write_bytes_above data 0 _ j (by rw [hl]; omega)
  · show _ = _ ++ unconsumed c2
    rw [hu, hs, ← List.append_assoc, ← encode_body_append, List.take_append_drop]
  · intro hlt
    show unconsumed c2 = _
    rw [hu, List.drop_of_length_le (by rw [decode_body_length] at hlt; omega)]
    rfl

/-- The body `ab\tc` with capacity 2: two bytes reported, `\tc"` left. -/
theorem read_partial_string_bounded_witness :
    (mjson_read_partial_string (mjson_init blank_ctx [97, 98, 92, 116, 99, 34, 44]) NULL 2).status
      = MJSON_OK ∧
    (mjson_read_partial_string (mjson_init blank_ctx [97, 98, 92, 116, 99, 34, 44]) NULL 2).out_length
      = some 2 ∧
    first_bytes
      (mjson_read_partial_string (mjson_init blank_ctx [97, 98, 92, 116, 99, 34, 44]) NULL 2).data 2
      = [97, 98] ∧
    unconsumed
      (mjson_read_partial_string (mjson_init blank_ctx [97, 98, 92, 116, 99, 34, 44]) NULL 2).ctx
      = [92, 116, 99, 34, 44] := by
  have h := read_partial_string_bounded [.plain 97, .plain 98, .esc 116, .plain 99] 2
    (mjson_init blank_ctx [97, 98, 92, 116, 99, 34, 44]) NULL [44] (by decide) (by decide)
    (by decide)
  exact ⟨h.1, h.2.1, h.2.2.1, h.2.2.2.2.2.2.1⟩

/-- C3: on a body of table elements closed by a quote, with any capacity and
fuel above the number of elements, `mjson_read_full_string` returns
`MJSON_OK`, reports the decoded length of the whole body, the buffer holds the
first `min(capacity, decoded length)` decoded bytes (and is untouched above
them), and exactly the body and the closing quote are consumed. -/
theorem read_full_string_decodes (items : List StrItem) (cap : Nat) (c : mjson_ctx)
    (data : Mem) (rest : List Nat) (fuel : Nat) (htab : ∀ it ∈ items, it.in_table = true)
    (hinv : WindowInv c) (hs : unconsumed c = encode_body items ++ 34 :: rest)
    (hf : items.length < fuel) :
    ∃ r, mjson_read_full_string fuel c data cap = some r ∧
      r.status = MJSON_OK ∧
      r.out_length = some (decode_body items).length ∧
      first_bytes r.data (min cap (decode_body items).length) = (decode_body items).take cap ∧
      (∀ j, min cap (decode_body items).length ≤ j → r.data j = data j) ∧
      unconsumed r.ctx = rest := by
  obtain ⟨c2, h, hi2, hu⟩ := partial_string_spec items cap c data (34 :: rest) htab hinv hs
    (Or.inr ⟨rest, rfl⟩)
  obtain ⟨c3, h3, _, hu3⟩ := full_loop_spec (items.drop cap) fuel c2
    (write_bytes data 0 ((decode_body items).take cap)) (min cap items.length) rest
    (fun it hit => in_table_skippable (htab it (List.mem_of_mem_drop hit))) hi2 hu
    (by rw [List.length_drop]; omega)
  have hl : ((decode_body items).take cap).length = min cap (decode_body items).length := by
    simp
  refine ⟨⟨MJSON_OK, c3, write_bytes data 0 ((decode_body items).take cap),
    some (min cap items.length + (items.drop cap).length)⟩, ?_, rfl, ?_, ?_, ?_, hu3⟩
  · rw [mjson_read_full_string, h]
    simp only [ne_eq, not_true_eq_false, if_false, Option.getD_some]
    exact h3
  · simp only [decode_body_length, List.length_drop]
    congr 1; omega
  · show first_bytes (write_bytes data 0 _) _ = _
    rw [← hl, first_bytes_write]
  · intro j hj
    exact write_bytes_above data 0 _ j (by rw [hl]; omega)

/-- The body `a\nb` decodes to the bytes `a`, 0x0A, `b`, length 3. -/
theorem read_full_string_decodes_witness :
    ∃ r, mjson_read_full_string 4 (mjson_init blank_ctx [97, 92, 110, 98, 34, 44]) NULL 8 = some r ∧
      r.status = MJSON_OK ∧ r.out_length = some 3 ∧ first_bytes r.data 3 = [97, 10, 98] ∧
      unconsumed r.ctx = [44] := by
  obtain ⟨r, h1, h2, h3, h4, _, h6⟩ := read_full_string_decodes
    [.plain 97, .esc 110, .plain 98] 8 (mjson_init blank_ctx [97, 92, 110, 98, 34, 44]) NULL [44] 4
    (by decide) (by decide) (by decide) (by decide)
  exact ⟨r, h1, h2, h3, h4, h6⟩

/-- C7, counterexample: the byte `q` is outside the escape table, yet on the
body `\q"` `mjson_skip_string` and `mjson_read_full_string` with capacity 0
return `MJSON_OK`, and no amount of fuel makes `mjson_skip_string` return
`MJSON_ERROR_UNKNOWN_TYPE`. -/
theorem skip_string_accepts_unlisted_escape :
    table_escape 113 = none ∧
    (mjson_skip_string 2 (mjson_init blank_ctx [92, 113, 34])).map Prod.fst = some MJSON_OK ∧
    (mjson_read_full_string 2 (mjson_init blank_ctx [92, 113, 34]) NULL 0).map StringResult.status
      = some MJSON_OK ∧
    ¬ ∃ fuel, (mjson_skip_string fuel (mjson_init blank_ctx [92, 113, 34])).map Prod.fst
      = some MJSON_ERROR_UNKNOWN_TYPE := by
  refine ⟨rfl, by decide, by decide, ?_⟩
  rintro ⟨fuel, h⟩
  rcases fuel with _ | _ | f
  · revert h; decide
  · revert h; decide
  · obtain ⟨c2, h2, _, _⟩ := full_loop_spec [.esc 113] (f + 2) (mjson_init blank_ctx [92, 113, 34])
      NULL 0 [] (by decide) (by decide) (by decide) (by simp)
    have h3 : mjson_skip_string (f + 2) (mjson_init blank_ctx [92, 113, 34])
        = some (MJSON_OK, c2) := by
      simp only [mjson_skip_string, mjson_read_full_string, mjson_read_partial_string,
        read_partial_string_loop, ne_eq, not_true_eq_false, if_false, Option.getD_some, h2,
        Option.map_some']
    rw [h3] at h
    simp [MJSON_OK, MJSON_ERROR_UNKNOWN_TYPE] at h

/-- C7, amended: with an escape outside the table after a prefix of table
elements, `mjson_read_partial_string` and `mjson_read_full_string` return
`MJSON_ERROR_UNKNOWN_TYPE` and store no length when the capacity exceeds the
decoded length of the prefix, so that the escape is reached while copying.
With a capacity up to that length `mjson_read_partial_string` returns
`MJSON_OK` before the escape, and `mjson_read_full_string`, as
`mjson_skip_string` always, passes over the escape as one decoded byte without
looking it up and returns `MJSON_OK` at the closing quote. -/
theorem unlisted_escape_rejected_while_copying (pre post : List StrItem) (e cap : Nat)
    (c : mjson_ctx) (data : Mem) (rest : List Nat)
    (hpre : ∀ it ∈ pre, it.in_table = true) (he : table_escape e = none)
    (hpost : ∀ it ∈ post, it.skippable = true) (hinv : WindowInv c)
    (hs : unconsumed c = encode_body pre ++ 92 :: e :: (encode_body post ++ 34 :: rest)) :
    ((decode_body pre).length < cap →
      (mjson_read_partial_string c data cap).status = MJSON_ERROR_UNKNOWN_TYPE ∧
      (mjson_read_partial_string c data cap).out_length = none ∧
      ∀ fuel, ∃ r, mjson_read_full_string fuel c data cap = some r ∧
        r.status = MJSON_ERROR_UNKNOWN_TYPE ∧ r.out_length = none) ∧
    (cap ≤ (decode_body pre).length →
      (mjson_read_partial_string c data cap).status = MJSON_OK ∧
      ∀ fuel, pre.length + 1 + post.length < fuel →
        ∃ r, mjson_read_full_string fuel c data cap = some r ∧ r.status = MJSON_OK ∧
          r.out_length = some (pre.length + 1 + post.length) ∧ unconsumed r.ctx = rest) ∧
    (∀ fuel, pre.length + 1 + post.length < fuel →
      ∃ c2, mjson_skip_string fuel c = some (MJSON_OK, c2) ∧ unconsumed c2 = rest) := by
  have hskip : ∀ k, ∀ it ∈ pre.drop k ++ StrItem.esc e :: post, it.skippable = true := by
    intro k it hit
    rcases List.mem_append.1 hit with h | h
    · exact in_table_skippable (hpre it (List.mem_of_mem_drop h))
    · rcases List.mem_cons.1 h with h | h
      · rw [h]; rfl
      · exact hpost it h
  have hfull : ∀ cap2, cap2 ≤ pre.length → ∀ data2 fuel, pre.length + 1 + post.length < fuel →
      ∃ r, mjson_read_full_string fuel c data2 cap2 = some r ∧ r.status = MJSON_OK ∧
        r.out_length = some (pre.length + 1 + post.length) ∧ unconsumed r.ctx = rest := by
    intro cap2 hcap2 data2 fuel hf
    obtain ⟨c2, h2, hi2, hu2⟩ := partial_string_spec pre cap2 c data2 _ hpre hinv hs
      (Or.inl hcap2)
    have hu3 : unconsumed c2
        = encode_body (pre.drop cap2 ++ StrItem.esc e :: post) ++ 34 :: rest := by
      rw [hu2, encode_body_append]
      simp [encode_body, StrItem.encode]
    obtain ⟨c3, h3, _, hu4⟩ := full_loop_spec _ fuel c2
      (write_bytes data2 0 ((decode_body pre).take cap2)) (min cap2 pre.length) rest
      (hskip cap2) hi2 hu3 (by simp; omega)
    refine ⟨⟨MJSON_OK, c3, write_bytes data2 0 ((decode_body pre).take cap2),
      some (min cap2 pre.length + (pre.drop cap2 ++ StrItem.esc e :: post).length)⟩,
      ?_, rfl, ?_, hu4⟩
    · rw [mjson_read_full_string, h2]
      simp only [ne_eq, not_true_eq_false, if_false, Option.getD_some]
      exact h3
    · simp only [List.length_append, List.length_drop, List.length_cons]
      congr 1; omega
  refine ⟨?_, ?_, ?_⟩
  · intro hcap
    rw [decode_body_length] at hcap
    have h12 := partial_loop_unknown pre cap c data 0 e _ hpre hinv hs he hcap
    have h1 : (mjson_read_partial_string c data cap).status = MJSON_ERROR_UNKNOWN_TYPE := h12.1
    have h2 : (mjson_read_partial_string c data cap).out_length = none := h12.2
    refine ⟨h1, h2, ?_⟩
    intro fuel
    refine ⟨⟨MJSON_ERROR_UNKNOWN_TYPE, (mjson_read_partial_string c data cap).ctx,
      (mjson_read_partial_string c data cap).data, none⟩, ?_, rfl, rfl⟩
    rw [mjson_read_full_string, if_pos (by rw [h1]; decide), h1]
  · intro hcap
    rw [decode_body_length] at hcap
    refine ⟨?_, hfull cap hcap data⟩
    obtain ⟨c2, h2, _, _⟩ := partial_string_spec pre cap c data _ hpre hinv hs (Or.inl hcap)
    rw [h2]
  · intro fuel hf
    obtain ⟨r, h1, h2, _, h4⟩ := hfull 0 (Nat.zero_le _) NULL fuel hf
    refine ⟨r.ctx, ?_, h4⟩
    rw [mjson_skip_string, h1, Option.map_some', h2]

/-- The body `a\q"` with capacity 4 is rejected, with capacity 1 it is read
to the end with length 2. -/
theorem unlisted_escape_rejected_while_copying_witness :
    (mjson_read_partial_string (mjson_init blank_ctx [97, 92, 113, 34]) NULL 4).status
      = MJSON_ERROR_UNKNOWN_TYPE ∧
    (∃ r, mjson_read_full_string 3 (mjson_init blank_ctx [97, 92, 113, 34]) NULL 1 = some r ∧
      r.status = MJSON_OK ∧ r.out_length = some 2 ∧ unconsumed r.ctx = []) := by
  have h := unlisted_escape_rejected_while_copying [.plain 97] [] 113
  have h4 := h 4 (mjson_init blank_ctx [97, 92, 113, 34]) NULL [] (by decide) rfl (by decide)
    (by decide) (by decide)
  have h1 := h 1 (mjson_init blank_ctx [97, 92, 113, 34]) NULL [] (by decide) rfl (by decide)
    (by decide) (by decide)
  exact ⟨(h4.1 (by decide)).1, (h1.2.1 (by decide)).2 3 (by decide)⟩

/-! ## The number decoders on streams -/

theorem wrap_int_modEq (w : Nat) (x : Int) : wrap_int w x ≡ x [ZMOD 2 ^ w] := by
  have h := (Int.mod_modEq (x + 2 ^ (w - 1)) (2 ^ w)).sub_right (2 ^ (w - 1))
  simpa [wrap_int] using h

theorem wrap_int_congr (w : Nat) {a b : Int} (h : a ≡ b [ZMOD 2 ^ w]) :
    wrap_int w a = wrap_int w b := by
  have h2 : (a + 2 ^ (w - 1)) % 2 ^ w = (b + 2 ^ (w - 1)) % 2 ^ w := h.add_right _
  simp only [wrap_int, h2]

theorem wrap_int_range (w : Nat) (hw : 1 ≤ w) (x : Int) :
    -2 ^ (w - 1) ≤ wrap_int w x ∧ wrap_int w x < 2 ^ (w - 1) := by
  obtain ⟨k, rfl⟩ : ∃ k, w = k + 1 := ⟨w - 1, by omega⟩
  have hpos : (0 : Int) < 2 ^ (k + 1) := by positivity
  have h1 := Int.emod_nonneg (x + 2 ^ k) (ne_of_gt hpos)
  have h2 := Int.emod_lt_of_pos (x + 2 ^ k) hpos
  have h3 : (2 : Int) ^ (k + 1) = 2 * 2 ^ k := by ring
  simp only [wrap_int, Nat.add_sub_cancel]
  constructor <;> omega

theorem digits_value_modEq (w : Nat) : ∀ (digits : List Nat) (v v2 : Int),
    v ≡ v2 [ZMOD 2 ^ w] →
    digits_value w v digits ≡ digits.foldl (fun v d => v * 10 + ((d : Int) - 48)) v2
      [ZMOD 2 ^ w] := by
  intro digits
  induction digits with
  | nil => intro v v2 h; exact h
  | cons d ds ih =>
    intro v v2 h
    simp only [digits_value, List.foldl_cons]
    exact ih _ _ ((wrap_int_modEq w _).trans ((h.mul_right 10).add_right _))

/-- What the integer readers store, as a value of the `w`-bit type. -/
theorem stored_value_eq (w : Nat) (digits : List Nat) (sign : Int) :
    wrap_int w (digits_value w 0 digits * sign) = wrap_int w (sign * decimal_value digits) := by
  apply wrap_int_congr
  have h := (digits_value_modEq w digits 0 0 (Int.ModEq.refl 0)).mul_right sign
  rw [mul_comm sign]
  exact h

theorem digit_is_number_byte {d : Nat} (h : 48 ≤ d ∧ d ≤ 57) : is_number_byte d := Or.inl h

/-- One turn of the integer loops: consume the byte at the head of the window
and ensure the next one. -/
theorem consume_ensure (c : mjson_ctx) (b y : Nat) (t : List Nat) (hinv : WindowInv c)
    (hl : 1 ≤ c.length) (hs : unconsumed c = b :: y :: t) :
    ∃ c2, mjson_ensure_byte_ (mjson_consume_byte_ c 1) 1 = (MJSON_OK, c2) ∧ WindowInv c2 ∧
      1 ≤ c2.length ∧ unconsumed c2 = y :: t := by
  obtain ⟨hi1, hs1⟩ := consume_drop c 1 _ hinv hl hs
  obtain ⟨c2, h2, hi2, hs2, hl2, _⟩ := ensure_peek (mjson_consume_byte_ c 1) 1 (y :: t) hi1
    (by decide) (by simpa using hs1) (by simp)
  exact ⟨c2, h2, hi2, hl2, hs2⟩

theorem peek_head (c : mjson_ctx) (b : Nat) (t : List Nat) (hl : 1 ≤ c.length)
    (hs : unconsumed c = b :: t) : MJSON_BUFFER_START_ c 0 = b := by
  rw [peek_stream c 0 (by omega), hs]; rfl

/-- The digit loop of the integer readers on a run of digits followed by
another byte. -/
theorem read_int_digits_spec (w : Nat) : ∀ (digits : List Nat) (fuel : Nat) (c : mjson_ctx)
    (val : Int) (y : Nat) (rest : List Nat), (∀ d ∈ digits, 48 ≤ d ∧ d ≤ 57) →
    ¬ (48 ≤ y ∧ y ≤ 57) → WindowInv c → 1 ≤ c.length →
    unconsumed c = digits ++ y :: rest → digits.length < fuel →
    ∃ c2, read_int_digits w fuel c val = some (MJSON_OK, c2, digits_value w val digits) ∧
      WindowInv c2 ∧ 1 ≤ c2.length ∧ unconsumed c2 = y :: rest := by
  intro digits
  induction digits with
  | nil =>
    intro fuel c val y rest _ hy hinv hl hs hf
    obtain ⟨f, rfl⟩ : ∃ f, fuel = f + 1 := ⟨fuel - 1, by simp at hf; omega⟩
    simp only [List.nil_append] at hs
    have hp := peek_head c y rest hl hs
    refine ⟨c, ?_, hinv, hl, hs⟩
    rw [read_int_digits, hp, if_neg hy]
    rfl
  | cons d ds ih =>
    intro fuel c val y rest hd hy hinv hl hs hf
    obtain ⟨f, rfl⟩ : ∃ f, fuel = f + 1 := ⟨fuel - 1, by simp at hf; omega⟩
    have hd1 := hd d (List.mem_cons_self _ _)
    have hd2 : ∀ x ∈ ds, 48 ≤ x ∧ x ≤ 57 := fun x hx => hd x (List.mem_cons_of_mem _ hx)
    have hf2 : ds.length < f := by simp at hf; omega
    have hp := peek_head c d _ hl hs
    obtain ⟨z, zs, hz⟩ : ∃ z zs, ds ++ y :: rest = z :: zs := by
      cases ds with
      | nil => exact ⟨y, rest, rfl⟩
      | cons a as => exact ⟨a, as ++ y :: rest, rfl⟩
    obtain ⟨c2, h2, hi2, hl2, hs2⟩ := consume_ensure c d z zs hinv hl
      (by rw [hs, List.cons_append, hz])
    obtain ⟨c3, h3, hi3, hl3, hs3⟩ := ih f c2 (wrap_int w (val * 10 + ((d : Int) - 48))) y rest
      hd2 hy hi2 hl2 (by rw [hs2, hz]) hf2
    refine ⟨c3, ?_, hi3, hl3, hs3⟩
    rw [read_int_digits, hp, if_pos hd1]
    simp only [h2, ne_eq, not_true_eq_false, if_false, h3]
    rfl

/-- The loop after `Skip additional parts` on a run of numeric-looking bytes
followed by another byte. -/
theorem read_int_tail_spec : ∀ (tl : List Nat) (fuel : Nat) (c : mjson_ctx)
    (x : Nat) (rest : List Nat), (∀ b ∈ tl, is_number_byte b) →
    ¬ is_number_byte x → WindowInv c → 1 ≤ c.length →
    unconsumed c = tl ++ x :: rest → tl.length < fuel →
    ∃ c2, read_int_tail fuel c = some (MJSON_OK, c2) ∧
      WindowInv c2 ∧ 1 ≤ c2.length ∧ unconsumed c2 = x :: rest := by
  intro tl
  induction tl with
  | nil =>
    intro fuel c x rest _ hx hinv hl hs hf
    obtain ⟨f, rfl⟩ : ∃ f, fuel = f + 1 := ⟨fuel - 1, by simp at hf; omega⟩
    simp only [List.nil_append] at hs
    have hp := peek_head c x rest hl hs
    refine ⟨c, ?_, hinv, hl, hs⟩
    rw [read_int_tail, hp, if_neg hx]
  | cons d ds ih =>
    intro fuel c x rest hd hx hinv hl hs hf
    obtain ⟨f, rfl⟩ : ∃ f, fuel = f + 1 := ⟨fuel - 1, by simp at hf; omega⟩
    have hd1 := hd d (List.mem_cons_self _ _)
    have hd2 : ∀ b ∈ ds, is_number_byte b := fun b hb => hd b (List.mem_cons_of_mem _ hb)
    have hf2 : ds.length < f := by simp at hf; omega
    have hp := peek_head c d _ hl hs
    obtain ⟨z, zs, hz⟩ : ∃ z zs, ds ++ x :: rest = z :: zs := by
      cases ds with
      | nil => exact ⟨x, rest, rfl⟩
      | cons a as => exact ⟨a, as ++ x :: rest, rfl⟩
    obtain ⟨c2, h2, hi2, hl2, hs2⟩ := consume_ensure c d z zs hinv hl
      (by rw [hs, List.cons_append, hz])
    obtain ⟨c3, h3, hi3, hl3, hs3⟩ := ih f c2 x rest hd2 hx hi2 hl2 (by rw [hs2, hz]) hf2
    refine ⟨c3, ?_, hi3, hl3, hs3⟩
    rw [read_int_tail, hp, if_pos hd1]
    simp only [h2, ne_eq, not_true_eq_false, if_false, h3]

/-- The copying loop of `mjson_read_number_as_string`: it stops after `k`
bytes, or at the first byte that is not numeric-looking. -/
theorem number_copy_loop_spec : ∀ (k : Nat) (tok : List Nat) (c : mjson_ctx) (data : Mem)
    (i : Nat) (tail : List Nat), (∀ b ∈ tok, is_number_byte b) → WindowInv c →
    unconsumed c = tok ++ tail →
    (k ≤ tok.length ∨ ∃ x rest, tail = x :: rest ∧ ¬ is_number_byte x) →
    ∃ c2, read_number_copy_loop k c data i =
        (MJSON_OK, c2, write_bytes data i (tok.take k), i + (tok.take k).length) ∧
      WindowInv c2 ∧ unconsumed c2 = tok.drop k ++ tail := by
  intro k
  induction k with
  | zero =>
    intro tok c data i tail _ hinv hs _
    exact ⟨c, by simp [read_number_copy_loop, write_bytes], hinv, by simpa using hs⟩
  | succ k ih =>
    intro tok c data i tail htok hinv hs hk
    cases tok with
    | nil =>
      obtain ⟨x, rest, hrest, hx⟩ : ∃ x rest, tail = x :: rest ∧ ¬ is_number_byte x := by
        rcases hk with hk | hk
        · simp at hk
        · exact hk
      subst hrest
      simp only [List.nil_append] at hs
      obtain ⟨c1, h1, hi1, hs1, hl1, hp1⟩ := ensure_peek c 1 _ hinv (by decide) hs (by simp)
      have hp := hp1 0 (by omega)
      simp at hp
      refine ⟨c1, ?_, hi1, by simpa using hs1⟩
      rw [read_number_copy_loop]
      simp only [h1, hp, hx, ne_eq, not_true_eq_false, if_false]
      simp [write_bytes]
    | cons b bs =>
      have hb := htok b (List.mem_cons_self _ _)
      have htok2 : ∀ x ∈ bs, is_number_byte x := fun x hx => htok x (List.mem_cons_of_mem _ hx)
      have hk2 : k ≤ bs.length ∨ ∃ x rest, tail = x :: rest ∧ ¬ is_number_byte x := by
        rcases hk with hk | hk
        · left; simp at hk; omega
        · right; exact hk
      simp only [List.cons_append] at hs
      obtain ⟨c1, h1, hi1, hs1, hl1, hp1⟩ := ensure_peek c 1 _ hinv (by decide) hs (by simp)
      have hp := hp1 0 (by omega)
      simp at hp
      obtain ⟨hi2, hs2⟩ := consume_drop c1 1 _ hi1 hl1 hs1
      obtain ⟨c3, h3, hi3, hs3⟩ := ih bs (mjson_consume_byte_ c1 1) (data.set i b) (i + 1) tail
        htok2 hi2 (by simpa using hs2) hk2
      refine ⟨c3, ?_, hi3, by simpa using hs3⟩
      rw [read_number_copy_loop]
      simp only [h1, hp, hb, ne_eq, not_true_eq_false, if_false, if_true, h3]
      simp [write_bytes]
      omega

/-- The second loop of `mjson_read_number_as_string` never ends once it is
entered: its condition does not change. -/
theorem number_tail_loop_diverges (ch : Nat) (hch : is_number_byte ch) :
    ∀ (fuel : Nat) (c : mjson_ctx) (i : Nat), read_number_tail_loop ch fuel c i = none := by
  intro fuel
  induction fuel with
  | zero => intro c i; rfl
  | succ f ih =>
    intro c i
    rw [read_number_tail_loop, if_pos hch]
    exact ih _ _

/-- With a buffer shorter than the numeric token `mjson_read_number_as_string`
does not return, whatever the fuel. -/
theorem number_as_string_diverges (tok : List Nat) (tail : List Nat) (cap : Nat)
    (c : mjson_ctx) (data : Mem) (fuel : Nat) (htok : ∀ b ∈ tok, is_number_byte b)
    (hcap : cap < tok.length) (hinv : WindowInv c) (hs : unconsumed c = tok ++ tail) :
    mjson_read_number_as_string fuel c data cap = none := by
  obtain ⟨c2, h2, hi2, hs2⟩ := number_copy_loop_spec cap tok c data 0 tail htok hinv hs
    (Or.inl (by omega))
  obtain ⟨y, ys, hy⟩ : ∃ y ys, tok.drop cap = y :: ys := by
    cases hd : tok.drop cap with
    | nil =>
      have : (tok.drop cap).length = 0 := by rw [hd]; rfl
      rw [List.length_drop] at this; omega
    | cons y ys => exact ⟨y, ys, rfl⟩
  have hynum : is_number_byte y :=
    htok y (List.mem_of_mem_drop (by rw [hy]; exact List.mem_cons_self _ _))
  rw [hy, List.cons_append] at hs2
  obtain ⟨c3, h3, _, _, _, hp3⟩ := ensure_peek c2 1 _ hi2 (by decide) hs2 (by simp)
  have hp := hp3 0 (by omega)
  simp at hp
  rw [mjson_read_number_as_string, h2]
  simp only [ne_eq, not_true_eq_false, if_false, h3, hp,
    number_tail_loop_diverges y hynum]

/-! ## Claims on the number decoders -/

/-- The body of the integer readers after the sign. -/
theorem read_int_after_sign (w : Nat) (sign : Int) (digits tl : List Nat) (x : Nat)
    (rest : List Nat) (c : mjson_ctx) (fuel : Nat)
    (hd : ∀ d ∈ digits, 48 ≤ d ∧ d ≤ 57) (ht : ∀ b ∈ tl, is_number_byte b)
    (hth : ∀ b, tl.head? = some b → ¬ (48 ≤ b ∧ b ≤ 57)) (hx : ¬ is_number_byte x)
    (hinv : WindowInv c) (hl : 1 ≤ c.length) (hs : unconsumed c = digits ++ (tl ++ x :: rest))
    (hf : digits.length + tl.length < fuel) :
    ∃ c3, (match read_int_digits w fuel c 0 with
        | none => none
        | some (status, ctx, val) =>
          if status ≠ MJSON_OK then some (⟨status, ctx, none⟩ : IntResult)
          else
            match read_int_tail fuel ctx with
            | none => none
            | some (status, ctx) => some ⟨status, ctx, some (wrap_int w (val * sign))⟩)
        = some ⟨MJSON_OK, c3, some (wrap_int w (sign * decimal_value digits))⟩ ∧
      WindowInv c3 ∧ 1 ≤ c3.length ∧ unconsumed c3 = x :: rest := by
  obtain ⟨y, ys, hy, hynd⟩ : ∃ y ys, tl ++ x :: rest = y :: ys ∧ ¬ (48 ≤ y ∧ y ≤ 57) := by
    cases tl with
    | nil => exact ⟨x, rest, rfl, fun h => hx (Or.inl h)⟩
    | cons a as => exact ⟨a, as ++ x :: rest, rfl, hth a rfl⟩
  obtain ⟨c2, h2, hi2, hl2, hs2⟩ := read_int_digits_spec w digits fuel c 0 y ys hd hynd hinv hl
    (by rw [hs, hy]) (by omega)
  obtain ⟨c3, h3, hi3, hl3, hs3⟩ := read_int_tail_spec tl fuel c2 x rest ht hx hi2 hl2
    (by rw [hs2, hy]) (by omega)
  refine ⟨c3, ?_, hi3, hl3, hs3⟩
  rw [h2]
  simp only [ne_eq, not_true_eq_false, if_false, h3, stored_value_eq]

/-- C4: for each width `w` of 8, 16, 32 and 64 bits (`mjson_read_int8` is
`mjson_read_int 8`, and so on), on a stream made of an optional `-`, a
non-empty run of digits, a run of further numeric-looking bytes that does not
start with a digit, and a byte `x` outside that set, the integer reader
returns `MJSON_OK` and stores the sign times the value of the digits, reduced
to the `w`-bit two's complement range; the value does not depend on the
trailing run, and `x` is the next unconsumed byte, at the head of the window. -/
theorem read_int_value (w : Nat) (hw : w = 8 ∨ w = 16 ∨ w = 32 ∨ w = 64) (neg : Bool)
    (digits tl : List Nat) (x : Nat) (rest : List Nat) (c : mjson_ctx) (fuel : Nat)
    (hd : ∀ d ∈ digits, 48 ≤ d ∧ d ≤ 57) (hne : digits ≠ [])
    (ht : ∀ b ∈ tl, is_number_byte b)
    (hth : ∀ b, tl.head? = some b → ¬ (48 ≤ b ∧ b ≤ 57)) (hx : ¬ is_number_byte x)
    (hinv : WindowInv c)
    (hs : unconsumed c = (if neg then [45] else []) ++ digits ++ tl ++ x :: rest)
    (hf : digits.length + tl.length < fuel) :
    ∃ r, mjson_read_int w fuel c = some r ∧ r.status = MJSON_OK ∧
      r.out = some (wrap_int w ((if neg then -1 else 1) * decimal_value digits)) ∧
      -2 ^ (w - 1) ≤ wrap_int w ((if neg then -1 else 1) * decimal_value digits) ∧
      wrap_int w ((if neg then -1 else 1) * decimal_value digits) < 2 ^ (w - 1) ∧
      wrap_int w ((if neg then -1 else 1) * decimal_value digits)
        ≡ (if neg then -1 else 1) * decimal_value digits [ZMOD 2 ^ w] ∧
      unconsumed r.ctx = x :: rest ∧ 1 ≤ r.ctx.length ∧ MJSON_BUFFER_START_ r.ctx 0 = x := by
  have hw1 : 1 ≤ w := by omega
  obtain ⟨hr1, hr2⟩ := wrap_int_range w hw1 ((if neg then -1 else 1) * decimal_value digits)
  have hr3 := wrap_int_modEq w ((if neg then -1 else 1) * decimal_value digits)
  cases neg with
  | true =>
    have hs2 : unconsumed c = 45 :: (digits ++ (tl ++ x :: rest)) := by
      rw [hs]; simp
    obtain ⟨c1, h1, hi1, hs1, hl1, hp1⟩ := ensure_peek c 1 _ hinv (by decide) hs2 (by simp)
    have hp := hp1 0 (by omega)
    simp at hp
    obtain ⟨hi2, hs3⟩ := consume_drop c1 1 _ hi1 hl1 hs1
    obtain ⟨d0, ds, hds⟩ := List.exists_cons_of_ne_nil hne
    obtain ⟨c2, h2, hi2b, hs4, hl2, _⟩ := ensure_peek (mjson_consume_byte_ c1 1) 1
      (digits ++ (tl ++ x :: rest)) hi2 (by decide) (by simpa using hs3) (by rw [hds]; simp)
    obtain ⟨c3, h3, hi3, hl3, hs5⟩ := read_int_after_sign w (-1) digits tl x rest c2 fuel
      hd ht hth hx hi2b hl2 hs4 hf
    refine ⟨⟨MJSON_OK, c3, some (wrap_int w (-1 * decimal_value digits))⟩, ?_, rfl, rfl,
      hr1, hr2, hr3, hs5, hl3, peek_head c3 x rest hl3 hs5⟩
    simp only [mjson_read_int, h1, hp, ne_eq, not_true_eq_false, if_false, if_true, h2]
    exact h3
  | false =>
    obtain ⟨d0, ds, hds⟩ := List.exists_cons_of_ne_nil hne
    have hs2 : unconsumed c = d0 :: (ds ++ (tl ++ x :: rest)) := by
      rw [hs, hds]; simp
    have hd0 := hd d0 (by rw [hds]; exact List.mem_cons_self _ _)
    have hn45 : ¬ d0 = 45 := by omega
    obtain ⟨c1, h1, hi1, hs1, hl1, hp1⟩ := ensure_peek c 1 _ hinv (by decide) hs2 (by simp)
    have hp := hp1 0 (by omega)
    simp at hp
    obtain ⟨c2, h2, hi2b, hs4, hl2, _⟩ := ensure_peek c1 1 _ hi1 (by decide) hs1 (by simp)
    obtain ⟨c3, h3, hi3, hl3, hs5⟩ := read_int_after_sign w 1 digits tl x rest c2 fuel
      hd ht hth hx hi2b hl2 (by rw [hs4, hds]; simp) hf
    refine ⟨⟨MJSON_OK, c3, some (wrap_int w (1 * decimal_value digits))⟩, ?_, rfl, rfl,
      hr1, hr2, hr3, hs5, hl3, peek_head c3 x rest hl3 hs5⟩
    simp only [mjson_read_int, h1, hp, hn45, ne_eq, not_true_eq_false, if_false, h2]
    exact h3

/-- An 8-bit integer read from `127.5,`: 127 is stored and `,` is next. -/
theorem read_int_value_witness :
    ∃ r, mjson_read_int8 6 (mjson_init blank_ctx [49, 50, 55, 46, 53, 44]) = some r ∧
      r.status = MJSON_OK ∧ r.out = some 127 ∧ unconsumed r.ctx = [44] := by
  obtain ⟨r, h1, h2, h3, _, _, _, h7, _⟩ := read_int_value 8 (Or.inl rfl) false [49, 50, 55]
    [46, 53] 44 [] (mjson_init blank_ctx [49, 50, 55, 46, 53, 44]) 6 (by decide) (by decide)
    (by decide) (by decide) (by decide) (by decide) (by decide) (by decide)
  exact ⟨r, h1, h2, h3, h7⟩

/-- C5: on a numeric token (empty or not) followed by a byte `x` that is not
numeric-looking, with a capacity of at least the token's length and at least
one unit of fuel, `mjson_read_number_as_string` returns `MJSON_OK`, the
buffer holds exactly the bytes of the token in order (and is untouched above
them), the reported length is the token's length, and `x` is the next
unconsumed byte, at the head of the window. -/
theorem read_number_as_string_copies (tok : List Nat) (x : Nat) (rest : List Nat) (cap : Nat)
    (c : mjson_ctx) (data : Mem) (fuel : Nat) (htok : ∀ b ∈ tok, is_number_byte b)
    (hx : ¬ is_number_byte x) (hcap : tok.length ≤ cap) (hinv : WindowInv c)
    (hs : unconsumed c = tok ++ x :: rest) (hf : 0 < fuel) :
    ∃ r, mjson_read_number_as_string fuel c data cap = some r ∧ r.status = MJSON_OK ∧
      r.out_length = some tok.length ∧ first_bytes r.data tok.length = tok ∧
      (∀ j, tok.length ≤ j → r.data j = data j) ∧
      unconsumed r.ctx = x :: rest ∧ 1 ≤ r.ctx.length ∧ MJSON_BUFFER_START_ r.ctx 0 = x := by
  obtain ⟨f, rfl⟩ : ∃ f, fuel = f + 1 := ⟨fuel - 1, by omega⟩
  obtain ⟨c2, h2, hi2, hs2⟩ := number_copy_loop_spec cap tok c data 0 (x :: rest) htok hinv hs
    (Or.inr ⟨x, rest, rfl, hx⟩)
  rw [List.take_of_length_le hcap] at h2
  rw [List.drop_of_length_le hcap, List.nil_append] at hs2
  obtain ⟨c3, h3, hi3, hs3, hl3, hp3⟩ := ensure_peek c2 1 _ hi2 (by decide) hs2 (by simp)
  have hp := hp3 0 (by omega)
  simp at hp
  refine ⟨⟨MJSON_OK, c3, write_bytes data 0 tok, some (0 + tok.length)⟩, ?_, rfl, by simp,
    first_bytes_write data tok, ?_, hs3, hl3, hp⟩
  · rw [mjson_read_number_as_string, h2]
    simp only [ne_eq, not_true_eq_false, if_false, h3, hp, read_number_tail_loop, hx]
  · intro j hj
    exact write_bytes_above data 0 tok j (by omega)

/-- The token `-1.5e3` with a buffer of eight bytes, followed by `]`. -/
theorem read_number_as_string_copies_witness :
    ∃ r, mjson_read_number_as_string 1 (mjson_init blank_ctx [45, 49, 46, 53, 101, 51, 93]) NULL 8
        = some r ∧
      r.status = MJSON_OK ∧ r.out_length = some 6 ∧
      first_bytes r.data 6 = [45, 49, 46, 53, 101, 51] ∧ unconsumed r.ctx = [93] := by
  obtain ⟨r, h1, h2, h3, h4, _, h6, _⟩ := read_number_as_string_copies [45, 49, 46, 53, 101, 51]
    93 [] 8 (mjson_init blank_ctx [45, 49, 46, 53, 101, 51, 93]) NULL 1 (by decide) (by decide)
    (by decide) (by decide) (by decide) (by decide)
  exact ⟨r, h1, h2, h3, h4, h6⟩

/-- C6, the code at the failing input: on the token `12` followed by `,`
neither `mjson_read_number_as_string` with capacity 1 nor `mjson_skip_number`
returns, whatever the fuel; the second loop tests a byte it read once. -/
theorem read_number_as_string_short_buffer_hangs :
    (¬ ∃ fuel, (mjson_read_number_as_string fuel (mjson_init blank_ctx [49, 50, 44]) NULL 1).isSome
        = true) ∧
    (¬ ∃ fuel, (mjson_skip_number fuel (mjson_init blank_ctx [49, 50, 44])).isSome = true) := by
  have h : ∀ cap, cap < 2 → ∀ fuel,
      mjson_read_number_as_string fuel (mjson_init blank_ctx [49, 50, 44]) NULL cap = none :=
    fun cap hcap fuel => number_as_string_diverges [49, 50] [44] cap
      (mjson_init blank_ctx [49, 50, 44]) NULL fuel (by decide) hcap (by decide) (by decide)
  constructor
  · rintro ⟨fuel, hf⟩
    rw [h 1 (by decide) fuel] at hf
    simp at hf
  · rintro ⟨fuel, hf⟩
    rw [mjson_skip_number, h 0 (by decide) fuel] at hf
    simp at hf

/-! ## Claims on failures -/

theorem exhausted_iff (c : mjson_ctx) : unconsumed c = [] ↔ c.length = 0 ∧ c.source = [] := by
  constructor
  · intro h
    have hl := unconsumed_length c
    rw [h] at hl
    simp only [List.length_nil] at hl
    have h2 : c.source.length = 0 := by omega
    exact ⟨by omega, List.length_eq_zero.1 h2⟩
  · rintro ⟨h1, h2⟩
    simp [unconsumed, window, h1, h2]

/-- On an exhausted stream `mjson_ensure_byte_(1)` fails with
`MJSON_ERROR_READING` and the stream stays exhausted. -/
theorem ensure_exhausted (c : mjson_ctx) (h : unconsumed c = []) :
    (mjson_ensure_byte_ c 1).1 = MJSON_ERROR_READING ∧
      unconsumed (mjson_ensure_byte_ c 1).2 = [] := by
  refine ⟨ensure_stream_fail c 1 (by decide) (by rw [h]; decide), ?_⟩
  obtain ⟨h1, h2⟩ := (exhausted_iff c).1 h
  rw [exhausted_iff]
  have e1 : size_sub 1 0 = 1 := by decide
  simp only [mjson_ensure_byte_, h1, e1, ge_iff_le, Nat.le_zero_eq, OfNat.one_ne_ofNat,
    if_false, reader]
  split_ifs <;> simp_all [mjson_shift_buffer_]

theorem reading_ne_ok : MJSON_ERROR_READING ≠ MJSON_OK := by decide

theorem read_type_exhausted (c : mjson_ctx) (h : unconsumed c = []) :
    mjson_read_type c = mjson_ensure_byte_ c 1 := by
  have h1 := (ensure_exhausted c h).1
  simp only [mjson_read_type, h1, reading_ne_ok, ne_eq, not_false_eq_true, if_true]

theorem read_byte_exhausted (c : mjson_ctx) (ch : Nat) (h : unconsumed c = []) :
    mjson_read_byte_ c ch = mjson_ensure_byte_ c 1 := by
  have h1 := (ensure_exhausted c h).1
  simp only [mjson_read_byte_, h1, reading_ne_ok, ne_eq, not_false_eq_true, if_true]

theorem array_separator_exhausted (c : mjson_ctx) (h : unconsumed c = []) :
    mjson_read_array_separator_or_end c = mjson_ensure_byte_ c 1 := by
  have h1 := (ensure_exhausted c h).1
  simp only [mjson_read_array_separator_or_end, h1, reading_ne_ok, ne_eq, not_false_eq_true,
    if_true]

theorem object_separator_exhausted (c : mjson_ctx) (h : unconsumed c = []) :
    mjson_read_object_separator_or_end c = mjson_ensure_byte_ c 1 := by
  have h1 := (ensure_exhausted c h).1
  simp only [mjson_read_object_separator_or_end, h1, reading_ne_ok, ne_eq, not_false_eq_true,
    if_true]

theorem partial_loop_exhausted (c : mjson_ctx) (k : Nat) (data : Mem) (i : Nat)
    (h : unconsumed c = []) :
    read_partial_string_loop (k + 1) c data i
      = ⟨MJSON_ERROR_READING, (mjson_ensure_byte_ c 1).2, data, none⟩ := by
  have h1 := (ensure_exhausted c h).1
  rw [read_partial_string_loop]
  simp only [h1, reading_ne_ok, ne_eq, not_false_eq_true, if_true]

theorem full_loop_exhausted (c : mjson_ctx) (fuel : Nat) (data : Mem) (n : Nat)
    (h : unconsumed c = []) :
    read_full_string_loop (fuel + 1) c data n
      = some ⟨MJSON_ERROR_READING, (mjson_ensure_byte_ c 1).2, data, none⟩ := by
  have h1 := (ensure_exhausted c h).1
  rw [read_full_string_loop]
  simp only [h1, reading_ne_ok, ne_eq, not_false_eq_true, if_true]

theorem full_string_exhausted (c : mjson_ctx) (fuel : Nat) (data : Mem) (cap : Nat)
    (h : unconsumed c = []) :
    (mjson_read_full_string (fuel + 1) c data cap).map StringResult.status
      = some MJSON_ERROR_READING := by
  cases cap with
  | zero =>
    simp only [mjson_read_full_string, mjson_read_partial_string, read_partial_string_loop,
      ne_eq, not_true_eq_false, if_false, Option.getD_some, full_loop_exhausted c fuel data 0 h,
      Option.map_some']
  | succ k =>
    simp only [mjson_read_full_string, mjson_read_partial_string,
      partial_loop_exhausted c k data 0 h, reading_ne_ok, ne_eq, not_false_eq_true, if_true,
      Option.map_some']

theorem read_int_exhausted (w : Nat) (c : mjson_ctx) (fuel : Nat) (h : unconsumed c = []) :
    mjson_read_int w fuel c = some ⟨MJSON_ERROR_READING, (mjson_ensure_byte_ c 1).2, none⟩ := by
  have h1 := (ensure_exhausted c h).1
  simp only [mjson_read_int, h1, reading_ne_ok, ne_eq, not_false_eq_true, if_true]

theorem number_as_string_exhausted (c : mjson_ctx) (fuel : Nat) (data : Mem) (cap : Nat)
    (h : unconsumed c = []) :
    (mjson_read_number_as_string fuel c data cap).map StringResult.status
      = some MJSON_ERROR_READING := by
  have h1 := (ensure_exhausted c h).1
  cases cap with
  | zero =>
    simp only [mjson_read_number_as_string, read_number_copy_loop, ne_eq, not_true_eq_false,
      if_false, h1, reading_ne_ok, not_false_eq_true, if_true, Option.map_some']
  | succ k =>
    simp only [mjson_read_number_as_string, read_number_copy_loop, h1, reading_ne_ok, ne_eq,
      not_false_eq_true, if_true, Option.map_some']

theorem skip_value_exhausted (c : mjson_ctx) (fuel : Nat) (h : unconsumed c = []) :
    mjson_skip_value (fuel + 1) c = some (mjson_ensure_byte_ c 1) := by
  have h1 := (ensure_exhausted c h).1
  rw [mjson_skip_value]
  simp only [read_type_exhausted c h, h1]
  simp [MJSON_ERROR_READING, MJSON_TYPE_ARRAY, MJSON_TYPE_OBJECT, MJSON_TYPE_NUMBER,
    MJSON_TYPE_STRING, MJSON_TYPE_NULL, MJSON_TYPE_TRUE, MJSON_TYPE_FALSE]

/-- C10, counterexample: on an exhausted source `mjson_read_type` fails with
`MJSON_ERROR_READING` but `mjson_readcheck_null` returns
`MJSON_ERROR_CHECK_FAILURE`; on the stream `x`
`mjson_read_array_separator_or_end` fails with `MJSON_ERROR_TEST_NOT_TRUE`
but `mjson_skip_array` returns `MJSON_ERROR_UNKNOWN_TYPE`; on an exhausted
source `mjson_read_object_separator_or_end` fails with `MJSON_ERROR_READING`
but `mjson_skip_object` returns `MJSON_ERROR_CHECK_FAILURE`. -/
theorem first_failure_not_always_returned :
    (mjson_read_type (mjson_init blank_ctx [])).1 = MJSON_ERROR_READING ∧
    (mjson_readcheck_null (mjson_init blank_ctx [])).1 = MJSON_ERROR_CHECK_FAILURE ∧
    (mjson_read_array_separator_or_end (mjson_init blank_ctx [120])).1
      = MJSON_ERROR_TEST_NOT_TRUE ∧
    (mjson_skip_array 2 (mjson_init blank_ctx [120])).map Prod.fst
      = some MJSON_ERROR_UNKNOWN_TYPE ∧
    (mjson_read_object_separator_or_end (mjson_init blank_ctx [])).1 = MJSON_ERROR_READING ∧
    (mjson_skip_object 1 (mjson_init blank_ctx [])).map Prod.fst
      = some MJSON_ERROR_CHECK_FAILURE := by
  decide

/-- C10, amended. On an exhausted stream the first sub-operation,
`mjson_ensure_byte_`, fails with `MJSON_ERROR_READING`, and `mjson_read_type`,
both separator readers, `mjson_read_string_end`,
`mjson_read_object_key_separator`, the string decoders (each turn of their
loops), the integer readers, `mjson_read_number_as_string`,
`mjson_skip_number`, `mjson_skip_value` and `mjson_skip_array` return that
status; the `readcheck` readers and `mjson_skip_object` return
`MJSON_ERROR_CHECK_FAILURE` instead. On every context, the `readcheck`
readers turn every error of `mjson_read_type` into
`MJSON_ERROR_CHECK_FAILURE`; `mjson_skip_value` returns an error of
`mjson_read_type` unchanged; `mjson_skip_array` and `mjson_skip_object`, after
any result of the separator reader other than End (its failures included), go
on to the member and return unchanged the first failure among
`mjson_readcheck_string_start`, `mjson_skip_string`,
`mjson_read_object_key_separator` and `mjson_skip_value`. -/
theorem failure_propagation (c : mjson_ctx) (hex : unconsumed c = []) :
    ((mjson_ensure_byte_ c 1).1 = MJSON_ERROR_READING ∧
      (mjson_read_type c).1 = MJSON_ERROR_READING ∧
      (mjson_read_array_separator_or_end c).1 = MJSON_ERROR_READING ∧
      (mjson_read_object_separator_or_end c).1 = MJSON_ERROR_READING ∧
      (mjson_read_string_end c).1 = MJSON_ERROR_READING ∧
      (mjson_read_object_key_separator c).1 = MJSON_ERROR_READING ∧
      (∀ k data i, (read_partial_string_loop (k + 1) c data i).status = MJSON_ERROR_READING) ∧
      (∀ cap data, 0 < cap →
        (mjson_read_partial_string c data cap).status = MJSON_ERROR_READING) ∧
      (∀ fuel data n, (read_full_string_loop (fuel + 1) c data n).map StringResult.status
        = some MJSON_ERROR_READING) ∧
      (∀ fuel cap data, (mjson_read_full_string (fuel + 1) c data cap).map StringResult.status
        = some MJSON_ERROR_READING) ∧
      (∀ fuel, (mjson_skip_string (fuel + 1) c).map Prod.fst = some MJSON_ERROR_READING) ∧
      (∀ w fuel, (mjson_read_int w fuel c).map IntResult.status = some MJSON_ERROR_READING) ∧
      (∀ fuel cap data, (mjson_read_number_as_string fuel c data cap).map StringResult.status
        = some MJSON_ERROR_READING) ∧
      (∀ fuel, (mjson_skip_number fuel c).map Prod.fst = some MJSON_ERROR_READING) ∧
      (∀ fuel, (mjson_skip_value (fuel + 1) c).map Prod.fst = some MJSON_ERROR_READING) ∧
      (∀ fuel, (mjson_skip_array (fuel + 2) c).map Prod.fst = some MJSON_ERROR_READING)) ∧
    ((mjson_readcheck_null c).1 = MJSON_ERROR_CHECK_FAILURE ∧
      (mjson_readcheck_boolean c).status = MJSON_ERROR_CHECK_FAILURE ∧
      (mjson_readcheck_string_start c).1 = MJSON_ERROR_CHECK_FAILURE ∧
      (mjson_readcheck_array_start c).1 = MJSON_ERROR_CHECK_FAILURE ∧
      (mjson_readcheck_object_start c).1 = MJSON_ERROR_CHECK_FAILURE ∧
      (∀ fuel, (mjson_skip_object (fuel + 1) c).map Prod.fst
        = some MJSON_ERROR_CHECK_FAILURE)) ∧
    (∀ c2 : mjson_ctx, (mjson_read_type c2).1 < 0 →
      (mjson_readcheck_null c2).1 = MJSON_ERROR_CHECK_FAILURE ∧
      (mjson_readcheck_boolean c2).status = MJSON_ERROR_CHECK_FAILURE ∧
      (mjson_readcheck_string_start c2).1 = MJSON_ERROR_CHECK_FAILURE ∧
      (mjson_readcheck_array_start c2).1 = MJSON_ERROR_CHECK_FAILURE ∧
      (mjson_readcheck_object_start c2).1 = MJSON_ERROR_CHECK_FAILURE ∧
      ∀ fuel, mjson_skip_value (fuel + 1) c2 = some (mjson_read_type c2)) ∧
    (∀ (c2 : mjson_ctx) (fuel : Nat) (v : Int × mjson_ctx),
      (mjson_read_array_separator_or_end c2).1 ≠ MJSON_SUBTYPE_ARRAY_END →
      mjson_skip_value fuel (mjson_read_array_separator_or_end c2).2 = some v →
      v.1 ≠ MJSON_OK → mjson_skip_array (fuel + 1) c2 = some v) ∧
    (∀ (c2 : mjson_ctx) (fuel : Nat),
      (mjson_read_object_separator_or_end c2).1 ≠ MJSON_SUBTYPE_OBJECT_END →
      ((mjson_readcheck_string_start (mjson_read_object_separator_or_end c2).2).1 ≠ MJSON_OK →
        mjson_skip_object (fuel + 1) c2
          = some (mjson_readcheck_string_start (mjson_read_object_separator_or_end c2).2)) ∧
      ((mjson_readcheck_string_start (mjson_read_object_separator_or_end c2).2).1 = MJSON_OK →
        ∀ k, mjson_skip_string fuel
            (mjson_readcheck_string_start (mjson_read_object_separator_or_end c2).2).2 = some k →
          (k.1 ≠ MJSON_OK → mjson_skip_object (fuel + 1) c2 = some k) ∧
          (k.1 = MJSON_OK →
            ((mjson_read_object_key_separator k.2).1 ≠ MJSON_OK →
              mjson_skip_object (fuel + 1) c2 = some (mjson_read_object_key_separator k.2)) ∧
            ((mjson_read_object_key_separator k.2).1 = MJSON_OK →
              ∀ v, mjson_skip_value fuel (mjson_read_object_key_separator k.2).2 = some v →
                v.1 ≠ MJSON_OK → mjson_skip_object (fuel + 1) c2 = some v)))) := by
  obtain ⟨h1, h1u⟩ := ensure_exhausted c hex
  have hrt := read_type_exhausted c hex
  have hcf : ∀ c2 : mjson_ctx, (mjson_read_type c2).1 < 0 →
      (mjson_readcheck_null c2).1 = MJSON_ERROR_CHECK_FAILURE ∧
      (mjson_readcheck_boolean c2).status = MJSON_ERROR_CHECK_FAILURE ∧
      (mjson_readcheck_string_start c2).1 = MJSON_ERROR_CHECK_FAILURE ∧
      (mjson_readcheck_array_start c2).1 = MJSON_ERROR_CHECK_FAILURE ∧
      (mjson_readcheck_object_start c2).1 = MJSON_ERROR_CHECK_FAILURE ∧
      ∀ fuel, mjson_skip_value (fuel + 1) c2 = some (mjson_read_type c2) := by
    intro c2 hneg
    have n1 : (mjson_read_type c2).1 ≠ MJSON_TYPE_NULL := by
      intro h; rw [h] at hneg; revert hneg; decide
    have n2 : (mjson_read_type c2).1 ≠ MJSON_TYPE_TRUE := by
      intro h; rw [h] at hneg; revert hneg; decide
    have n3 : (mjson_read_type c2).1 ≠ MJSON_TYPE_FALSE := by
      intro h; rw [h] at hneg; revert hneg; decide
    have n4 : (mjson_read_type c2).1 ≠ MJSON_TYPE_STRING := by
      intro h; rw [h] at hneg; revert hneg; decide
    have n5 : (mjson_read_type c2).1 ≠ MJSON_TYPE_NUMBER := by
      intro h; rw [h] at hneg; revert hneg; decide
    have n6 : (mjson_read_type c2).1 ≠ MJSON_TYPE_OBJECT := by
      intro h; rw [h] at hneg; revert hneg; decide
    have n7 : (mjson_read_type c2).1 ≠ MJSON_TYPE_ARRAY := by
      intro h; rw [h] at hneg; revert hneg; decide
    refine ⟨?_, ?_, ?_, ?_, ?_, ?_⟩
    · simp only [mjson_readcheck_null, n1, if_false]
    · simp only [mjson_readcheck_boolean, n2, n3, if_false]
    · simp only [mjson_readcheck_string_start, n4, if_false]
    · simp only [mjson_readcheck_array_start, n7, if_false]
    · simp only [mjson_readcheck_object_start, n6, if_false]
    · intro fuel
      rw [mjson_skip_value]
      simp only [n1, n2, n3, n4, n5, n6, n7, if_false, or_self]
  have hneg : (mjson_read_type c).1 < 0 := by rw [hrt, h1]; decide
  obtain ⟨k1, k2, k3, k4, k5, _⟩ := hcf c hneg
  refine ⟨⟨h1, ?_, ?_, ?_, ?_, ?_, ?_, ?_, ?_, ?_, ?_, ?_, ?_, ?_, ?_, ?_⟩,
    ⟨k1, k2, k3, k4, k5, ?_⟩, hcf, ?_, ?_⟩
  · rw [hrt]; exact h1
  · rw [array_separator_exhausted c hex]; exact h1
  · rw [object_separator_exhausted c hex]; exact h1
  · rw [mjson_read_string_end, read_byte_exhausted c _ hex]; exact h1
  · rw [mjson_read_object_key_separator, read_byte_exhausted c _ hex]; exact h1
  · intro k data i
    rw [partial_loop_exhausted c k data i hex]
  · intro cap data hcap
    obtain ⟨k, rfl⟩ : ∃ k, cap = k + 1 := ⟨cap - 1, by omega⟩
    rw [mjson_read_partial_string, partial_loop_exhausted c k data 0 hex]
  · intro fuel data n
    rw [full_loop_exhausted c fuel data n hex]; rfl
  · intro fuel cap data
    exact full_string_exhausted c fuel data cap hex
  · intro fuel
    have h := full_string_exhausted c fuel NULL 0 hex
    rw [mjson_skip_string]
    cases hr : mjson_read_full_string (fuel + 1) c NULL 0 with
    | none => rw [hr] at h; simp at h
    | some r =>
      rw [hr] at h
      simp only [Option.map_some', Option.some.injEq] at h ⊢
      exact h
  · intro w fuel
    rw [read_int_exhausted w c fuel hex]; rfl
  · intro fuel cap data
    exact number_as_string_exhausted c fuel data cap hex
  · intro fuel
    have h := number_as_string_exhausted c fuel NULL 0 hex
    rw [mjson_skip_number]
    cases hr : mjson_read_number_as_string fuel c NULL 0 with
    | none => rw [hr] at h; simp at h
    | some r =>
      rw [hr] at h
      simp only [Option.map_some', Option.some.injEq] at h ⊢
      exact h
  · intro fuel
    rw [skip_value_exhausted c fuel hex, Option.map_some', h1]
  · intro fuel
    have hne : (mjson_ensure_byte_ c 1).1 ≠ MJSON_SUBTYPE_ARRAY_END := by rw [h1]; decide
    have h2 := (ensure_exhausted _ h1u).1
    rw [mjson_skip_array]
    simp only [array_separator_exhausted c hex, hne, ne_eq, not_false_eq_true, if_true,
      skip_value_exhausted _ fuel h1u, h2, reading_ne_ok, Option.map_some']
  · intro fuel
    have hne : (mjson_ensure_byte_ c 1).1 ≠ MJSON_SUBTYPE_OBJECT_END := by rw [h1]; decide
    have hrt2 := read_type_exhausted _ h1u
    have h2 := (ensure_exhausted _ h1u).1
    have h3 : (mjson_readcheck_string_start (mjson_ensure_byte_ c 1).2).1
        = MJSON_ERROR_CHECK_FAILURE :=
      (hcf _ (by rw [hrt2, h2]; decide)).2.2.1
    rw [mjson_skip_object]
    have h4 : (mjson_readcheck_string_start (mjson_ensure_byte_ c 1).2).1 ≠ MJSON_OK := by
      rw [h3]; decide
    simp only [object_separator_exhausted c hex, hne, ne_eq, not_false_eq_true, if_true, h4,
      Option.map_some']
    rw [h3]
  · intro c2 fuel v hsep hv hvne
    rw [mjson_skip_array]
    simp only [hsep, ne_eq, not_false_eq_true, if_true, hv, hvne]
  · intro c2 fuel hsep
    refine ⟨?_, ?_⟩
    · intro hs
      rw [mjson_skip_object]
      simp only [hsep, ne_eq, not_false_eq_true, if_true, hs]
    · intro hs k hk
      refine ⟨?_, ?_⟩
      · intro hkne
        rw [mjson_skip_object]
        simp only [hsep, ne_eq, not_false_eq_true, if_true, hs, not_true_eq_false, if_false, hk,
          hkne]
      · intro hkok
        refine ⟨?_, ?_⟩
        · intro hp
          rw [mjson_skip_object]
          simp only [hsep, ne_eq, not_false_eq_true, if_true, hs, not_true_eq_false, if_false,
            hk, hkok, hp]
        · intro hp v hv hvne
          rw [mjson_skip_object]
          simp only [hsep, ne_eq, not_false_eq_true, if_true, hs, not_true_eq_false, if_false,
            hk, hkok, hp, hv, hvne]

/-- A fresh context on an empty source. -/
theorem failure_propagation_witness :
    unconsumed (mjson_init blank_ctx []) = [] ∧
    (mjson_read_type (mjson_init blank_ctx [])).1 = MJSON_ERROR_READING ∧
    (mjson_skip_value 1 (mjson_init blank_ctx [])).map Prod.fst = some MJSON_ERROR_READING ∧
    (mjson_readcheck_string_start (mjson_init blank_ctx [])).1 = MJSON_ERROR_CHECK_FAILURE :=
  ⟨rfl, (failure_propagation (mjson_init blank_ctx []) rfl).1.2.1,
    (failure_propagation (mjson_init blank_ctx []) rfl).1.2.2.2.2.2.2.2.2.2.2.2.2.2.2.1 0,
    (failure_propagation (mjson_init blank_ctx []) rfl).2.1.2.2.1⟩

/-! ## The skippers on streams -/

theorem array_separator_spec (c : mjson_ctx) (b : Nat) (t : List Nat) (hinv : WindowInv c)
    (hs : unconsumed c = b :: t) :
    ∃ c2, mjson_read_array_separator_or_end c =
        (if b = 44 then MJSON_SUBTYPE_ARRAY_SEPARATOR
          else if b = 93 then MJSON_SUBTYPE_ARRAY_END else MJSON_ERROR_TEST_NOT_TRUE, c2) ∧
      WindowInv c2 ∧ unconsumed c2 = if b = 44 ∨ b = 93 then t else b :: t := by
  obtain ⟨c1, h1, hi1, hs1, hl1, hp1⟩ := ensure_peek c 1 _ hinv (by decide) hs (by simp)
  have hp := hp1 0 (by omega)
  simp at hp
  obtain ⟨hi2, hs2⟩ := consume_drop c1 1 _ hi1 hl1 hs1
  by_cases h44 : b = 44
  · refine ⟨mjson_consume_byte_ c1 1, ?_, hi2, by simpa [h44] using hs2⟩
    simp [mjson_read_array_separator_or_end, h1, hp, h44]
  · by_cases h93 : b = 93
    · refine ⟨mjson_consume_byte_ c1 1, ?_, hi2, by simpa [h93] using hs2⟩
      simp [mjson_read_array_separator_or_end, h1, hp, h93]
    · refine ⟨c1, ?_, hi1, by simpa [h44, h93] using hs1⟩
      simp [mjson_read_array_separator_or_end, h1, hp, h44, h93]

theorem object_separator_spec (c : mjson_ctx) (b : Nat) (t : List Nat) (hinv : WindowInv c)
    (hs : unconsumed c = b :: t) :
    ∃ c2, mjson_read_object_separator_or_end c =
        (if b = 44 then MJSON_SUBTYPE_OBJECT_SEPARATOR
          else if b = 125 then MJSON_SUBTYPE_OBJECT_END else MJSON_ERROR_TEST_NOT_TRUE, c2) ∧
      WindowInv c2 ∧ unconsumed c2 = if b = 44 ∨ b = 125 then t else b :: t := by
  obtain ⟨c1, h1, hi1, hs1, hl1, hp1⟩ := ensure_peek c 1 _ hinv (by decide) hs (by simp)
  have hp := hp1 0 (by omega)
  simp at hp
  obtain ⟨hi2, hs2⟩ := consume_drop c1 1 _ hi1 hl1 hs1
  by_cases h44 : b = 44
  · refine ⟨mjson_consume_byte_ c1 1, ?_, hi2, by simpa [h44] using hs2⟩
    simp [mjson_read_object_separator_or_end, h1, hp, h44]
  · by_cases h125 : b = 125
    · refine ⟨mjson_consume_byte_ c1 1, ?_, hi2, by simpa [h125] using hs2⟩
      simp [mjson_read_object_separator_or_end, h1, hp, h125]
    · refine ⟨c1, ?_, hi1, by simpa [h44, h125] using hs1⟩
      simp [mjson_read_object_separator_or_end, h1, hp, h44, h125]

theorem read_byte_spec (c : mjson_ctx) (ch b : Nat) (t : List Nat) (hinv : WindowInv c)
    (hs : unconsumed c = b :: t) :
    ∃ c2, mjson_read_byte_ c ch = (if b = ch then MJSON_OK else MJSON_ERROR_TEST_NOT_TRUE, c2) ∧
      WindowInv c2 ∧ unconsumed c2 = if b = ch then t else b :: t := by
  obtain ⟨c1, h1, hi1, hs1, hl1, hp1⟩ := ensure_peek c 1 _ hinv (by decide) hs (by simp)
  have hp := hp1 0 (by omega)
  simp at hp
  obtain ⟨hi2, hs2⟩ := consume_drop c1 1 _ hi1 hl1 hs1
  by_cases hb : b = ch
  · refine ⟨mjson_consume_byte_ c1 1, ?_, hi2, by simpa [hb] using hs2⟩
    simp [mjson_read_byte_, h1, hp, hb]
  · refine ⟨c1, ?_, hi1, by simpa [hb] using hs1⟩
    simp [mjson_read_byte_, h1, hp, hb]

/-- The function `mjson_skip_string` after the opening quote, on a body of
skippable elements. -/
theorem skip_string_spec (body : List StrItem) (fuel : Nat) (c : mjson_ctx) (rest : List Nat)
    (hb : ∀ it ∈ body, it.skippable = true) (hinv : WindowInv c)
    (hs : unconsumed c = encode_body body ++ 34 :: rest) (hf : body.length < fuel) :
    ∃ c2, mjson_skip_string fuel c = some (MJSON_OK, c2) ∧ WindowInv c2 ∧
      unconsumed c2 = rest := by
  obtain ⟨c2, h2, hi2, hs2⟩ := full_loop_spec body fuel c NULL 0 rest hb hinv hs hf
  refine ⟨c2, ?_, hi2, hs2⟩
  simp only [mjson_skip_string, mjson_read_full_string, mjson_read_partial_string,
    read_partial_string_loop, ne_eq, not_true_eq_false, if_false, Option.getD_some, h2,
    Option.map_some']

theorem encode_body_length (body : List StrItem) : body.length ≤ (encode_body body).length := by
  induction body with
  | nil => simp [encode_body]
  | cons it its ih =>
    cases it <;> simp [encode_body, StrItem.encode] <;> omega

/-- Every value starts with a byte that is neither `,` nor `]` nor `}`, and
has at least two bytes. -/
theorem encode_head (v : JValue) :
    ∃ b t, v.encode = b :: t ∧ b ≠ 44 ∧ b ≠ 93 ∧ b ≠ 125 ∧ 1 ≤ t.length := by
  cases v with
  | null => exact ⟨110, _, rfl, by decide, by decide, by decide, by decide⟩
  | true => exact ⟨116, _, rfl, by decide, by decide, by decide, by decide⟩
  | false => exact ⟨102, _, rfl, by decide, by decide, by decide, by decide⟩
  | str body => exact ⟨34, _, by rw [JValue.encode], by decide, by decide, by decide, by simp⟩
  | arr es =>
    cases es with
    | nil => exact ⟨91, _, by rw [JValue.encode], by decide, by decide, by decide, by simp⟩
    | cons v rest =>
      exact ⟨91, _, by rw [JValue.encode], by decide, by decide, by decide, by simp; omega⟩
  | obj ms =>
    cases ms with
    | nil => exact ⟨123, _, by rw [JValue.encode], by decide, by decide, by decide, by simp⟩
    | cons k v rest =>
      exact ⟨123, _, by rw [JValue.encode], by decide, by decide, by decide, by simp⟩

theorem all_skippable {body : List StrItem} (h : body.all StrItem.skippable = Bool.true) :
    ∀ it ∈ body, it.skippable = Bool.true := by
  simpa using h

/-- One member of an object, from its key's opening quote to the end of its
value. -/
theorem member_spec (key : List StrItem) (v : JValue) (fuel : Nat) (c : mjson_ctx)
    (more : List Nat) (hkey : key.all StrItem.skippable = Bool.true)
    (hv : ∀ c3, WindowInv c3 → unconsumed c3 = v.encode ++ more →
      ∃ c4, mjson_skip_value fuel c3 = some (MJSON_OK, c4) ∧ WindowInv c4 ∧
        unconsumed c4 = more)
    (hinv : WindowInv c)
    (hs : unconsumed c = 34 :: (encode_body key ++ 34 :: 58 :: (v.encode ++ more)))
    (hf : key.length < fuel) :
    ∃ c1 c2 c3 c4, mjson_readcheck_string_start c = (MJSON_OK, c1) ∧
      mjson_skip_string fuel c1 = some (MJSON_OK, c2) ∧
      mjson_read_object_key_separator c2 = (MJSON_OK, c3) ∧
      mjson_skip_value fuel c3 = some (MJSON_OK, c4) ∧ WindowInv c4 ∧ unconsumed c4 = more := by
  obtain ⟨c1, h1, hi1, hs1⟩ := read_type_string c _ hinv hs
  obtain ⟨c2, h2, hi2, hs2⟩ := skip_string_spec key fuel c1 _ (all_skippable hkey) hi1 hs1 hf
  obtain ⟨c3, h3, hi3, hs3⟩ := read_byte_spec c2 58 58 _ hi2 hs2
  simp only [if_true] at h3 hs3
  obtain ⟨c4, h4, hi4, hs4⟩ := hv c3 hi3 hs3
  refine ⟨c1, c2, c3, c4, ?_, h2, h3, h4, hi4, hs4⟩
  simp only [mjson_readcheck_string_start, h1, if_true]

theorem skip_array_step (f : Nat) (c c2 c3 : mjson_ctx) (st : Int)
    (h1 : mjson_read_array_separator_or_end c = (st, c2)) (hst : st ≠ MJSON_SUBTYPE_ARRAY_END)
    (h2 : mjson_skip_value f c2 = some (MJSON_OK, c3)) :
    mjson_skip_array (f + 1) c = mjson_skip_array f c3 := by
  rw [mjson_skip_array]
  simp only [h1, hst, ne_eq, not_false_eq_true, if_true, h2, not_true_eq_false, if_false]

theorem skip_array_end (f : Nat) (c c2 : mjson_ctx)
    (h1 : mjson_read_array_separator_or_end c = (MJSON_SUBTYPE_ARRAY_END, c2)) :
    mjson_skip_array (f + 1) c = some (MJSON_OK, c2) := by
  rw [mjson_skip_array]
  simp only [h1, ne_eq, not_true_eq_false, if_false]

theorem skip_object_step (f : Nat) (c c0 c1 c2 c3 c4 : mjson_ctx) (st : Int)
    (h0 : mjson_read_object_separator_or_end c = (st, c0))
    (hst : st ≠ MJSON_SUBTYPE_OBJECT_END)
    (h1 : mjson_readcheck_string_start c0 = (MJSON_OK, c1))
    (h2 : mjson_skip_string f c1 = some (MJSON_OK, c2))
    (h3 : mjson_read_object_key_separator c2 = (MJSON_OK, c3))
    (h4 : mjson_skip_value f c3 = some (MJSON_OK, c4)) :
    mjson_skip_object (f + 1) c = mjson_skip_object f c4 := by
  rw [mjson_skip_object]
  simp only [h0, hst, ne_eq, not_false_eq_true, if_true, h1, h2, h3, h4, not_true_eq_false,
    if_false]

theorem skip_object_end (f : Nat) (c c2 : mjson_ctx)
    (h1 : mjson_read_object_separator_or_end c = (MJSON_SUBTYPE_OBJECT_END, c2)) :
    mjson_skip_object (f + 1) c = some (MJSON_OK, c2) := by
  rw [mjson_skip_object]
  simp only [h1, ne_eq, not_true_eq_false, if_false]

theorem skip_value_array (f : Nat) (c c1 : mjson_ctx)
    (h : mjson_read_type c = (MJSON_TYPE_ARRAY, c1)) :
    mjson_skip_value (f + 1) c = mjson_skip_array f c1 := by
  rw [mjson_skip_value]
  simp only [h, if_true]

theorem skip_value_object (f : Nat) (c c1 : mjson_ctx)
    (h : mjson_read_type c = (MJSON_TYPE_OBJECT, c1)) :
    mjson_skip_value (f + 1) c = mjson_skip_object f c1 := by
  rw [mjson_skip_value]
  simp only [h]
  rfl

theorem skip_value_string (f : Nat) (c c1 : mjson_ctx)
    (h : mjson_read_type c = (MJSON_TYPE_STRING, c1)) :
    mjson_skip_value (f + 1) c = mjson_skip_string f c1 := by
  rw [mjson_skip_value]
  simp only [h]
  rfl

/-- Skipping on streams, for a given amount of fuel: a value of at most
`fuel` bytes; the rest of an array and the rest of an object, each element
after a comma, up to the closing bracket, of less than `fuel` bytes. -/
theorem skip_spec_aux : ∀ fuel : Nat,
    (∀ (v : JValue) (c : mjson_ctx) (rest : List Nat), v.skippable = Bool.true →
      WindowInv c → unconsumed c = v.encode ++ rest → v.encode.length ≤ fuel →
      ∃ c2, mjson_skip_value fuel c = some (MJSON_OK, c2) ∧ WindowInv c2 ∧
        unconsumed c2 = rest) ∧
    (∀ (es : JElems) (c : mjson_ctx) (rest : List Nat), es.skippable = Bool.true →
      WindowInv c → unconsumed c = es.encode_tail ++ 93 :: rest →
      es.encode_tail.length + 1 ≤ fuel →
      ∃ c2, mjson_skip_array fuel c = some (MJSON_OK, c2) ∧ WindowInv c2 ∧
        unconsumed c2 = rest) ∧
    (∀ (ms : JMembers) (c : mjson_ctx) (rest : List Nat), ms.skippable = Bool.true →
      WindowInv c → unconsumed c = ms.encode_tail ++ 125 :: rest →
      ms.encode_tail.length + 1 ≤ fuel →
      ∃ c2, mjson_skip_object fuel c = some (MJSON_OK, c2) ∧ WindowInv c2 ∧
        unconsumed c2 = rest) := by
  intro fuel
  induction fuel using Nat.strong_induction_on with
  | _ fuel ih =>
    refine ⟨?_, ?_, ?_⟩
    · intro v c rest hsk hinv hs hf
      obtain ⟨b0, t0, hb0, _, _, _, ht0⟩ := encode_head v
      obtain ⟨f, rfl⟩ : ∃ f, fuel = f + 1 := ⟨fuel - 1, by rw [hb0] at hf; simp at hf; omega⟩
      cases v with
      | null =>
        obtain ⟨c2, h2, hi2, hs2⟩ := read_type_n c 117 108 108 rest hinv hs
        simp only [and_self, if_true] at h2 hs2
        refine ⟨c2, ?_, hi2, hs2⟩
        rw [mjson_skip_value]
        simp only [h2]
        rfl
      | true =>
        obtain ⟨c2, h2, hi2, hs2⟩ := read_type_t c 114 117 101 rest hinv hs
        simp only [and_self, if_true] at h2 hs2
        refine ⟨c2, ?_, hi2, hs2⟩
        rw [mjson_skip_value]
        simp only [h2]
        rfl
      | false =>
        obtain ⟨c2, h2, hi2, hs2⟩ := read_type_f c 97 108 115 101 rest hinv hs
        simp only [and_self, if_true] at h2 hs2
        refine ⟨c2, ?_, hi2, hs2⟩
        rw [mjson_skip_value]
        simp only [h2]
        rfl
      | str body =>
        rw [JValue.skippable] at hsk
        rw [JValue.encode] at hs hf
        simp only [List.cons_append, List.append_assoc, List.singleton_append] at hs
        simp only [List.length_cons, List.length_append, List.length_nil] at hf
        have hbl := encode_body_length body
        obtain ⟨c1, h1, hi1, hs1⟩ := read_type_string c _ hinv hs
        obtain ⟨c2, h2, hi2, hs2⟩ := skip_string_spec body f c1 rest (all_skippable hsk) hi1 hs1
          (by omega)
        exact ⟨c2, by rw [skip_value_string f c c1 h1, h2], hi2, hs2⟩
      | arr es =>
        rw [JValue.skippable] at hsk
        cases es with
        | nil =>
          rw [JValue.encode] at hs hf
          simp only [List.cons_append, List.nil_append] at hs
          obtain ⟨g, rfl⟩ : ∃ g, f = g + 1 := ⟨f - 1, by simp at hf; omega⟩
          obtain ⟨c1, h1, hi1, hs1⟩ := read_type_array c _ hinv hs
          obtain ⟨c2, h2, hi2, hs2⟩ := array_separator_spec c1 93 rest hi1 hs1
          simp at h2 hs2
          exact ⟨c2, by rw [skip_value_array _ c c1 h1, skip_array_end g c1 c2 h2], hi2, hs2⟩
        | cons v es =>
          rw [JElems.skippable, Bool.and_eq_true] at hsk
          rw [JValue.encode] at hs hf
          simp only [List.cons_append, List.append_assoc, List.singleton_append] at hs
          simp only [List.length_cons, List.length_append, List.length_nil] at hf
          obtain ⟨b, t, hb, n44, n93, _, htl⟩ := encode_head v
          have hvl : 2 ≤ v.encode.length := by rw [hb]; simp; omega
          obtain ⟨g, rfl⟩ : ∃ g, f = g + 1 := ⟨f - 1, by omega⟩
          obtain ⟨c1, h1, hi1, hs1⟩ := read_type_array c _ hinv hs
          obtain ⟨c2, h2, hi2, hs2⟩ := array_separator_spec c1 b
            (t ++ (es.encode_tail ++ 93 :: rest)) hi1 (by rw [hs1, hb]; rfl)
          simp only [n44, n93, if_false, or_self] at h2 hs2
          obtain ⟨c3, h3, hi3, hs3⟩ := (ih g (by omega)).1 v c2 (es.encode_tail ++ 93 :: rest)
            hsk.1 hi2 (by rw [hs2, hb]; rfl) (by omega)
          obtain ⟨c4, h4, hi4, hs4⟩ := (ih g (by omega)).2.1 es c3 rest hsk.2 hi3 hs3 (by omega)
          refine ⟨c4, ?_, hi4, hs4⟩
          rw [skip_value_array _ c c1 h1,
            skip_array_step g c1 c2 c3 _ h2 (by decide) h3, h4]
      | obj ms =>
        rw [JValue.skippable] at hsk
        cases ms with
        | nil =>
          rw [JValue.encode] at hs hf
          simp only [List.cons_append, List.nil_append] at hs
          obtain ⟨g, rfl⟩ : ∃ g, f = g + 1 := ⟨f - 1, by simp at hf; omega⟩
          obtain ⟨c1, h1, hi1, hs1⟩ := read_type_object c _ hinv hs
          obtain ⟨c2, h2, hi2, hs2⟩ := object_separator_spec c1 125 rest hi1 hs1
          simp at h2 hs2
          exact ⟨c2, by rw [skip_value_object _ c c1 h1, skip_object_end g c1 c2 h2], hi2, hs2⟩
        | cons key v ms =>
          rw [JMembers.skippable, Bool.and_eq_true, Bool.and_eq_true] at hsk
          rw [JValue.encode] at hs hf
          simp only [List.cons_append, List.append_assoc, List.singleton_append] at hs
          simp only [List.length_cons, List.length_append, List.length_nil] at hf
          have hkl := encode_body_length key
          obtain ⟨b, t, hb, _, _, _, htl⟩ := encode_head v
          have hvl : 2 ≤ v.encode.length := by rw [hb]; simp; omega
          obtain ⟨g, rfl⟩ : ∃ g, f = g + 1 := ⟨f - 1, by omega⟩
          obtain ⟨c1, h1, hi1, hs1⟩ := read_type_object c _ hinv hs
          obtain ⟨c2, h2, hi2, hs2⟩ := object_separator_spec c1 34 _ hi1 hs1
          simp only [show ¬ (34 = 44) by decide, show ¬ (34 = 125) by decide, if_false,
            or_self] at h2 hs2
          obtain ⟨d1, d2, d3, d4, k1, k2, k3, k4, hi4, hs4⟩ := member_spec key v g c2
            (ms.encode_tail ++ 125 :: rest) hsk.1.1
            (fun c3 hc3 hu3 => (ih g (by omega)).1 v c3 _ hsk.1.2 hc3 hu3 (by omega))
            hi2 hs2 (by omega)
          obtain ⟨c5, h5, hi5, hs5⟩ := (ih g (by omega)).2.2 ms d4 rest hsk.2 hi4 hs4 (by omega)
          refine ⟨c5, ?_, hi5, hs5⟩
          rw [skip_value_object _ c c1 h1,
            skip_object_step g c1 c2 d1 d2 d3 d4 _ h2 (by decide) k1 k2 k3 k4, h5]
    · intro es c rest hsk hinv hs hf
      obtain ⟨f, rfl⟩ : ∃ f, fuel = f + 1 := ⟨fuel - 1, by omega⟩
      cases es with
      | nil =>
        rw [JElems.encode_tail] at hs
        simp only [List.nil_append] at hs
        obtain ⟨c2, h2, hi2, hs2⟩ := array_separator_spec c 93 rest hinv hs
        simp at h2 hs2
        exact ⟨c2, skip_array_end f c c2 h2, hi2, hs2⟩
      | cons v es =>
        rw [JElems.skippable, Bool.and_eq_true] at hsk
        rw [JElems.encode_tail] at hs hf
        simp only [List.cons_append, List.append_assoc] at hs
        simp only [List.length_cons, List.length_append] at hf
        obtain ⟨b, t, hb, _, _, _, htl⟩ := encode_head v
        have hvl : 2 ≤ v.encode.length := by rw [hb]; simp; omega
        obtain ⟨c2, h2, hi2, hs2⟩ := array_separator_spec c 44 _ hinv hs
        simp only [if_true, true_or] at h2 hs2
        obtain ⟨c3, h3, hi3, hs3⟩ := (ih f (by omega)).1 v c2 (es.encode_tail ++ 93 :: rest)
          hsk.1 hi2 hs2 (by omega)
        obtain ⟨c4, h4, hi4, hs4⟩ := (ih f (by omega)).2.1 es c3 rest hsk.2 hi3 hs3 (by omega)
        refine ⟨c4, ?_, hi4, hs4⟩
        rw [skip_array_step f c c2 c3 _ h2 (by decide) h3, h4]
    · intro ms c rest hsk hinv hs hf
      obtain ⟨f, rfl⟩ : ∃ f, fuel = f + 1 := ⟨fuel - 1, by omega⟩
      cases ms with
      | nil =>
        rw [JMembers.encode_tail] at hs
        simp only [List.nil_append] at hs
        obtain ⟨c2, h2, hi2, hs2⟩ := object_separator_spec c 125 rest hinv hs
        simp at h2 hs2
        exact ⟨c2, skip_object_end f c c2 h2, hi2, hs2⟩
      | cons key v ms =>
        rw [JMembers.skippable, Bool.and_eq_true, Bool.and_eq_true] at hsk
        rw [JMembers.encode_tail] at hs hf
        simp only [List.cons_append, List.append_assoc] at hs
        simp only [List.length_cons, List.length_append] at hf
        have hkl := encode_body_length key
        obtain ⟨b, t, hb, _, _, _, htl⟩ := encode_head v
        have hvl : 2 ≤ v.encode.length := by rw [hb]; simp; omega
        obtain ⟨c2, h2, hi2, hs2⟩ := object_separator_spec c 44 _ hinv hs
        simp only [if_true, true_or] at h2 hs2
        obtain ⟨d1, d2, d3, d4, k1, k2, k3, k4, hi4, hs4⟩ := member_spec key v f c2
          (ms.encode_tail ++ 125 :: rest) hsk.1.1
          (fun c3 hc3 hu3 => (ih f (by omega)).1 v c3 _ hsk.1.2 hc3 hu3 (by omega))
          hi2 hs2 (by omega)
        obtain ⟨c5, h5, hi5, hs5⟩ := (ih f (by omega)).2.2 ms d4 rest hsk.2 hi4 hs4 (by omega)
        refine ⟨c5, ?_, hi5, hs5⟩
        rw [skip_object_step f c c2 d1 d2 d3 d4 _ h2 (by decide) k1 k2 k3 k4, h5]

/-! ## Claims on skipping values -/

theorem skip_value_number (f : Nat) (c c1 : mjson_ctx)
    (h : mjson_read_type c = (MJSON_TYPE_NUMBER, c1)) :
    mjson_skip_value (f + 1) c = mjson_skip_number f c1 := by
  rw [mjson_skip_value]
  simp only [h]
  rfl

/-- On a stream that starts with `-` or a digit `mjson_skip_value` does not
return, whatever the fuel: it ends in the second loop of
`mjson_read_number_as_string`. -/
theorem skip_value_number_diverges (c : mjson_ctx) (b : Nat) (t : List Nat) (hinv : WindowInv c)
    (hs : unconsumed c = b :: t) (hb : b = 45 ∨ (48 ≤ b ∧ b ≤ 57)) :
    ∀ fuel, mjson_skip_value fuel c = none := by
  intro fuel
  cases fuel with
  | zero => rfl
  | succ f =>
    obtain ⟨c1, h1, hi1, hs1, _, _⟩ := read_type_other c b t hinv hs (by omega)
    rw [if_pos hb] at h1
    have hnum : ∀ x ∈ [b], is_number_byte x := by
      intro x hx
      rw [List.mem_singleton.1 hx]
      rcases hb with hb | hb
      · right; right; right; right; right; exact hb
      · left; exact hb
    rw [skip_value_number f c c1 h1, mjson_skip_number,
      number_as_string_diverges [b] t 0 c1 NULL f hnum (by simp) hi1 hs1]
    rfl

/-- C1, counterexample: the valid document `[true, false]` (a space after the
comma), followed by `,`, is refused with `MJSON_ERROR_UNKNOWN_TYPE`; on
`[1,2,3]` and on `{"k":1}`, each followed by `,`, `mjson_skip_value` does not
return, whatever the fuel. -/
theorem skip_value_fails_on_valid_json :
    (mjson_skip_value 4 (mjson_init blank_ctx
        [91, 116, 114, 117, 101, 44, 32, 102, 97, 108, 115, 101, 93, 44])).map Prod.fst
      = some MJSON_ERROR_UNKNOWN_TYPE ∧
    (¬ ∃ fuel, (mjson_skip_value fuel
        (mjson_init blank_ctx [91, 49, 44, 50, 44, 51, 93, 44])).isSome = true) ∧
    (¬ ∃ fuel, (mjson_skip_value fuel
        (mjson_init blank_ctx [123, 34, 107, 34, 58, 49, 125, 44])).isSome = true) := by
  refine ⟨by decide, ?_, ?_⟩
  · rintro ⟨fuel, hf⟩
    rcases fuel with _ | _ | g
    · revert hf; decide
    · revert hf; decide
    · obtain ⟨c1, h1, hi1, hs1⟩ := read_type_array
        (mjson_init blank_ctx [91, 49, 44, 50, 44, 51, 93, 44]) [49, 44, 50, 44, 51, 93, 44]
        (by decide) (by decide)
      obtain ⟨c2, h2, hi2, hs2⟩ := array_separator_spec c1 49 _ hi1 hs1
      simp only [show ¬ (49 = 44) by decide, show ¬ (49 = 93) by decide, if_false,
        or_self] at h2 hs2
      have h3 := skip_value_number_diverges c2 49 _ hi2 hs2 (Or.inr (by decide)) g
      rw [skip_value_array _ _ c1 h1, mjson_skip_array] at hf
      simp [h2, h3, MJSON_ERROR_TEST_NOT_TRUE, MJSON_SUBTYPE_ARRAY_END] at hf
  · rintro ⟨fuel, hf⟩
    rcases fuel with _ | _ | _ | _ | g
    · revert hf; decide
    · revert hf; decide
    · revert hf; decide
    · revert hf; decide
    · obtain ⟨c1, h1, hi1, hs1⟩ := read_type_object
        (mjson_init blank_ctx [123, 34, 107, 34, 58, 49, 125, 44]) [34, 107, 34, 58, 49, 125, 44]
        (by decide) (by decide)
      obtain ⟨c2, h2, hi2, hs2⟩ := object_separator_spec c1 34 _ hi1 hs1
      simp only [show ¬ (34 = 44) by decide, show ¬ (34 = 125) by decide, if_false,
        or_self] at h2 hs2
      obtain ⟨c3, h3, hi3, hs3⟩ := read_type_string c2 _ hi2 hs2
      obtain ⟨c4, h4, hi4, hs4⟩ := skip_string_spec [.plain 107] (g + 2) c3 [58, 49, 125, 44]
        (by decide) hi3 hs3 (by simp)
      obtain ⟨c5, h5, hi5, hs5⟩ := read_byte_spec c4 58 58 _ hi4 hs4
      simp only [if_true] at h5 hs5
      have h6 := skip_value_number_diverges c5 49 _ hi5 hs5 (Or.inr (by decide)) (g + 2)
      have h3b : mjson_readcheck_string_start c2 = (MJSON_OK, c3) := by
        simp only [mjson_readcheck_string_start, h3, if_true]
      rw [skip_value_object _ _ c1 h1, mjson_skip_object] at hf
      simp [h2, h3b, h4, mjson_read_object_key_separator, h5, h6, MJSON_ERROR_TEST_NOT_TRUE,
        MJSON_SUBTYPE_OBJECT_END] at hf

/-- C1, amended: for every value built from `null`, `true`, `false`, strings
of skippable elements, arrays and objects with string keys, written without
whitespace (so one that contains no number), and every byte `x`,
`mjson_skip_value` on a freshly initialised context whose source yields the
value followed by `x`, with fuel of at least the number of bytes of the
value, returns `MJSON_OK`, consumes exactly the bytes of the value and leaves
`x` as the next unconsumed byte. -/
theorem skip_value_without_numbers (v : JValue) (x : Nat) (tail : List Nat) (c0 : mjson_ctx)
    (fuel : Nat) (hsk : v.skippable = Bool.true) (hf : v.encode.length ≤ fuel) :
    ∃ c2, mjson_skip_value fuel (mjson_init c0 (v.encode ++ x :: tail)) = some (MJSON_OK, c2) ∧
      WindowInv c2 ∧ unconsumed c2 = x :: tail ∧
      unconsumed (mjson_init c0 (v.encode ++ x :: tail)) = v.encode ++ unconsumed c2 := by
  obtain ⟨c2, h2, hi2, hs2⟩ := (skip_spec_aux fuel).1 v (mjson_init c0 (v.encode ++ x :: tail))
    (x :: tail) hsk (init_inv _ _) (init_stream _ _) hf
  exact ⟨c2, h2, hi2, hs2, by rw [hs2, init_stream]⟩

/-- The documents `[]` and `{"k":["a\"b",null]}`, each followed by `,`. -/
theorem skip_value_without_numbers_witness :
    (∃ c2, mjson_skip_value 2 (mjson_init blank_ctx [91, 93, 44]) = some (MJSON_OK, c2) ∧
      unconsumed c2 = [44]) ∧
    (∃ c2, mjson_skip_value 21 (mjson_init blank_ctx
        [123, 34, 107, 34, 58, 91, 34, 97, 92, 34, 98, 34, 44, 110, 117, 108, 108, 93, 125, 44])
        = some (MJSON_OK, c2) ∧ unconsumed c2 = [44]) := by
  obtain ⟨c2, h2, _, hs2, _⟩ := skip_value_without_numbers (.arr .nil) 44 [] blank_ctx 2
    (by decide) (by decide)
  obtain ⟨c3, h3, _, hs3, _⟩ := skip_value_without_numbers
    (.obj (.cons [.plain 107]
      (.arr (.cons (.str [.plain 97, .esc 34, .plain 98]) (.cons .null .nil))) .nil))
    44 [] blank_ctx 21 (by decide) (by decide)
  exact ⟨⟨c2, h2, hs2⟩, ⟨c3, h3, hs3⟩⟩

/-! ## Claims on the window manager -/

theorem ensure_deficit (c : mjson_ctx) (n : Nat) (hn : n ≤ MJSON_BUFFER_MAX_LENGTH)
    (h : c.length < n) : size_sub n c.length = n - c.length := by
  unfold MJSON_BUFFER_MAX_LENGTH at hn
  exact size_sub_eq (by omega) (by unfold SIZE_MOD; omega)

/-- The status of `mjson_ensure_byte_`, decided by the window length and by
how many bytes the source still has. -/
theorem ensure_status (c : mjson_ctx) (n : Nat) (hn : n ≤ MJSON_BUFFER_MAX_LENGTH) :
    (mjson_ensure_byte_ c n).1 =
      if c.length < n ∧ c.source.length < n - c.length then MJSON_ERROR_READING
      else MJSON_OK := by
  by_cases h : c.length < n
  · have hd := ensure_deficit c n hn h
    have h1 : ¬ c.length ≥ n := by omega
    obtain ⟨c1, hc1, hsrc1⟩ : ∃ c1 : mjson_ctx,
        (if size_sub (size_sub MJSON_BUFFER_MAX_LENGTH c.length) c.start < n - c.length
          then mjson_shift_buffer_ c else c) = c1 ∧ c1.source = c.source := by
      by_cases hs : size_sub (size_sub MJSON_BUFFER_MAX_LENGTH c.length) c.start < n - c.length
      · exact ⟨mjson_shift_buffer_ c, by rw [if_pos hs], rfl⟩
      · exact ⟨c, by rw [if_neg hs], rfl⟩
    have hcnt : (reader c1 (c1.start + c1.length) (n - c.length)).2
        = min (n - c.length) c.source.length := by
      simp only [reader, List.length_take, hsrc1]
    simp only [mjson_ensure_byte_, hd, if_neg h1, hc1, hcnt]
    by_cases h2 : c.source.length < n - c.length
    · have h3 : min (n - c.length) c.source.length < n - c.length := by omega
      rw [if_pos h3, if_pos ⟨h, h2⟩]
    · have h3 : ¬ min (n - c.length) c.source.length < n - c.length := by omega
      rw [if_neg h3, if_neg (fun hx => h2 hx.2)]
  · have h1 : c.length ≥ n := by omega
    simp only [mjson_ensure_byte_, if_pos h1]
    rw [if_neg (fun hx => h hx.1)]

/-- The window invariant holds after `mjson_ensure_byte_`, whether it
succeeds or fails, and after a success the window holds `n` bytes. -/
theorem ensure_inv (c : mjson_ctx) (n : Nat) (hinv : WindowInv c)
    (hn : n ≤ MJSON_BUFFER_MAX_LENGTH) :
    WindowInv (mjson_ensure_byte_ c n).2 ∧
      ((mjson_ensure_byte_ c n).1 = MJSON_OK → n ≤ (mjson_ensure_byte_ c n).2.length) ∧
      ((mjson_ensure_byte_ c n).1 ≠ MJSON_OK →
        (mjson_ensure_byte_ c n).1 = MJSON_ERROR_READING) := by
  have hst := ensure_status c n hn
  by_cases hav : n ≤ c.length + c.source.length
  · obtain ⟨c2, h2, hi2, hl2, _, _⟩ := ensure_ok c n hinv hn hav
    rw [h2]
    exact ⟨hi2, fun _ => by rw [hl2]; exact le_max_right _ _, fun h => absurd rfl h⟩
  · have hlt : c.length < n ∧ c.source.length < n - c.length := by omega
    rw [if_pos hlt] at hst
    refine ⟨?_, fun h => by rw [hst] at h; exact absurd h (by decide), fun _ => hst⟩
    have hd := ensure_deficit c n hn hlt.1
    have h1 : ¬ c.length ≥ n := by omega
    unfold WindowInv MJSON_BUFFER_MAX_LENGTH at *
    simp only [mjson_ensure_byte_, hd, if_neg h1]
    rw [if_pos (by simp only [reader, List.length_take]; split <;> simp [mjson_shift_buffer_] <;> omega)]
    simp only [reader]
    split
    · show 0 + c.length ≤ 8
      omega
    · exact hinv

/-- C16: on a context with `start + length <= 8`, for `n <= 8` and a source
that still has the `n - length` missing bytes when `length < n`,
`mjson_ensure_byte_(n)` returns `MJSON_OK`; afterwards `length` is
`max(old length, n)`, the window holds the old unconsumed bytes, unchanged and
in order, followed by the next `n - old length` bytes of the source (also
when the window was moved to offset 0), the source has delivered exactly
those bytes, the invariant still holds, and when `old length >= n` the
context is returned unchanged, the source untouched. -/
theorem ensure_byte_effect (c : mjson_ctx) (n : Nat) (hinv : WindowInv c)
    (hn : n ≤ MJSON_BUFFER_MAX_LENGTH) (hav : c.length < n → n - c.length ≤ c.source.length) :
    (mjson_ensure_byte_ c n).1 = MJSON_OK ∧
    (mjson_ensure_byte_ c n).2.length = max c.length n ∧
    window (mjson_ensure_byte_ c n).2 = window c ++ c.source.take (n - c.length) ∧
    (c.source.take (n - c.length)).length = n - c.length ∧
    (mjson_ensure_byte_ c n).2.source = c.source.drop (n - c.length) ∧
    WindowInv (mjson_ensure_byte_ c n).2 ∧
    (n ≤ c.length → mjson_ensure_byte_ c n = (MJSON_OK, c)) := by
  have hav2 : n ≤ c.length + c.source.length := by
    by_cases h : c.length < n
    · have := hav h; omega
    · omega
  obtain ⟨c2, h2, hi2, hl2, hw2, hs2⟩ := ensure_ok c n hinv hn hav2
  rw [h2]
  refine ⟨rfl, hl2, hw2, ?_, hs2, hi2, ?_⟩
  · rw [List.length_take]; omega
  · intro h
    rw [← h2]
    simp only [mjson_ensure_byte_, ge_iff_le, h, if_true]

/-- A window `[start, start + length) = [5, 7)` and a request for 4 bytes:
the two buffered bytes are moved to offset 0 and two more are read. -/
theorem ensure_byte_effect_witness :
    (mjson_ensure_byte_ ⟨[51, 52, 53], fun i => i, 5, 2⟩ 4).1 = MJSON_OK ∧
    (mjson_ensure_byte_ ⟨[51, 52, 53], fun i => i, 5, 2⟩ 4).2.length = 4 ∧
    window (mjson_ensure_byte_ ⟨[51, 52, 53], fun i => i, 5, 2⟩ 4).2 = [5, 6, 51, 52] ∧
    (mjson_ensure_byte_ ⟨[51, 52, 53], fun i => i, 5, 2⟩ 4).2.source = [53] := by
  have h := ensure_byte_effect ⟨[51, 52, 53], fun i => i, 5, 2⟩ 4 (by decide) (by decide)
    (by decide)
  exact ⟨h.1, h.2.1, h.2.2.1, h.2.2.2.2.1⟩

/-- C17: for `n <= 8`, `mjson_ensure_byte_(n)` returns `MJSON_ERROR_READING`
exactly when `length < n` and the source has fewer than `n - length` bytes
left, so that the reader returns fewer than it was asked for; in every other
case it returns `MJSON_OK`, and it returns no other status. -/
theorem ensure_byte_status (c : mjson_ctx) (n : Nat) (hn : n ≤ MJSON_BUFFER_MAX_LENGTH) :
    ((mjson_ensure_byte_ c n).1 = MJSON_ERROR_READING ↔
      (c.length < n ∧ c.source.length < n - c.length)) ∧
    ((mjson_ensure_byte_ c n).1 = MJSON_OK ↔
      ¬ (c.length < n ∧ c.source.length < n - c.length)) ∧
    ((mjson_ensure_byte_ c n).1 = MJSON_OK ∨
      (mjson_ensure_byte_ c n).1 = MJSON_ERROR_READING) ∧
    (c.length < n →
      ((reader c (c.start + c.length) (n - c.length)).2 < n - c.length ↔
        c.source.length < n - c.length)) := by
  have hst := ensure_status c n hn
  by_cases h : c.length < n ∧ c.source.length < n - c.length
  · rw [if_pos h] at hst
    refine ⟨⟨fun _ => h, fun _ => hst⟩, ⟨fun h2 => ?_, fun h2 => absurd h h2⟩, Or.inr hst, ?_⟩
    · rw [hst] at h2; exact absurd h2 (by decide)
    · intro _
      simp only [reader, List.length_take]
      omega
  · rw [if_neg h] at hst
    refine ⟨⟨fun h2 => ?_, fun h2 => absurd h2 h⟩, ⟨fun _ => h, fun _ => hst⟩, Or.inl hst, ?_⟩
    · rw [hst] at h2; exact absurd h2 (by decide)
    · intro _
      simp only [reader, List.length_take]
      omega

/-- Three bytes requested, one buffered, one left in the source. -/
theorem ensure_byte_status_witness :
    (mjson_ensure_byte_ ⟨[51], fun i => i, 0, 1⟩ 3).1 = MJSON_ERROR_READING :=
  (ensure_byte_status ⟨[51], fun i => i, 0, 1⟩ 3 (by decide)).1.2 (by decide)

/-! ## The window invariant through the decoders -/

theorem ok_of_not_ne {s : Int} (h : ¬ s ≠ MJSON_OK) : s = MJSON_OK := Decidable.not_not.1 h

/-- After a successful `mjson_ensure_byte_(n)`, consuming up to `n` bytes
keeps the invariant. -/
theorem ensure_consume_inv (c : mjson_ctx) (n k : Nat) (hinv : WindowInv c)
    (hn : n ≤ MJSON_BUFFER_MAX_LENGTH) (hk : k ≤ n)
    (hok : (mjson_ensure_byte_ c n).1 = MJSON_OK) :
    WindowInv (mjson_consume_byte_ (mjson_ensure_byte_ c n).2 k) ∧
      (mjson_consume_byte_ (mjson_ensure_byte_ c n).2 k).length
        = (mjson_ensure_byte_ c n).2.length - k := by
  obtain ⟨h1, h2, _⟩ := ensure_inv c n hinv hn
  have h4 : k ≤ (mjson_ensure_byte_ c n).2.length := Nat.le_trans hk (h2 hok)
  have h3 := consume_window (mjson_ensure_byte_ c n).2 k h1 h4
  exact ⟨h3.1, h3.2.2.2⟩

theorem read_type_inv (c : mjson_ctx) (hinv : WindowInv c) :
    WindowInv (mjson_read_type c).2 := by
  obtain ⟨hi1, _, _⟩ := ensure_inv c 1 hinv (by decide)
  have a1 : (mjson_ensure_byte_ c 1).1 = MJSON_OK →
      WindowInv (mjson_consume_byte_ (mjson_ensure_byte_ c 1).2 1) :=
    fun h => (ensure_consume_inv c 1 1 hinv (by decide) (Nat.le_refl 1) h).1
  have b4 := (ensure_inv (mjson_ensure_byte_ c 1).2 4 hi1 (by decide)).1
  have b5 := (ensure_inv (mjson_ensure_byte_ c 1).2 5 hi1 (by decide)).1
  have c4 : (mjson_ensure_byte_ (mjson_ensure_byte_ c 1).2 4).1 = MJSON_OK →
      WindowInv (mjson_consume_byte_ (mjson_ensure_byte_ (mjson_ensure_byte_ c 1).2 4).2 4) :=
    fun h => (ensure_consume_inv (mjson_ensure_byte_ c 1).2 4 4 hi1 (by decide)
      (Nat.le_refl 4) h).1
  have c5 : (mjson_ensure_byte_ (mjson_ensure_byte_ c 1).2 5).1 = MJSON_OK →
      WindowInv (mjson_consume_byte_ (mjson_ensure_byte_ (mjson_ensure_byte_ c 1).2 5).2 5) :=
    fun h => (ensure_consume_inv (mjson_ensure_byte_ c 1).2 5 5 hi1 (by decide)
      (Nat.le_refl 5) h).1
  unfold mjson_read_type
  simp only []
  by_cases h1 : (mjson_ensure_byte_ c 1).1 ≠ MJSON_OK
  · rw [if_pos h1]; exact hi1
  rw [if_neg h1]
  have hc := a1 (ok_of_not_ne h1)
  by_cases e1 : MJSON_BUFFER_START_ (mjson_ensure_byte_ c 1).2 0 = 34
  · rw [if_pos e1]; exact hc
  rw [if_neg e1]
  by_cases e2 : MJSON_BUFFER_START_ (mjson_ensure_byte_ c 1).2 0 = 123
  · rw [if_pos e2]; exact hc
  rw [if_neg e2]
  by_cases e3 : MJSON_BUFFER_START_ (mjson_ensure_byte_ c 1).2 0 = 91
  · rw [if_pos e3]; exact hc
  rw [if_neg e3]
  by_cases e4 : MJSON_BUFFER_START_ (mjson_ensure_byte_ c 1).2 0 = 116
  · rw [if_pos e4]
    by_cases h4 : (mjson_ensure_byte_ (mjson_ensure_byte_ c 1).2 4).1 ≠ MJSON_OK
    · rw [if_pos h4]; exact b4
    rw [if_neg h4]
    split
    · exact c4 (ok_of_not_ne h4)
    · exact b4
  rw [if_neg e4]
  by_cases e5 : MJSON_BUFFER_START_ (mjson_ensure_byte_ c 1).2 0 = 102
  · rw [if_pos e5]
    by_cases h5 : (mjson_ensure_byte_ (mjson_ensure_byte_ c 1).2 5).1 ≠ MJSON_OK
    · rw [if_pos h5]; exact b5
    rw [if_neg h5]
    split
    · exact c5 (ok_of_not_ne h5)
    · exact b5
  rw [if_neg e5]
  by_cases e6 : MJSON_BUFFER_START_ (mjson_ensure_byte_ c 1).2 0 = 110
  · rw [if_pos e6]
    by_cases h4 : (mjson_ensure_byte_ (mjson_ensure_byte_ c 1).2 4).1 ≠ MJSON_OK
    · rw [if_pos h4]; exact b4
    rw [if_neg h4]
    split
    · exact c4 (ok_of_not_ne h4)
    · exact b4
  rw [if_neg e6]
  split
  · exact hi1
  · exact hi1

theorem read_byte_inv (c : mjson_ctx) (ch : Nat) (hinv : WindowInv c) :
    WindowInv (mjson_read_byte_ c ch).2 := by
  obtain ⟨hi1, _, _⟩ := ensure_inv c 1 hinv (by decide)
  have a1 : (mjson_ensure_byte_ c 1).1 = MJSON_OK →
      WindowInv (mjson_consume_byte_ (mjson_ensure_byte_ c 1).2 1) :=
    fun h => (ensure_consume_inv c 1 1 hinv (by decide) (Nat.le_refl 1) h).1
  unfold mjson_read_byte_
  simp only []
  by_cases h1 : (mjson_ensure_byte_ c 1).1 ≠ MJSON_OK
  · rw [if_pos h1]; exact hi1
  rw [if_neg h1]
  by_cases e1 : MJSON_BUFFER_START_ (mjson_ensure_byte_ c 1).2 0 = ch
  · rw [if_pos e1]; exact a1 (ok_of_not_ne h1)
  rw [if_neg e1]; exact hi1

theorem array_separator_inv (c : mjson_ctx) (hinv : WindowInv c) :
    WindowInv (mjson_read_array_separator_or_end c).2 := by
  obtain ⟨hi1, _, _⟩ := ensure_inv c 1 hinv (by decide)
  have a1 : (mjson_ensure_byte_ c 1).1 = MJSON_OK →
      WindowInv (mjson_consume_byte_ (mjson_ensure_byte_ c 1).2 1) :=
    fun h => (ensure_consume_inv c 1 1 hinv (by decide) (Nat.le_refl 1) h).1
  unfold mjson_read_array_separator_or_end
  simp only []
  by_cases h1 : (mjson_ensure_byte_ c 1).1 ≠ MJSON_OK
  · rw [if_pos h1]; exact hi1
  rw [if_neg h1]
  have hc := a1 (ok_of_not_ne h1)
  by_cases e1 : MJSON_BUFFER_START_ (mjson_ensure_byte_ c 1).2 0 = 44
  · rw [if_pos e1]; exact hc
  rw [if_neg e1]
  by_cases e2 : MJSON_BUFFER_START_ (mjson_ensure_byte_ c 1).2 0 = 93
  · rw [if_pos e2]; exact hc
  rw [if_neg e2]; exact hi1

theorem object_separator_inv (c : mjson_ctx) (hinv : WindowInv c) :
    WindowInv (mjson_read_object_separator_or_end c).2 := by
  obtain ⟨hi1, _, _⟩ := ensure_inv c 1 hinv (by decide)
  have a1 : (mjson_ensure_byte_ c 1).1 = MJSON_OK →
      WindowInv (mjson_consume_byte_ (mjson_ensure_byte_ c 1).2 1) :=
    fun h => (ensure_consume_inv c 1 1 hinv (by decide) (Nat.le_refl 1) h).1
  unfold mjson_read_object_separator_or_end
  simp only []
  by_cases h1 : (mjson_ensure_byte_ c 1).1 ≠ MJSON_OK
  · rw [if_pos h1]; exact hi1
  rw [if_neg h1]
  have hc := a1 (ok_of_not_ne h1)
  by_cases e1 : MJSON_BUFFER_START_ (mjson_ensure_byte_ c 1).2 0 = 44
  · rw [if_pos e1]; exact hc
  rw [if_neg e1]
  by_cases e2 : MJSON_BUFFER_START_ (mjson_ensure_byte_ c 1).2 0 = 125
  · rw [if_pos e2]; exact hc
  rw [if_neg e2]; exact hi1

theorem partial_loop_inv : ∀ (k : Nat) (c : mjson_ctx) (data : Mem) (i : Nat), WindowInv c →
    WindowInv (read_partial_string_loop k c data i).ctx := by
  intro k
  induction k with
  | zero => intro c data i hinv; exact hinv
  | succ k ih =>
    intro c data i hinv
    obtain ⟨hi1, _, _⟩ := ensure_inv c 1 hinv (by decide)
    have a1 : (mjson_ensure_byte_ c 1).1 = MJSON_OK →
      WindowInv (mjson_consume_byte_ (mjson_ensure_byte_ c 1).2 1) :=
    fun h => (ensure_consume_inv c 1 1 hinv (by decide) (Nat.le_refl 1) h).1
    have b2 := (ensure_inv (mjson_ensure_byte_ c 1).2 2 hi1 (by decide)).1
    have c2 : (mjson_ensure_byte_ (mjson_ensure_byte_ c 1).2 2).1 = MJSON_OK →
        WindowInv (mjson_consume_byte_ (mjson_ensure_byte_ (mjson_ensure_byte_ c 1).2 2).2 2) :=
      fun h => (ensure_consume_inv (mjson_ensure_byte_ c 1).2 2 2 hi1 (by decide)
        (Nat.le_refl 2) h).1
    rw [read_partial_string_loop]
    simp only []
    split_ifs with h1 h2 h3 h4
    · exact hi1
    · exact hi1
    · exact b2
    · split
      · exact ih _ _ _ (c2 (ok_of_not_ne h4))
      · exact b2
    · exact ih _ _ _ (a1 (ok_of_not_ne h1))

theorem full_loop_inv : ∀ (fuel : Nat) (c : mjson_ctx) (data : Mem) (n : Nat)
    (r : StringResult), WindowInv c → read_full_string_loop fuel c data n = some r →
    WindowInv r.ctx := by
  intro fuel
  induction fuel with
  | zero => intro c data n r _ h; simp [read_full_string_loop] at h
  | succ f ih =>
    intro c data n r hinv h
    obtain ⟨hi1, _, _⟩ := ensure_inv c 1 hinv (by decide)
    have a1 : (mjson_ensure_byte_ c 1).1 = MJSON_OK →
      WindowInv (mjson_consume_byte_ (mjson_ensure_byte_ c 1).2 1) :=
    fun h => (ensure_consume_inv c 1 1 hinv (by decide) (Nat.le_refl 1) h).1
    have b2 := (ensure_inv (mjson_ensure_byte_ c 1).2 2 hi1 (by decide)).1
    have c2 : (mjson_ensure_byte_ (mjson_ensure_byte_ c 1).2 2).1 = MJSON_OK →
        WindowInv (mjson_consume_byte_ (mjson_ensure_byte_ (mjson_ensure_byte_ c 1).2 2).2 2) :=
      fun h => (ensure_consume_inv (mjson_ensure_byte_ c 1).2 2 2 hi1 (by decide)
        (Nat.le_refl 2) h).1
    rw [read_full_string_loop] at h
    simp only [] at h
    split_ifs at h with h1 h2 h3 h4
    · rw [← Option.some.inj h]; exact hi1
    · rw [← Option.some.inj h]; exact a1 (ok_of_not_ne h1)
    · rw [← Option.some.inj h]; exact b2
    · exact ih _ _ _ r (c2 (ok_of_not_ne h4)) h
    · exact ih _ _ _ r (a1 (ok_of_not_ne h1)) h

theorem full_string_inv (fuel : Nat) (c : mjson_ctx) (data : Mem) (cap : Nat)
    (r : StringResult) (hinv : WindowInv c)
    (h : mjson_read_full_string fuel c data cap = some r) : WindowInv r.ctx := by
  have hp := partial_loop_inv cap c data 0 hinv
  rw [mjson_read_full_string] at h
  split_ifs at h
  · rw [← Option.some.inj h]; exact hp
  · exact full_loop_inv _ _ _ _ r hp h

theorem skip_string_inv (fuel : Nat) (c : mjson_ctx) (r : Int × mjson_ctx) (hinv : WindowInv c)
    (h : mjson_skip_string fuel c = some r) : WindowInv r.2 := by
  rw [mjson_skip_string] at h
  cases hf : mjson_read_full_string fuel c NULL 0 with
  | none => rw [hf] at h; simp at h
  | some q =>
    rw [hf] at h
    simp only [Option.map_some', Option.some.injEq] at h
    rw [← h]
    exact full_string_inv fuel c NULL 0 q hinv hf

/-- One turn of the integer loops keeps the invariant, and after a
successful `mjson_ensure_byte_(1)` the window is not empty. -/
theorem consume_ensure_inv (c : mjson_ctx) (hinv : WindowInv c) (hl : 1 ≤ c.length) :
    WindowInv (mjson_ensure_byte_ (mjson_consume_byte_ c 1) 1).2 ∧
      ((mjson_ensure_byte_ (mjson_consume_byte_ c 1) 1).1 = MJSON_OK →
        1 ≤ (mjson_ensure_byte_ (mjson_consume_byte_ c 1) 1).2.length) := by
  have h1 := (consume_window c 1 hinv hl).1
  obtain ⟨h2, h3, _⟩ := ensure_inv (mjson_consume_byte_ c 1) 1 h1 (by decide)
  exact ⟨h2, h3⟩

theorem read_int_digits_inv (w : Nat) : ∀ (fuel : Nat) (c : mjson_ctx) (val : Int)
    (st : Int) (c2 : mjson_ctx) (v : Int), WindowInv c → 1 ≤ c.length →
    read_int_digits w fuel c val = some (st, c2, v) →
    WindowInv c2 ∧ (st = MJSON_OK → 1 ≤ c2.length) := by
  intro fuel
  induction fuel with
  | zero => intro c val st c2 v _ _ h; simp [read_int_digits] at h
  | succ f ih =>
    intro c val st c2 v hinv hl h
    obtain ⟨g1, g2⟩ := consume_ensure_inv c hinv hl
    rw [read_int_digits] at h
    by_cases hd : 48 ≤ MJSON_BUFFER_START_ c 0 ∧ MJSON_BUFFER_START_ c 0 ≤ 57
    · rw [if_pos hd] at h
      by_cases h1 : (mjson_ensure_byte_ (mjson_consume_byte_ c 1) 1).1 ≠ MJSON_OK
      · simp only [if_pos h1, Option.some.injEq, Prod.mk.injEq] at h
        obtain ⟨e1, e2, _⟩ := h
        rw [← e2, ← e1]
        exact ⟨g1, fun hx => absurd hx h1⟩
      · simp only [if_neg h1] at h
        exact ih _ _ st c2 v g1 (g2 (ok_of_not_ne h1)) h
    · simp only [if_neg hd, Option.some.injEq, Prod.mk.injEq] at h
      obtain ⟨e1, e2, _⟩ := h
      rw [← e2]
      exact ⟨hinv, fun _ => hl⟩

theorem read_int_tail_inv : ∀ (fuel : Nat) (c : mjson_ctx) (r : Int × mjson_ctx),
    WindowInv c → 1 ≤ c.length → read_int_tail fuel c = some r → WindowInv r.2 := by
  intro fuel
  induction fuel with
  | zero => intro c r _ _ h; simp [read_int_tail] at h
  | succ f ih =>
    intro c r hinv hl h
    obtain ⟨g1, g2⟩ := consume_ensure_inv c hinv hl
    rw [read_int_tail] at h
    simp only [] at h
    by_cases hd : is_number_byte (MJSON_BUFFER_START_ c 0)
    · rw [if_pos hd] at h
      by_cases h1 : (mjson_ensure_byte_ (mjson_consume_byte_ c 1) 1).1 ≠ MJSON_OK
      · rw [if_pos h1] at h
        rw [← Option.some.inj h]
        exact g1
      · rw [if_neg h1] at h
        exact ih _ r g1 (g2 (ok_of_not_ne h1)) h
    · rw [if_neg hd] at h
      rw [← Option.some.inj h]
      exact hinv

theorem read_int_inv (w fuel : Nat) (c : mjson_ctx) (r : IntResult) (hinv : WindowInv c)
    (h : mjson_read_int w fuel c = some r) : WindowInv r.ctx := by
  obtain ⟨hi1, hl1, _⟩ := ensure_inv c 1 hinv (by decide)
  rw [mjson_read_int] at h
  simp only [] at h
  by_cases h1 : (mjson_ensure_byte_ c 1).1 ≠ MJSON_OK
  · rw [if_pos h1] at h
    rw [← Option.some.inj h]; exact hi1
  rw [if_neg h1] at h
  obtain ⟨c1, hc1, hic1⟩ : ∃ c1 : mjson_ctx,
      (if MJSON_BUFFER_START_ (mjson_ensure_byte_ c 1).2 0 = 45
        then mjson_consume_byte_ (mjson_ensure_byte_ c 1).2 1 else (mjson_ensure_byte_ c 1).2)
        = c1 ∧ WindowInv c1 := by
    by_cases hneg : MJSON_BUFFER_START_ (mjson_ensure_byte_ c 1).2 0 = 45
    · exact ⟨_, by rw [if_pos hneg],
        (consume_window _ 1 hi1 (hl1 (ok_of_not_ne h1))).1⟩
    · exact ⟨_, by rw [if_neg hneg], hi1⟩
  rw [hc1] at h
  obtain ⟨hi2, hl2, _⟩ := ensure_inv c1 1 hic1 (by decide)
  by_cases h2 : (mjson_ensure_byte_ c1 1).1 ≠ MJSON_OK
  · rw [if_pos h2] at h
    rw [← Option.some.inj h]; exact hi2
  rw [if_neg h2] at h
  cases hdig : read_int_digits w fuel (mjson_ensure_byte_ c1 1).2 0 with
  | none => rw [hdig] at h; simp at h
  | some d =>
    obtain ⟨st, cd, vd⟩ := d
    obtain ⟨hi3, hl3⟩ := read_int_digits_inv w fuel _ 0 st cd vd hi2 (hl2 (ok_of_not_ne h2)) hdig
    rw [hdig] at h
    simp only [] at h
    by_cases h3 : st ≠ MJSON_OK
    · rw [if_pos h3] at h
      rw [← Option.some.inj h]; exact hi3
    rw [if_neg h3] at h
    cases htl : read_int_tail fuel cd with
    | none => rw [htl] at h; simp at h
    | some t =>
      have hi4 := read_int_tail_inv fuel cd t hi3 (hl3 (ok_of_not_ne h3)) htl
      rw [htl] at h
      simp only [] at h
      rw [← Option.some.inj h]; exact hi4

theorem number_copy_loop_inv : ∀ (k : Nat) (c : mjson_ctx) (data : Mem) (i : Nat),
    WindowInv c → WindowInv (read_number_copy_loop k c data i).2.1 := by
  intro k
  induction k with
  | zero => intro c data i hinv; exact hinv
  | succ k ih =>
    intro c data i hinv
    obtain ⟨hi1, hl1, _⟩ := ensure_inv c 1 hinv (by decide)
    rw [read_number_copy_loop]
    by_cases h1 : (mjson_ensure_byte_ c 1).1 ≠ MJSON_OK
    · rw [if_pos h1]; exact hi1
    rw [if_neg h1]
    by_cases hb : is_number_byte (MJSON_BUFFER_START_ (mjson_ensure_byte_ c 1).2 0)
    · rw [if_pos hb]
      exact ih _ _ _ (consume_window _ 1 hi1 (hl1 (ok_of_not_ne h1))).1
    · rw [if_neg hb]; exact hi1

/-- The second loop of `mjson_read_number_as_string` returns only when it is
not entered. -/
theorem number_tail_loop_some (ch fuel : Nat) (c : mjson_ctx) (i : Nat) (r : mjson_ctx × Nat)
    (h : read_number_tail_loop ch fuel c i = some r) : r = (c, i) ∧ ¬ is_number_byte ch := by
  by_cases hch : is_number_byte ch
  · rw [number_tail_loop_diverges ch hch] at h; simp at h
  · cases fuel with
    | zero => simp [read_number_tail_loop] at h
    | succ f =>
      rw [read_number_tail_loop, if_neg hch] at h
      exact ⟨(Option.some.inj h).symm, hch⟩

theorem number_as_string_inv (fuel : Nat) (c : mjson_ctx) (data : Mem) (cap : Nat)
    (r : StringResult) (hinv : WindowInv c)
    (h : mjson_read_number_as_string fuel c data cap = some r) : WindowInv r.ctx := by
  have hp := number_copy_loop_inv cap c data 0 hinv
  obtain ⟨hi1, _, _⟩ := ensure_inv _ 1 hp (by decide)
  rw [mjson_read_number_as_string] at h
  simp only [] at h
  by_cases h1 : (read_number_copy_loop cap c data 0).1 ≠ MJSON_OK
  · rw [if_pos h1] at h
    rw [← Option.some.inj h]; exact hp
  rw [if_neg h1] at h
  by_cases h2 : (mjson_ensure_byte_ (read_number_copy_loop cap c data 0).2.1 1).1 ≠ MJSON_OK
  · rw [if_pos h2] at h
    rw [← Option.some.inj h]; exact hi1
  rw [if_neg h2] at h
  cases htl : read_number_tail_loop
      (MJSON_BUFFER_START_ (mjson_ensure_byte_ (read_number_copy_loop cap c data 0).2.1 1).2 0)
      fuel (mjson_ensure_byte_ (read_number_copy_loop cap c data 0).2.1 1).2
      (read_number_copy_loop cap c data 0).2.2.2 with
  | none => rw [htl] at h; simp at h
  | some t =>
    have ht := (number_tail_loop_some _ _ _ _ t htl).1
    rw [htl] at h
    simp only [] at h
    rw [← Option.some.inj h, ht]; exact hi1

theorem skip_number_inv (fuel : Nat) (c : mjson_ctx) (r : Int × mjson_ctx) (hinv : WindowInv c)
    (h : mjson_skip_number fuel c = some r) : WindowInv r.2 := by
  rw [mjson_skip_number] at h
  cases hf : mjson_read_number_as_string fuel c NULL 0 with
  | none => rw [hf] at h; simp at h
  | some q =>
    rw [hf] at h
    simp only [Option.map_some', Option.some.injEq] at h
    rw [← h]
    exact number_as_string_inv fuel c NULL 0 q hinv hf

theorem readcheck_string_start_inv (c : mjson_ctx) (hinv : WindowInv c) :
    WindowInv (mjson_readcheck_string_start c).2 := read_type_inv c hinv

/-- The skippers keep the window invariant whenever they return. -/
theorem skip_inv : ∀ fuel : Nat,
    (∀ (c : mjson_ctx) (r : Int × mjson_ctx), WindowInv c → mjson_skip_value fuel c = some r →
      WindowInv r.2) ∧
    (∀ (c : mjson_ctx) (r : Int × mjson_ctx), WindowInv c → mjson_skip_array fuel c = some r →
      WindowInv r.2) ∧
    (∀ (c : mjson_ctx) (r : Int × mjson_ctx), WindowInv c → mjson_skip_object fuel c = some r →
      WindowInv r.2) := by
  intro fuel
  induction fuel with
  | zero =>
    refine ⟨?_, ?_, ?_⟩
    · intro c r _ h; simp [mjson_skip_value] at h
    · intro c r _ h; simp [mjson_skip_array] at h
    · intro c r _ h; simp [mjson_skip_object] at h
  | succ f ih =>
    obtain ⟨ihv, iha, iho⟩ := ih
    refine ⟨?_, ?_, ?_⟩
    · intro c r hinv h
      have ht := read_type_inv c hinv
      rw [mjson_skip_value] at h
      by_cases t1 : (mjson_read_type c).1 = MJSON_TYPE_ARRAY
      · rw [if_pos t1] at h; exact iha _ r ht h
      rw [if_neg t1] at h
      by_cases t2 : (mjson_read_type c).1 = MJSON_TYPE_OBJECT
      · rw [if_pos t2] at h; exact iho _ r ht h
      rw [if_neg t2] at h
      by_cases t3 : (mjson_read_type c).1 = MJSON_TYPE_NUMBER
      · rw [if_pos t3] at h; exact skip_number_inv f _ r ht h
      rw [if_neg t3] at h
      by_cases t4 : (mjson_read_type c).1 = MJSON_TYPE_STRING
      · rw [if_pos t4] at h; exact skip_string_inv f _ r ht h
      rw [if_neg t4] at h
      by_cases t5 : (mjson_read_type c).1 = MJSON_TYPE_NULL ∨
          (mjson_read_type c).1 = MJSON_TYPE_TRUE ∨ (mjson_read_type c).1 = MJSON_TYPE_FALSE
      · rw [if_pos t5] at h
        rw [← Option.some.inj h]; exact ht
      · rw [if_neg t5] at h
        rw [← Option.some.inj h]; exact ht
    · intro c r hinv h
      have hs := array_separator_inv c hinv
      rw [mjson_skip_array] at h
      by_cases e : (mjson_read_array_separator_or_end c).1 ≠ MJSON_SUBTYPE_ARRAY_END
      · rw [if_pos e] at h
        cases hv : mjson_skip_value f (mjson_read_array_separator_or_end c).2 with
        | none => rw [hv] at h; simp at h
        | some v =>
          have hvi := ihv _ v hs hv
          rw [hv] at h
          simp only [] at h
          by_cases e2 : v.1 ≠ MJSON_OK
          · rw [if_pos e2] at h
            rw [← Option.some.inj h]; exact hvi
          · rw [if_neg e2] at h
            exact iha _ r hvi h
      · rw [if_neg e] at h
        rw [← Option.some.inj h]; exact hs
    · intro c r hinv h
      have hs := object_separator_inv c hinv
      have hq := readcheck_string_start_inv _ hs
      rw [mjson_skip_object] at h
      by_cases e : (mjson_read_object_separator_or_end c).1 ≠ MJSON_SUBTYPE_OBJECT_END
      · rw [if_pos e] at h
        by_cases e1 : (mjson_readcheck_string_start (mjson_read_object_separator_or_end c).2).1
            ≠ MJSON_OK
        · rw [if_pos e1] at h
          rw [← Option.some.inj h]; exact hq
        rw [if_neg e1] at h
        cases hk : mjson_skip_string f
            (mjson_readcheck_string_start (mjson_read_object_separator_or_end c).2).2 with
        | none => rw [hk] at h; simp at h
        | some k =>
          have hki := skip_string_inv f _ k hq hk
          have hpi := read_byte_inv k.2 58 hki
          rw [hk] at h
          simp only [] at h
          by_cases e2 : k.1 ≠ MJSON_OK
          · rw [if_pos e2] at h
            rw [← Option.some.inj h]; exact hki
          rw [if_neg e2] at h
          by_cases e3 : (mjson_read_object_key_separator k.2).1 ≠ MJSON_OK
          · rw [if_pos e3] at h
            rw [← Option.some.inj h]; exact hpi
          rw [if_neg e3] at h
          cases hv : mjson_skip_value f (mjson_read_object_key_separator k.2).2 with
          | none => rw [hv] at h; simp at h
          | some v =>
            have hvi := ihv _ v hpi hv
            rw [hv] at h
            simp only [] at h
            by_cases e4 : v.1 ≠ MJSON_OK
            · rw [if_pos e4] at h
              rw [← Option.some.inj h]; exact hvi
            · rw [if_neg e4] at h
              exact iho _ r hvi h
      · rw [if_neg e] at h
        rw [← Option.some.inj h]; exact hs

/-- C12: the window invariant `start + length <= 8` holds after `mjson_init`,
is kept by `mjson_ensure_byte_(n)` for every `n <= 8`, whether it succeeds or
fails, and by `mjson_consume_byte_(k)` for every `k <= length`, and holds in
the context left by every public decoder that returns, whatever the stream:
the dispatcher, the checked readers, the separator readers, the string
decoders, the integer readers, the number-text decoder and the skippers. -/
theorem window_invariant_kept :
    (∀ (c : mjson_ctx) (src : List Nat), WindowInv (mjson_init c src)) ∧
    (∀ (c : mjson_ctx) (n : Nat), WindowInv c → n ≤ MJSON_BUFFER_MAX_LENGTH →
      WindowInv (mjson_ensure_byte_ c n).2) ∧
    (∀ (c : mjson_ctx) (k : Nat), WindowInv c → k ≤ c.length →
      WindowInv (mjson_consume_byte_ c k)) ∧
    (∀ c : mjson_ctx, WindowInv c →
      WindowInv (mjson_read_type c).2 ∧
      WindowInv (mjson_readcheck_null c).2 ∧
      WindowInv (mjson_readcheck_boolean c).ctx ∧
      WindowInv (mjson_readcheck_string_start c).2 ∧
      WindowInv (mjson_readcheck_array_start c).2 ∧
      WindowInv (mjson_readcheck_object_start c).2 ∧
      WindowInv (mjson_read_array_separator_or_end c).2 ∧
      WindowInv (mjson_read_object_separator_or_end c).2 ∧
      WindowInv (mjson_read_object_key_separator c).2 ∧
      WindowInv (mjson_read_string_end c).2 ∧
      (∀ data cap, WindowInv (mjson_read_partial_string c data cap).ctx) ∧
      (∀ fuel data cap r, mjson_read_full_string fuel c data cap = some r → WindowInv r.ctx) ∧
      (∀ fuel r, mjson_skip_string fuel c = some r → WindowInv r.2) ∧
      (∀ fuel r, mjson_read_int8 fuel c = some r → WindowInv r.ctx) ∧
      (∀ fuel r, mjson_read_int16 fuel c = some r → WindowInv r.ctx) ∧
      (∀ fuel r, mjson_read_int32 fuel c = some r → WindowInv r.ctx) ∧
      (∀ fuel r, mjson_read_int64 fuel c = some r → WindowInv r.ctx) ∧
      (∀ fuel data cap r, mjson_read_number_as_string fuel c data cap = some r →
        WindowInv r.ctx) ∧
      (∀ fuel r, mjson_skip_number fuel c = some r → WindowInv r.2) ∧
      (∀ fuel r, mjson_skip_value fuel c = some r → WindowInv r.2) ∧
      (∀ fuel r, mjson_skip_array fuel c = some r → WindowInv r.2) ∧
      (∀ fuel r, mjson_skip_object fuel c = some r → WindowInv r.2)) := by
  refine ⟨init_inv, fun c n hinv hn => (ensure_inv c n hinv hn).1,
    fun c k hinv hk => (consume_window c k hinv hk).1, ?_⟩
  intro c hinv
  have ht := read_type_inv c hinv
  refine ⟨ht, ht, ?_, ht, ht, ht, array_separator_inv c hinv, object_separator_inv c hinv,
    read_byte_inv c 58 hinv, read_byte_inv c 34 hinv,
    fun data cap => partial_loop_inv cap c data 0 hinv,
    fun fuel data cap r h => full_string_inv fuel c data cap r hinv h,
    fun fuel r h => skip_string_inv fuel c r hinv h,
    fun fuel r h => read_int_inv 8 fuel c r hinv h,
    fun fuel r h => read_int_inv 16 fuel c r hinv h,
    fun fuel r h => read_int_inv 32 fuel c r hinv h,
    fun fuel r h => read_int_inv 64 fuel c r hinv h,
    fun fuel data cap r h => number_as_string_inv fuel c data cap r hinv h,
    fun fuel r h => skip_number_inv fuel c r hinv h,
    fun fuel r h => (skip_inv fuel).1 c r hinv h,
    fun fuel r h => (skip_inv fuel).2.1 c r hinv h,
    fun fuel r h => (skip_inv fuel).2.2 c r hinv h⟩
  unfold mjson_readcheck_boolean
  simp only []
  split
  · exact ht
  · split
    · exact ht
    · exact ht

/-- After `[true,` on a fresh context the invariant holds in the context that
`mjson_skip_value` leaves when it fails on the exhausted source. -/
theorem window_invariant_kept_witness :
    ∃ r, mjson_skip_value 4 (mjson_init blank_ctx [91, 116, 114, 117, 101, 44]) = some r ∧
      r.1 = MJSON_ERROR_READING ∧ WindowInv r.2 := by
  have h : mjson_skip_value 4 (mjson_init blank_ctx [91, 116, 114, 117, 101, 44])
      = some ((mjson_skip_value 4 (mjson_init blank_ctx [91, 116, 114, 117, 101, 44])).get
          (by decide)) := by
    simp
  exact ⟨_, h, by decide,
    (window_invariant_kept.2.2.2 (mjson_init blank_ctx [91, 116, 114, 117, 101, 44])
      (by decide)).2.2.2.2.2.2.2.2.2.2.2.2.2.2.2.2.2.2.2.1 4 _ h⟩

/-! ## Claims on truncated and malformed input -/

/-- C11: on a stream whose first byte is `t` or `n` and that ends before its
fourth byte, or whose first byte is `f` and that ends before its fifth byte,
`mjson_read_type` returns `MJSON_ERROR_READING`; so it does on `tru` after
`mjson_init`. -/
theorem read_type_truncated_literal (c : mjson_ctx) (b : Nat) (t : List Nat)
    (hinv : WindowInv c) (hs : unconsumed c = b :: t)
    (hb : ((b = 116 ∨ b = 110) ∧ (b :: t).length < 4) ∨ (b = 102 ∧ (b :: t).length < 5)) :
    (mjson_read_type c).1 = MJSON_ERROR_READING := by
  obtain ⟨c1, h1, hi1, hs1, hl1, hp1⟩ := ensure_peek c 1 _ hinv (by decide) hs (by simp)
  have hp := hp1 0 (by omega)
  simp only [List.getD_cons_zero] at hp
  rcases hb with ⟨hb | hb, hlen⟩ | ⟨hb, hlen⟩
  · subst hb
    have h4 := ensure_stream_fail c1 4 (by decide) (by rw [hs1]; exact hlen)
    simp [mjson_read_type, h1, hp, h4, reading_ne_ok]
  · subst hb
    have h4 := ensure_stream_fail c1 4 (by decide) (by rw [hs1]; exact hlen)
    simp [mjson_read_type, h1, hp, h4, reading_ne_ok]
  · subst hb
    have h5 := ensure_stream_fail c1 5 (by decide) (by rw [hs1]; exact hlen)
    simp [mjson_read_type, h1, hp, h5, reading_ne_ok]

/-- The three bytes `tru`, then the source is exhausted. -/
theorem read_type_truncated_literal_witness :
    (mjson_read_type (mjson_init blank_ctx [116, 114, 117])).1 = MJSON_ERROR_READING :=
  read_type_truncated_literal (mjson_init blank_ctx [116, 114, 117]) 116 [114, 117]
    (by decide) (by decide) (by decide)

/-- The loop of `mjson_skip_object` passes over well-formed members, each
after a comma, and then does what it does on the rest of the stream. -/
theorem skip_object_through (R : Int) (more : List Nat) (k : Nat) (P : mjson_ctx → Prop)
    (hmore : ∀ (fuel : Nat) (c : mjson_ctx), WindowInv c → unconsumed c = more → k ≤ fuel →
      ∃ c2, mjson_skip_object fuel c = some (R, c2) ∧ P c2) :
    ∀ (n : Nat) (ms : JMembers), ms.encode_tail.length ≤ n → ms.skippable = Bool.true →
      ∀ (fuel : Nat) (c : mjson_ctx), WindowInv c → unconsumed c = ms.encode_tail ++ more →
      ms.encode_tail.length + k ≤ fuel →
      ∃ c2, mjson_skip_object fuel c = some (R, c2) ∧ P c2 := by
  intro n
  induction n with
  | zero =>
    intro ms hn hsk fuel c hinv hs hf
    cases ms with
    | nil =>
      rw [JMembers.encode_tail] at hs hf
      exact hmore fuel c hinv (by simpa using hs) (by simpa using hf)
    | cons key v ms => rw [JMembers.encode_tail] at hn; simp at hn
  | succ n ih =>
    intro ms hn hsk fuel c hinv hs hf
    cases ms with
    | nil =>
      rw [JMembers.encode_tail] at hs hf
      exact hmore fuel c hinv (by simpa using hs) (by simpa using hf)
    | cons key v ms =>
      rw [JMembers.skippable, Bool.and_eq_true, Bool.and_eq_true] at hsk
      rw [JMembers.encode_tail] at hs hf hn
      simp only [List.cons_append, List.append_assoc] at hs
      simp only [List.length_cons, List.length_append] at hf hn
      have hkl := encode_body_length key
      obtain ⟨f, rfl⟩ : ∃ f, fuel = f + 1 := ⟨fuel - 1, by omega⟩
      obtain ⟨c2, h2, hi2, hs2⟩ := object_separator_spec c 44 _ hinv hs
      simp only [if_true, true_or] at h2 hs2
      obtain ⟨d1, d2, d3, d4, k1, k2, k3, k4, hi4, hs4⟩ := member_spec key v f c2
        (ms.encode_tail ++ more) hsk.1.1
        (fun c3 hc3 hu3 => (skip_spec_aux f).1 v c3 _ hsk.1.2 hc3 hu3 (by omega))
        hi2 hs2 (by omega)
      obtain ⟨c5, h5, hp5⟩ := ih ms (by omega) hsk.2 f d4 hi4 hs4 (by omega)
      refine ⟨c5, ?_, hp5⟩
      rw [skip_object_step f c c2 d1 d2 d3 d4 _ h2 (by decide) k1 k2 k3 k4, h5]

/-- The loop of `mjson_skip_array` passes over well-formed elements, each
after a comma, and then does what it does on the rest of the stream. -/
theorem skip_array_through (R : Int) (more : List Nat) (k : Nat) (P : mjson_ctx → Prop)
    (hmore : ∀ (fuel : Nat) (c : mjson_ctx), WindowInv c → unconsumed c = more → k ≤ fuel →
      ∃ c2, mjson_skip_array fuel c = some (R, c2) ∧ P c2) :
    ∀ (n : Nat) (es : JElems), es.encode_tail.length ≤ n → es.skippable = Bool.true →
      ∀ (fuel : Nat) (c : mjson_ctx), WindowInv c → unconsumed c = es.encode_tail ++ more →
      es.encode_tail.length + k ≤ fuel →
      ∃ c2, mjson_skip_array fuel c = some (R, c2) ∧ P c2 := by
  intro n
  induction n with
  | zero =>
    intro es hn hsk fuel c hinv hs hf
    cases es with
    | nil =>
      rw [JElems.encode_tail] at hs hf
      exact hmore fuel c hinv (by simpa using hs) (by simpa using hf)
    | cons v es => rw [JElems.encode_tail] at hn; simp at hn
  | succ n ih =>
    intro es hn hsk fuel c hinv hs hf
    cases es with
    | nil =>
      rw [JElems.encode_tail] at hs hf
      exact hmore fuel c hinv (by simpa using hs) (by simpa using hf)
    | cons v es =>
      rw [JElems.skippable, Bool.and_eq_true] at hsk
      rw [JElems.encode_tail] at hs hf hn
      simp only [List.cons_append, List.append_assoc] at hs
      simp only [List.length_cons, List.length_append] at hf hn
      obtain ⟨f, rfl⟩ : ∃ f, fuel = f + 1 := ⟨fuel - 1, by omega⟩
      obtain ⟨c2, h2, hi2, hs2⟩ := array_separator_spec c 44 _ hinv hs
      simp only [if_true, true_or] at h2 hs2
      obtain ⟨c3, h3, hi3, hs3⟩ := (skip_spec_aux f).1 v c2 (es.encode_tail ++ more)
        hsk.1 hi2 hs2 (by omega)
      obtain ⟨c5, h5, hp5⟩ := ih es (by omega) hsk.2 f c3 hi3 hs3 (by omega)
      refine ⟨c5, ?_, hp5⟩
      rw [skip_array_step f c c2 c3 _ h2 (by decide) h3, h5]

/-- The first member of an object, not preceded by a comma: the loop passes
over it, then over the members that follow, and then does what it does on the
rest of the stream. -/
theorem skip_object_first_through (R : Int) (more : List Nat) (k : Nat) (P : mjson_ctx → Prop)
    (hmore : ∀ (fuel : Nat) (c : mjson_ctx), WindowInv c → unconsumed c = more → k ≤ fuel →
      ∃ c2, mjson_skip_object fuel c = some (R, c2) ∧ P c2)
    (key : List StrItem) (v : JValue) (ms : JMembers)
    (hkey : key.all StrItem.skippable = Bool.true) (hv : v.skippable = Bool.true)
    (hms : ms.skippable = Bool.true) (fuel : Nat) (c : mjson_ctx) (hinv : WindowInv c)
    (hs : unconsumed c
      = 34 :: (encode_body key ++ 34 :: 58 :: (v.encode ++ (ms.encode_tail ++ more))))
    (hf : (encode_body key).length + v.encode.length + ms.encode_tail.length + k + 3 ≤ fuel) :
    ∃ c2, mjson_skip_object fuel c = some (R, c2) ∧ P c2 := by
  have hkl := encode_body_length key
  obtain ⟨f, rfl⟩ : ∃ f, fuel = f + 1 := ⟨fuel - 1, by omega⟩
  obtain ⟨c2, h2, hi2, hs2⟩ := object_separator_spec c 34 _ hinv hs
  simp only [show ¬ (34 = 44) by decide, show ¬ (34 = 125) by decide, if_false,
    or_self] at h2 hs2
  obtain ⟨d1, d2, d3, d4, k1, k2, k3, k4, hi4, hs4⟩ := member_spec key v f c2
    (ms.encode_tail ++ more) hkey
    (fun c3 hc3 hu3 => (skip_spec_aux f).1 v c3 _ hv hc3 hu3 (by omega))
    hi2 hs2 (by omega)
  obtain ⟨c5, h5, hp5⟩ := skip_object_through R more k P hmore _ ms (Nat.le_refl _) hms f d4
    hi4 hs4 (by omega)
  refine ⟨c5, ?_, hp5⟩
  rw [skip_object_step f c c2 d1 d2 d3 d4 _ h2 (by decide) k1 k2 k3 k4, h5]

/-- The first element of an array, not preceded by a comma: the loop passes
over it, then over the elements that follow, and then does what it does on
the rest of the stream. -/
theorem skip_array_first_through (R : Int) (more : List Nat) (k : Nat) (P : mjson_ctx → Prop)
    (hmore : ∀ (fuel : Nat) (c : mjson_ctx), WindowInv c → unconsumed c = more → k ≤ fuel →
      ∃ c2, mjson_skip_array fuel c = some (R, c2) ∧ P c2)
    (v : JValue) (es : JElems) (hv : v.skippable = Bool.true)
    (hes : es.skippable = Bool.true) (fuel : Nat) (c : mjson_ctx) (hinv : WindowInv c)
    (hs : unconsumed c = v.encode ++ (es.encode_tail ++ more))
    (hf : v.encode.length + es.encode_tail.length + k + 1 ≤ fuel) :
    ∃ c2, mjson_skip_array fuel c = some (R, c2) ∧ P c2 := by
  obtain ⟨f, rfl⟩ : ∃ f, fuel = f + 1 := ⟨fuel - 1, by omega⟩
  obtain ⟨b, t, hb, n44, n93, _, _⟩ := encode_head v
  obtain ⟨c2, h2, hi2, hs2⟩ := array_separator_spec c b (t ++ (es.encode_tail ++ more)) hinv
    (by rw [hs, hb]; rfl)
  simp only [n44, n93, if_false, or_self] at h2 hs2
  obtain ⟨c3, h3, hi3, hs3⟩ := (skip_spec_aux f).1 v c2 (es.encode_tail ++ more) hv hi2
    (by rw [hs2, hb]; rfl) (by omega)
  obtain ⟨c5, h5, hp5⟩ := skip_array_through R more k P hmore _ es (Nat.le_refl _) hes f c3
    hi3 hs3 (by omega)
  refine ⟨c5, ?_, hp5⟩
  rw [skip_array_step f c c2 c3 _ h2 (by decide) h3, h5]

theorem ensure_status_cases (c : mjson_ctx) (n : Nat) (hn : n ≤ MJSON_BUFFER_MAX_LENGTH) :
    (mjson_ensure_byte_ c n).1 = MJSON_OK ∨ (mjson_ensure_byte_ c n).1 = MJSON_ERROR_READING := by
  rw [ensure_status c n hn]
  split
  · exact Or.inr rfl
  · exact Or.inl rfl

/-- The dispatcher answers String only on a first byte `"`. -/
theorem read_type_not_string (c : mjson_ctx) (b : Nat) (t : List Nat) (hinv : WindowInv c)
    (hs : unconsumed c = b :: t) (hb : b ≠ 34) :
    (mjson_read_type c).1 ≠ MJSON_TYPE_STRING := by
  obtain ⟨c1, h1, hi1, hs1, hl1, hp1⟩ := ensure_peek c 1 _ hinv (by decide) hs (by simp)
  have hp := hp1 0 (by omega)
  simp only [List.getD_cons_zero] at hp
  have e4 : (mjson_ensure_byte_ c1 4).1 ≠ MJSON_TYPE_STRING := by
    rcases ensure_status_cases c1 4 (by decide) with h | h <;> rw [h] <;> decide
  have e5 : (mjson_ensure_byte_ c1 5).1 ≠ MJSON_TYPE_STRING := by
    rcases ensure_status_cases c1 5 (by decide) with h | h <;> rw [h] <;> decide
  unfold mjson_read_type
  simp only [h1, hp, ne_eq, not_true_eq_false, if_false, hb]
  split
  · dsimp only; decide
  split
  · dsimp only; decide
  split
  · split
    · exact e4
    · split <;> (dsimp only; decide)
  split
  · split
    · exact e5
    · split <;> (dsimp only; decide)
  split
  · split
    · exact e4
    · split <;> (dsimp only; decide)
  split <;> (dsimp only; decide)

/-- A member position that does not start with `"`: after the separator
reader, whatever it answered short of End, `mjson_readcheck_string_start`
fails and `mjson_skip_object` returns `MJSON_ERROR_CHECK_FAILURE`. -/
theorem skip_object_not_string (f : Nat) (c c2 : mjson_ctx) (st : Int) (b : Nat) (t : List Nat)
    (h2 : mjson_read_object_separator_or_end c = (st, c2))
    (hst : st ≠ MJSON_SUBTYPE_OBJECT_END) (hi2 : WindowInv c2) (hs2 : unconsumed c2 = b :: t)
    (hb : b ≠ 34) :
    mjson_skip_object (f + 1) c
      = some (MJSON_ERROR_CHECK_FAILURE, (mjson_read_type c2).2) := by
  have hns := read_type_not_string c2 b t hi2 hs2 hb
  have hq : mjson_readcheck_string_start c2
      = (MJSON_ERROR_CHECK_FAILURE, (mjson_read_type c2).2) := by
    simp only [mjson_readcheck_string_start, hns, if_false]
  rw [mjson_skip_object]
  simp only [h2, hst, ne_eq, not_false_eq_true, if_true, hq]
  rfl

/-- A key that is followed by a byte other than `:`: after the separator
reader, whatever it answered short of End, `mjson_skip_object` returns
`MJSON_ERROR_TEST_NOT_TRUE` and leaves that byte unconsumed. -/
theorem skip_object_no_colon (f : Nat) (c c2 : mjson_ctx) (st : Int) (key : List StrItem)
    (b : Nat) (rest : List Nat)
    (h2 : mjson_read_object_separator_or_end c = (st, c2))
    (hst : st ≠ MJSON_SUBTYPE_OBJECT_END) (hi2 : WindowInv c2)
    (hs2 : unconsumed c2 = 34 :: (encode_body key ++ 34 :: b :: rest))
    (hkey : key.all StrItem.skippable = Bool.true) (hb : b ≠ 58) (hf : key.length < f) :
    ∃ c5, mjson_skip_object (f + 1) c = some (MJSON_ERROR_TEST_NOT_TRUE, c5) ∧
      unconsumed c5 = b :: rest := by
  obtain ⟨c3, h3, hi3, hs3⟩ := read_type_string c2 _ hi2 hs2
  obtain ⟨c4, h4, hi4, hs4⟩ := skip_string_spec key f c3 _ (all_skippable hkey) hi3 hs3 hf
  obtain ⟨c5, h5, _, hs5⟩ := read_byte_spec c4 58 b rest hi4 hs4
  simp only [hb, if_false] at h5 hs5
  have hq : mjson_readcheck_string_start c2 = (MJSON_OK, c3) := by
    simp only [mjson_readcheck_string_start, h3, if_true]
  refine ⟨c5, ?_, hs5⟩
  rw [mjson_skip_object]
  simp only [h2, hst, ne_eq, not_false_eq_true, if_true, hq, not_true_eq_false, if_false, h4,
    mjson_read_object_key_separator, h5]
  rfl

/-- C14: when the key string of a member - the first one, or one after
well-formed members - is followed by a byte other than `:`,
`mjson_skip_object` (called after the opening brace) and `mjson_skip_value`
(called on the whole object) return `MJSON_ERROR_TEST_NOT_TRUE`, and that
byte is the next unconsumed byte. -/
theorem skip_object_missing_colon (key : List StrItem) (b : Nat) (rest : List Nat)
    (hkey : key.all StrItem.skippable = Bool.true) (hb : b ≠ 58) :
    (∀ (fuel : Nat) (c : mjson_ctx), WindowInv c →
      unconsumed c = 34 :: (encode_body key ++ 34 :: b :: rest) → key.length + 2 ≤ fuel →
      ∃ c2, mjson_skip_object fuel c = some (MJSON_ERROR_TEST_NOT_TRUE, c2) ∧
        unconsumed c2 = b :: rest) ∧
    (∀ (fuel : Nat) (c : mjson_ctx), WindowInv c →
      unconsumed c = 123 :: 34 :: (encode_body key ++ 34 :: b :: rest) → key.length + 3 ≤ fuel →
      ∃ c2, mjson_skip_value fuel c = some (MJSON_ERROR_TEST_NOT_TRUE, c2) ∧
        unconsumed c2 = b :: rest) ∧
    (∀ (key0 : List StrItem) (v0 : JValue) (ms : JMembers),
      key0.all StrItem.skippable = Bool.true → v0.skippable = Bool.true →
      ms.skippable = Bool.true →
      ∀ (fuel : Nat) (c : mjson_ctx), WindowInv c →
      unconsumed c = 34 :: (encode_body key0 ++ 34 :: 58 :: (v0.encode ++ (ms.encode_tail ++
        44 :: 34 :: (encode_body key ++ 34 :: b :: rest)))) →
      (encode_body key0).length + v0.encode.length + ms.encode_tail.length + key.length + 5
        ≤ fuel →
      ∃ c2, mjson_skip_object fuel c = some (MJSON_ERROR_TEST_NOT_TRUE, c2) ∧
        unconsumed c2 = b :: rest) ∧
    (∀ (key0 : List StrItem) (v0 : JValue) (ms : JMembers),
      key0.all StrItem.skippable = Bool.true → v0.skippable = Bool.true →
      ms.skippable = Bool.true →
      ∀ (fuel : Nat) (c : mjson_ctx), WindowInv c →
      unconsumed c = 123 :: 34 :: (encode_body key0 ++ 34 :: 58 :: (v0.encode ++
        (ms.encode_tail ++ 44 :: 34 :: (encode_body key ++ 34 :: b :: rest)))) →
      (encode_body key0).length + v0.encode.length + ms.encode_tail.length + key.length + 6
        ≤ fuel →
      ∃ c2, mjson_skip_value fuel c = some (MJSON_ERROR_TEST_NOT_TRUE, c2) ∧
        unconsumed c2 = b :: rest) := by
  have hfirst : ∀ (fuel : Nat) (c : mjson_ctx), WindowInv c →
      unconsumed c = 34 :: (encode_body key ++ 34 :: b :: rest) → key.length + 2 ≤ fuel →
      ∃ c2, mjson_skip_object fuel c = some (MJSON_ERROR_TEST_NOT_TRUE, c2) ∧
        unconsumed c2 = b :: rest := by
    intro fuel c hinv hs hf
    obtain ⟨f, rfl⟩ : ∃ f, fuel = f + 1 := ⟨fuel - 1, by omega⟩
    obtain ⟨c2, h2, hi2, hs2⟩ := object_separator_spec c 34 _ hinv hs
    simp only [show ¬ (34 = 44) by decide, show ¬ (34 = 125) by decide, if_false,
      or_self] at h2 hs2
    exact skip_object_no_colon f c c2 _ key b rest h2 (by decide) hi2 hs2 hkey hb (by omega)
  have hcomma : ∀ (fuel : Nat) (c : mjson_ctx), WindowInv c →
      unconsumed c = 44 :: 34 :: (encode_body key ++ 34 :: b :: rest) → key.length + 2 ≤ fuel →
      ∃ c2, mjson_skip_object fuel c = some (MJSON_ERROR_TEST_NOT_TRUE, c2) ∧
        unconsumed c2 = b :: rest := by
    intro fuel c hinv hs hf
    obtain ⟨f, rfl⟩ : ∃ f, fuel = f + 1 := ⟨fuel - 1, by omega⟩
    obtain ⟨c2, h2, hi2, hs2⟩ := object_separator_spec c 44 _ hinv hs
    simp only [if_true, true_or] at h2 hs2
    exact skip_object_no_colon f c c2 _ key b rest h2 (by decide) hi2 hs2 hkey hb (by omega)
  have hlater : ∀ (key0 : List StrItem) (v0 : JValue) (ms : JMembers),
      key0.all StrItem.skippable = Bool.true → v0.skippable = Bool.true →
      ms.skippable = Bool.true →
      ∀ (fuel : Nat) (c : mjson_ctx), WindowInv c →
      unconsumed c = 34 :: (encode_body key0 ++ 34 :: 58 :: (v0.encode ++ (ms.encode_tail ++
        44 :: 34 :: (encode_body key ++ 34 :: b :: rest)))) →
      (encode_body key0).length + v0.encode.length + ms.encode_tail.length + key.length + 5
        ≤ fuel →
      ∃ c2, mjson_skip_object fuel c = some (MJSON_ERROR_TEST_NOT_TRUE, c2) ∧
        unconsumed c2 = b :: rest := by
    intro key0 v0 ms hk0 hv0 hms fuel c hinv hs hf
    exact skip_object_first_through MJSON_ERROR_TEST_NOT_TRUE _ (key.length + 2)
      (fun c2 => unconsumed c2 = b :: rest) hcomma key0 v0 ms hk0 hv0 hms fuel c hinv hs
      (by omega)
  refine ⟨hfirst, ?_, hlater, ?_⟩
  · intro fuel c hinv hs hf
    obtain ⟨f, rfl⟩ : ∃ f, fuel = f + 1 := ⟨fuel - 1, by omega⟩
    obtain ⟨c1, h1, hi1, hs1⟩ := read_type_object c _ hinv hs
    obtain ⟨c2, h2, hs2⟩ := hfirst f c1 hi1 hs1 (by omega)
    exact ⟨c2, by rw [skip_value_object f c c1 h1, h2], hs2⟩
  · intro key0 v0 ms hk0 hv0 hms fuel c hinv hs hf
    obtain ⟨f, rfl⟩ : ∃ f, fuel = f + 1 := ⟨fuel - 1, by omega⟩
    obtain ⟨c1, h1, hi1, hs1⟩ := read_type_object c _ hinv hs
    obtain ⟨c2, h2, hs2⟩ := hlater key0 v0 ms hk0 hv0 hms f c1 hi1 hs1 (by omega)
    exact ⟨c2, by rw [skip_value_object f c c1 h1, h2], hs2⟩

/-- The document `{"k",1}`: `MJSON_ERROR_TEST_NOT_TRUE`, with `,1}` left. -/
theorem skip_object_missing_colon_witness :
    ∃ c2, mjson_skip_value 4 (mjson_init blank_ctx [123, 34, 107, 34, 44, 49, 125])
        = some (MJSON_ERROR_TEST_NOT_TRUE, c2) ∧
      unconsumed c2 = [44, 49, 125] :=
  (skip_object_missing_colon [.plain 107] 44 [49, 125] (by decide) (by decide)).2.1 4
    (mjson_init blank_ctx [123, 34, 107, 34, 44, 49, 125]) (by decide) (by decide) (by decide)

/-- C15: when a member position of an object - after the opening brace, after
a comma, or after well-formed members and a comma - starts with a byte other
than `"` (so with a number, a literal, `[` or `{`; at the first position the
byte is not `,` or the closing brace either), `mjson_skip_object` returns
`MJSON_ERROR_CHECK_FAILURE`. -/
theorem skip_object_member_not_string (b : Nat) (t : List Nat) (hb : b ≠ 34) :
    (b ≠ 44 → b ≠ 125 → ∀ (fuel : Nat) (c : mjson_ctx), WindowInv c → unconsumed c = b :: t →
      1 ≤ fuel → ∃ c2, mjson_skip_object fuel c = some (MJSON_ERROR_CHECK_FAILURE, c2)) ∧
    (∀ (fuel : Nat) (c : mjson_ctx), WindowInv c → unconsumed c = 44 :: b :: t → 1 ≤ fuel →
      ∃ c2, mjson_skip_object fuel c = some (MJSON_ERROR_CHECK_FAILURE, c2)) ∧
    (∀ (key0 : List StrItem) (v0 : JValue) (ms : JMembers),
      key0.all StrItem.skippable = Bool.true → v0.skippable = Bool.true →
      ms.skippable = Bool.true →
      ∀ (fuel : Nat) (c : mjson_ctx), WindowInv c →
      unconsumed c = 34 :: (encode_body key0 ++ 34 :: 58 :: (v0.encode ++ (ms.encode_tail ++
        44 :: b :: t))) →
      (encode_body key0).length + v0.encode.length + ms.encode_tail.length + 4 ≤ fuel →
      ∃ c2, mjson_skip_object fuel c = some (MJSON_ERROR_CHECK_FAILURE, c2)) := by
  have hcomma : ∀ (fuel : Nat) (c : mjson_ctx), WindowInv c → unconsumed c = 44 :: b :: t →
      1 ≤ fuel →
      ∃ c2, mjson_skip_object fuel c = some (MJSON_ERROR_CHECK_FAILURE, c2) ∧ True := by
    intro fuel c hinv hs hf
    obtain ⟨f, rfl⟩ : ∃ f, fuel = f + 1 := ⟨fuel - 1, by omega⟩
    obtain ⟨c2, h2, hi2, hs2⟩ := object_separator_spec c 44 _ hinv hs
    simp only [if_true, true_or] at h2 hs2
    exact ⟨_, skip_object_not_string f c c2 _ b t h2 (by decide) hi2 hs2 hb, trivial⟩
  refine ⟨?_, ?_, ?_⟩
  · intro n44 n125 fuel c hinv hs hf
    obtain ⟨f, rfl⟩ : ∃ f, fuel = f + 1 := ⟨fuel - 1, by omega⟩
    obtain ⟨c2, h2, hi2, hs2⟩ := object_separator_spec c b t hinv hs
    simp only [n44, n125, if_false, or_self] at h2 hs2
    exact ⟨_, skip_object_not_string f c c2 _ b t h2 (by decide) hi2 hs2 hb⟩
  · intro fuel c hinv hs hf
    obtain ⟨c2, h2, _⟩ := hcomma fuel c hinv hs hf
    exact ⟨c2, h2⟩
  · intro key0 v0 ms hk0 hv0 hms fuel c hinv hs hf
    obtain ⟨c2, h2, _⟩ := skip_object_first_through MJSON_ERROR_CHECK_FAILURE _ 1
      (fun _ => True) hcomma key0 v0 ms hk0 hv0 hms fuel c hinv hs (by omega)
    exact ⟨c2, h2⟩

/-- The stream `1:2}` after the opening brace. -/
theorem skip_object_member_not_string_witness :
    ∃ c2, mjson_skip_object 1 (mjson_init blank_ctx [49, 58, 50, 125])
        = some (MJSON_ERROR_CHECK_FAILURE, c2) :=
  (skip_object_member_not_string 49 [58, 50, 125] (by decide)).1 (by decide) (by decide) 1
    (mjson_init blank_ctx [49, 58, 50, 125]) (by decide) (by decide) (by decide)

/-- C13, counterexample: after the opening bracket, on `true;false]` the
separator reader answers `MJSON_ERROR_TEST_NOT_TRUE` at `;` but
`mjson_skip_array` returns `MJSON_ERROR_UNKNOWN_TYPE`; on `true"a"]`, where
`"` stands at the separator position, `mjson_skip_array` returns `MJSON_OK`. -/
theorem skip_array_ignores_separator_failure :
    (mjson_read_array_separator_or_end
      (mjson_init blank_ctx [59, 102, 97, 108, 115, 101, 93])).1 = MJSON_ERROR_TEST_NOT_TRUE ∧
    (mjson_skip_array 3
      (mjson_init blank_ctx [116, 114, 117, 101, 59, 102, 97, 108, 115, 101, 93])).map Prod.fst
      = some MJSON_ERROR_UNKNOWN_TYPE ∧
    (mjson_read_array_separator_or_end (mjson_init blank_ctx [34, 97, 34, 93])).1
      = MJSON_ERROR_TEST_NOT_TRUE ∧
    (mjson_skip_array 5 (mjson_init blank_ctx [116, 114, 117, 101, 34, 97, 34, 93])).map Prod.fst
      = some MJSON_OK := by
  decide

/-- C13, amended: when a separator-or-end position of an array holds a byte
that is neither `,` nor `]`, `mjson_read_array_separator_or_end` answers
`MJSON_ERROR_TEST_NOT_TRUE` and leaves the byte unconsumed, and
`mjson_skip_array` does not return that status but goes on to skip a value
that starts at that byte: its result is the failure of that `mjson_skip_value`,
or the result of the loop after the value. When the byte starts no token - at
the first position or after well-formed elements - `mjson_skip_array` returns
`MJSON_ERROR_UNKNOWN_TYPE` with the byte unconsumed; when a value starts
there, it is skipped and the loop goes on behind it. -/
theorem skip_array_other_byte (b : Nat) (t : List Nat) (hb : b ≠ 44 ∧ b ≠ 93) :
    (∀ c : mjson_ctx, WindowInv c → unconsumed c = b :: t →
      (mjson_read_array_separator_or_end c).1 = MJSON_ERROR_TEST_NOT_TRUE ∧
      unconsumed (mjson_read_array_separator_or_end c).2 = b :: t ∧
      ∀ fuel, mjson_skip_array (fuel + 1) c =
        match mjson_skip_value fuel (mjson_read_array_separator_or_end c).2 with
        | none => none
        | some v => if v.1 ≠ MJSON_OK then some v else mjson_skip_array fuel v.2) ∧
    (b ≠ 34 ∧ b ≠ 123 ∧ b ≠ 91 ∧ b ≠ 116 ∧ b ≠ 102 ∧ b ≠ 110 ∧ b ≠ 45 ∧ ¬ (48 ≤ b ∧ b ≤ 57) →
      (∀ (fuel : Nat) (c : mjson_ctx), WindowInv c → unconsumed c = b :: t → 2 ≤ fuel →
        ∃ c2, mjson_skip_array fuel c = some (MJSON_ERROR_UNKNOWN_TYPE, c2) ∧
          unconsumed c2 = b :: t) ∧
      (∀ (v : JValue) (es : JElems), v.skippable = Bool.true → es.skippable = Bool.true →
        ∀ (fuel : Nat) (c : mjson_ctx), WindowInv c →
        unconsumed c = v.encode ++ (es.encode_tail ++ b :: t) →
        v.encode.length + es.encode_tail.length + 3 ≤ fuel →
        ∃ c2, mjson_skip_array fuel c = some (MJSON_ERROR_UNKNOWN_TYPE, c2) ∧
          unconsumed c2 = b :: t)) ∧
    (∀ (v : JValue) (more : List Nat) (fuel : Nat) (c : mjson_ctx), v.skippable = Bool.true →
      WindowInv c → unconsumed c = v.encode ++ more → v.encode.length ≤ fuel →
      ∃ c3, mjson_skip_array (fuel + 1) c = mjson_skip_array fuel c3 ∧ WindowInv c3 ∧
        unconsumed c3 = more) := by
  obtain ⟨n44, n93⟩ := hb
  refine ⟨?_, ?_, ?_⟩
  · intro c hinv hs
    obtain ⟨c2, h2, _, hs2⟩ := array_separator_spec c b t hinv hs
    simp only [n44, n93, if_false, or_self] at h2 hs2
    rw [h2]
    refine ⟨rfl, hs2, ?_⟩
    intro fuel
    rw [mjson_skip_array]
    simp only [h2]
    rfl
  · intro hno
    have hstep : ∀ (fuel : Nat) (c : mjson_ctx), WindowInv c → unconsumed c = b :: t →
        2 ≤ fuel →
        ∃ c2, mjson_skip_array fuel c = some (MJSON_ERROR_UNKNOWN_TYPE, c2) ∧
          unconsumed c2 = b :: t := by
      intro fuel c hinv hs hf
      obtain ⟨f, rfl⟩ : ∃ f, fuel = f + 2 := ⟨fuel - 2, by omega⟩
      obtain ⟨c2, h2, hi2, hs2⟩ := array_separator_spec c b t hinv hs
      simp only [n44, n93, if_false, or_self] at h2 hs2
      obtain ⟨c3, h3, _, hs3, _⟩ := read_type_other c2 b t hi2 hs2
        ⟨hno.1, hno.2.1, hno.2.2.1, hno.2.2.2.1, hno.2.2.2.2.1, hno.2.2.2.2.2.1⟩
      have hn : ¬ (b = 45 ∨ (48 ≤ b ∧ b ≤ 57)) := by
        intro hx
        rcases hx with hx | hx
        · exact hno.2.2.2.2.2.2.1 hx
        · exact hno.2.2.2.2.2.2.2 hx
      rw [if_neg hn] at h3
      have hv : mjson_skip_value (f + 1) c2 = some (MJSON_ERROR_UNKNOWN_TYPE, c3) := by
        rw [mjson_skip_value]
        simp only [h3]
        rfl
      refine ⟨c3, ?_, hs3⟩
      rw [mjson_skip_array]
      simp only [h2, hv]
      rfl
    refine ⟨hstep, ?_⟩
    intro v es hv hes fuel c hinv hs hf
    exact skip_array_first_through MJSON_ERROR_UNKNOWN_TYPE (b :: t) 2
      (fun c2 => unconsumed c2 = b :: t) hstep v es hv hes fuel c hinv hs (by omega)
  · intro v more fuel c hv hinv hs hf
    obtain ⟨b0, t0, hb0, m44, m93, _, _⟩ := encode_head v
    obtain ⟨c2, h2, hi2, hs2⟩ := array_separator_spec c b0 (t0 ++ more) hinv
      (by rw [hs, hb0]; rfl)
    simp only [m44, m93, if_false, or_self] at h2 hs2
    obtain ⟨c3, h3, hi3, hs3⟩ := (skip_spec_aux fuel).1 v c2 more hv hi2
      (by rw [hs2, hb0]; rfl) hf
    exact ⟨c3, skip_array_step fuel c c2 c3 _ h2 (by decide) h3, hi3, hs3⟩

/-- The stream `x]` after the opening bracket. -/
theorem skip_array_other_byte_witness :
    (mjson_read_array_separator_or_end (mjson_init blank_ctx [120, 93])).1
      = MJSON_ERROR_TEST_NOT_TRUE ∧
    ∃ c2, mjson_skip_array 2 (mjson_init blank_ctx [120, 93])
        = some (MJSON_ERROR_UNKNOWN_TYPE, c2) ∧ unconsumed c2 = [120, 93] :=
  ⟨((skip_array_other_byte 120 [93] (by decide)).1 (mjson_init blank_ctx [120, 93])
      (by decide) (by decide)).1,
    ((skip_array_other_byte 120 [93] (by decide)).2.1 (by decide)).1 2
      (mjson_init blank_ctx [120, 93]) (by decide) (by decide) (by decide)⟩

/-! ## Claims on whole values, chunked strings and numbers at the end of the stream -/

/-- C18: for every value built from `null`, `true`, `false`, strings of
skippable elements, arrays and objects with string keys, written without
whitespace, and every rest of the stream, empty or not, `mjson_skip_value` on
a fresh context whose source yields the value followed by the rest, with fuel
of at least the number of bytes of the value, returns `MJSON_OK` and has
consumed exactly the bytes of the value: the unconsumed window followed by
the unread source is the rest. -/
theorem skip_value_consumes_exactly (v : JValue) (rest : List Nat) (c0 : mjson_ctx)
    (fuel : Nat) (hsk : v.skippable = Bool.true) (hf : v.encode.length ≤ fuel) :
    ∃ c2, mjson_skip_value fuel (mjson_init c0 (v.encode ++ rest)) = some (MJSON_OK, c2) ∧
      window c2 ++ c2.source = rest := by
  obtain ⟨c2, h2, _, hs2⟩ := (skip_spec_aux fuel).1 v (mjson_init c0 (v.encode ++ rest)) rest
    hsk (init_inv _ _) (init_stream _ _) hf
  exact ⟨c2, h2, hs2⟩

/-- The document `[{"a":[]},"b\\",null]` at the very end of the stream. -/
theorem skip_value_consumes_exactly_witness :
    ∃ c2, mjson_skip_value 22 (mjson_init blank_ctx
        [91, 123, 34, 97, 34, 58, 91, 93, 125, 44, 34, 98, 92, 92, 34, 44, 110, 117, 108, 108,
          93]) = some (MJSON_OK, c2) ∧ window c2 ++ c2.source = [] :=
  skip_value_consumes_exactly
    (.arr (.cons (.obj (.cons [.plain 97] (.arr .nil) .nil))
      (.cons (.str [.plain 98, .esc 92]) (.cons .null .nil))))
    [] blank_ctx 22 (by decide) (by decide)

/-- The function `mjson_read_full_string` with a buffer that holds the whole
decoded string. -/
theorem full_string_whole (items : List StrItem) (cap : Nat) (c : mjson_ctx) (data : Mem)
    (rest : List Nat) (fuel : Nat) (htab : ∀ it ∈ items, it.in_table = true)
    (hinv : WindowInv c) (hs : unconsumed c = encode_body items ++ 34 :: rest)
    (hf : items.length < fuel) (hcap : items.length ≤ cap) :
    ∃ c3, mjson_read_full_string fuel c data cap
        = some ⟨MJSON_OK, c3, write_bytes data 0 (decode_body items), some items.length⟩ ∧
      unconsumed c3 = rest := by
  obtain ⟨c2, h, hi2, hu⟩ := partial_string_spec items cap c data (34 :: rest) htab hinv hs
    (Or.inr ⟨rest, rfl⟩)
  rw [List.drop_of_length_le hcap] at hu
  obtain ⟨c3, h3, _, hu3⟩ := full_loop_spec [] fuel c2
    (write_bytes data 0 ((decode_body items).take cap)) (min cap items.length) rest
    (by simp) hi2 hu (by simp; omega)
  refine ⟨c3, ?_, hu3⟩
  rw [mjson_read_full_string, h]
  simp only [ne_eq, not_true_eq_false, if_false, Option.getD_some]
  rw [h3, List.take_of_length_le (by rw [decode_body_length]; exact hcap)]
  simp only [List.length_nil, Nat.add_zero, Nat.min_eq_right hcap]

/-- The chunked reader on a body of table elements closed by a quote. -/
theorem chunks_loop_spec (k : Nat) (hk : 1 ≤ k) : ∀ (fuel : Nat) (items : List StrItem)
    (c : mjson_ctx) (data : Mem) (chunks : List Nat) (total : Nat) (rest : List Nat),
    (∀ it ∈ items, it.in_table = true) → WindowInv c →
    unconsumed c = encode_body items ++ 34 :: rest → items.length < fuel →
    ∃ c2, read_string_in_chunks k fuel c data chunks total
        = some (MJSON_OK, c2, chunks ++ decode_body items, total + items.length) ∧
      WindowInv c2 ∧ unconsumed c2 = rest := by
  intro fuel
  induction fuel with
  | zero => intro items c data chunks total rest _ _ _ hf; omega
  | succ f ih =>
    intro items c data chunks total rest htab hinv hs hf
    obtain ⟨c1, h1, hi1, hu1⟩ := partial_string_spec items k c data (34 :: rest) htab hinv hs
      (Or.inr ⟨rest, rfl⟩)
    have hlen : ((decode_body items).take k).length = min k items.length := by
      simp [decode_body_length]
    have hfb : first_bytes (write_bytes data 0 ((decode_body items).take k))
        (min k items.length) = (decode_body items).take k := by
      rw [← hlen, first_bytes_write]
    rw [read_string_in_chunks]
    simp only [h1, ne_eq, not_true_eq_false, if_false, Option.getD_some, hfb]
    by_cases hn : items.length < k
    · have hmin : min k items.length = items.length := by omega
      rw [hmin, if_pos hn]
      rw [List.drop_of_length_le (by omega), encode_body, List.nil_append] at hu1
      obtain ⟨c2, h2, hi2, hs2⟩ := read_byte_spec c1 34 34 rest hi1 hu1
      simp only [if_true] at h2 hs2
      refine ⟨c2, ?_, hi2, hs2⟩
      rw [mjson_read_string_end, h2,
        List.take_of_length_le (by rw [decode_body_length]; omega)]
    · have hmin : min k items.length = k := by omega
      rw [hmin, if_neg (by omega)]
      obtain ⟨c2, h2, hi2, hs2⟩ := ih (items.drop k) c1
        (write_bytes data 0 ((decode_body items).take k))
        (chunks ++ (decode_body items).take k) (total + k) rest
        (fun it hit => htab it (List.mem_of_mem_drop hit)) hi1 hu1
        (by rw [List.length_drop]; omega)
      refine ⟨c2, ?_, hi2, hs2⟩
      rw [h2, List.length_drop]
      have e1 : chunks ++ (decode_body items).take k ++ decode_body (items.drop k)
          = chunks ++ decode_body items := by
        rw [List.append_assoc, ← decode_body_take, decode_body, decode_body, decode_body,
          ← List.map_append, List.take_append_drop]
      have e2 : total + k + (items.length - k) = total + items.length := by omega
      rw [e1, e2]

/-- C19: for every body of table elements closed by a quote and every chunk
size `k >= 1`, calling `mjson_read_partial_string` with capacity `k` until a
call reports fewer than `k` bytes and then calling `mjson_read_string_end`
returns `MJSON_OK` throughout; the concatenation of the chunks and the buffer
that `mjson_read_full_string` fills with a capacity of at least the decoded
length are both the decoded body, the sum of the reported lengths and its
`out_length` are both the decoded length, and both leave the stream just
after the closing quote. -/
theorem chunked_read_equals_full_read (items : List StrItem) (k cap : Nat) (c : mjson_ctx)
    (data data2 : Mem) (rest : List Nat) (fuel : Nat)
    (htab : ∀ it ∈ items, it.in_table = true) (hk : 1 ≤ k) (hinv : WindowInv c)
    (hs : unconsumed c = encode_body items ++ 34 :: rest) (hf : items.length < fuel)
    (hcap : (decode_body items).length ≤ cap) :
    ∃ c2 r,
      read_string_in_chunks k fuel c data [] 0
        = some (MJSON_OK, c2, decode_body items, (decode_body items).length) ∧
      mjson_read_full_string fuel c data2 cap = some r ∧ r.status = MJSON_OK ∧
      first_bytes r.data (decode_body items).length = decode_body items ∧
      r.out_length = some (decode_body items).length ∧
      unconsumed c2 = rest ∧ unconsumed r.ctx = rest := by
  rw [decode_body_length] at hcap
  obtain ⟨c2, h2, _, hs2⟩ := chunks_loop_spec k hk fuel items c data [] 0 rest htab hinv hs hf
  obtain ⟨c3, h3, hs3⟩ := full_string_whole items cap c data2 rest fuel htab hinv hs hf hcap
  refine ⟨c2, _, ?_, h3, rfl, ?_, ?_, hs2, hs3⟩
  · rw [h2, decode_body_length]; simp
  · show first_bytes (write_bytes data2 0 (decode_body items)) _ = _
    rw [first_bytes_write]
  · rw [decode_body_length]

/-- The body `ab\tc` read in chunks of two bytes and read whole. -/
theorem chunked_read_equals_full_read_witness :
    ∃ c2 r,
      read_string_in_chunks 2 5 (mjson_init blank_ctx [97, 98, 92, 116, 99, 34, 44]) NULL [] 0
        = some (MJSON_OK, c2, [97, 98, 9, 99], 4) ∧
      mjson_read_full_string 5 (mjson_init blank_ctx [97, 98, 92, 116, 99, 34, 44]) NULL 8
        = some r ∧
      first_bytes r.data 4 = [97, 98, 9, 99] ∧ r.out_length = some 4 ∧
      unconsumed c2 = [44] ∧ unconsumed r.ctx = [44] := by
  obtain ⟨c2, r, h1, h2, _, h4, h5, h6, h7⟩ :=
    chunked_read_equals_full_read [.plain 97, .plain 98, .esc 116, .plain 99] 2 8
      (mjson_init blank_ctx [97, 98, 92, 116, 99, 34, 44]) NULL NULL [44] 5
      (by decide) (by decide) (by decide) (by decide) (by decide) (by decide)
  exact ⟨c2, r, h1, h2, h4, h5, h6, h7⟩

/-- The digit loop of the integer readers on digits that end the stream: the
`mjson_ensure_byte_` after the last digit fails. -/
theorem read_int_digits_eof (w : Nat) : ∀ (digits : List Nat) (fuel : Nat) (c : mjson_ctx)
    (val : Int), (∀ d ∈ digits, 48 ≤ d ∧ d ≤ 57) → digits ≠ [] → WindowInv c →
    1 ≤ c.length → unconsumed c = digits → digits.length ≤ fuel →
    ∃ c2 v, read_int_digits w fuel c val = some (MJSON_ERROR_READING, c2, v) := by
  intro digits
  induction digits with
  | nil => intro fuel c val _ hne; exact absurd rfl hne
  | cons d ds ih =>
    intro fuel c val hd _ hinv hl hs hf
    obtain ⟨f, rfl⟩ : ∃ f, fuel = f + 1 := ⟨fuel - 1, by simp at hf; omega⟩
    have hd1 := hd d (List.mem_cons_self _ _)
    have hp := peek_head c d ds hl hs
    cases ds with
    | nil =>
      obtain ⟨_, hs1⟩ := consume_drop c 1 _ hinv hl hs
      have h2 := (ensure_exhausted (mjson_consume_byte_ c 1) (by simpa using hs1)).1
      refine ⟨(mjson_ensure_byte_ (mjson_consume_byte_ c 1) 1).2,
        wrap_int w (val * 10 + ((d : Int) - 48)), ?_⟩
      rw [read_int_digits, hp, if_pos hd1]
      simp only [h2, reading_ne_ok, ne_eq, not_false_eq_true, if_true]
    | cons d2 ds2 =>
      have hd2 : ∀ x ∈ d2 :: ds2, 48 ≤ x ∧ x ≤ 57 := fun x hx => hd x (List.mem_cons_of_mem _ hx)
      obtain ⟨c2, h2, hi2, hl2, hs2⟩ := consume_ensure c d d2 ds2 hinv hl hs
      obtain ⟨c3, v, h3⟩ := ih f c2 (wrap_int w (val * 10 + ((d : Int) - 48))) hd2
        (by simp) hi2 hl2 hs2 (by simp at hf ⊢; omega)
      refine ⟨c3, v, ?_⟩
      rw [read_int_digits, hp, if_pos hd1]
      simp only [h2, ne_eq, not_true_eq_false, if_false, h3]

/-- The copying loop of `mjson_read_number_as_string` on a token that ends
the stream, with room left in the buffer: the `mjson_ensure_byte_` after the
last byte fails. -/
theorem number_copy_loop_eof : ∀ (tok : List Nat) (k : Nat) (c : mjson_ctx) (data : Mem)
    (i : Nat), (∀ b ∈ tok, is_number_byte b) → WindowInv c → unconsumed c = tok →
    tok.length < k → (read_number_copy_loop k c data i).1 = MJSON_ERROR_READING := by
  intro tok
  induction tok with
  | nil =>
    intro k c data i _ _ hs hk
    obtain ⟨f, rfl⟩ : ∃ f, k = f + 1 := ⟨k - 1, by simp at hk; omega⟩
    have h1 := (ensure_exhausted c hs).1
    rw [read_number_copy_loop]
    simp only [h1, reading_ne_ok, ne_eq, not_false_eq_true, if_true]
  | cons b bs ih =>
    intro k c data i htok hinv hs hk
    obtain ⟨f, rfl⟩ : ∃ f, k = f + 1 := ⟨k - 1, by simp at hk; omega⟩
    have hb := htok b (List.mem_cons_self _ _)
    have htok2 : ∀ x ∈ bs, is_number_byte x := fun x hx => htok x (List.mem_cons_of_mem _ hx)
    obtain ⟨c1, h1, hi1, hs1, hl1, hp1⟩ := ensure_peek c 1 _ hinv (by decide) hs (by simp)
    have hp := hp1 0 (by omega)
    simp only [List.getD_cons_zero] at hp
    obtain ⟨hi2, hs2⟩ := consume_drop c1 1 _ hi1 hl1 hs1
    have h3 := ih f (mjson_consume_byte_ c1 1) (data.set i b) (i + 1) htok2 hi2
      (by simpa using hs2) (by simp at hk; omega)
    rw [read_number_copy_loop]
    simp only [h1, hp, hb, ne_eq, not_true_eq_false, if_false, if_true]
    exact h3

/-- C20: for every width `w`, so for the readers of 8, 16, 32 and 64 bits
(`mjson_read_int8` is `mjson_read_int 8`, and so on), on a stream that holds
only an optional `-` and one or more digits before the source is exhausted,
the integer reader returns `MJSON_ERROR_READING` and stores nothing through
its output pointer; `mjson_read_number_as_string` with a capacity larger than
the token returns `MJSON_ERROR_READING` and stores no length. -/
theorem number_at_end_of_stream (w : Nat) (neg : Bool)
    (digits : List Nat) (c : mjson_ctx) (hd : ∀ d ∈ digits, 48 ≤ d ∧ d ≤ 57)
    (hne : digits ≠ []) (hinv : WindowInv c)
    (hs : unconsumed c = (if neg then [45] else []) ++ digits) :
    (∀ fuel, digits.length ≤ fuel →
      ∃ r, mjson_read_int w fuel c = some r ∧ r.status = MJSON_ERROR_READING ∧ r.out = none) ∧
    (∀ (fuel cap : Nat) (data : Mem), ((if neg then [45] else []) ++ digits).length < cap →
      ∃ r, mjson_read_number_as_string fuel c data cap = some r ∧
        r.status = MJSON_ERROR_READING ∧ r.out_length = none) := by
  obtain ⟨d0, ds, hds⟩ := List.exists_cons_of_ne_nil hne
  have hd0 := hd d0 (by rw [hds]; exact List.mem_cons_self _ _)
  constructor
  · intro fuel hf
    cases neg with
    | true =>
      have hs2 : unconsumed c = 45 :: digits := by rw [hs]; rfl
      obtain ⟨c1, h1, hi1, hs1, hl1, hp1⟩ := ensure_peek c 1 _ hinv (by decide) hs2 (by simp)
      have hp := hp1 0 (by omega)
      simp only [List.getD_cons_zero] at hp
      obtain ⟨hi2, hs3⟩ := consume_drop c1 1 _ hi1 hl1 hs1
      obtain ⟨c2, h2, hi2b, hs4, hl2, _⟩ := ensure_peek (mjson_consume_byte_ c1 1) 1 digits hi2
        (by decide) (by simpa using hs3) (by rw [hds]; simp)
      obtain ⟨c3, v, h3⟩ := read_int_digits_eof w digits fuel c2 0 hd hne hi2b hl2 hs4 hf
      refine ⟨⟨MJSON_ERROR_READING, c3, none⟩, ?_, rfl, rfl⟩
      simp only [mjson_read_int, h1, hp, ne_eq, not_true_eq_false, if_false, if_true, h2, h3,
        reading_ne_ok, not_false_eq_true]
    | false =>
      have hs2 : unconsumed c = d0 :: ds := by rw [hs, hds]; rfl
      have hn45 : ¬ d0 = 45 := by omega
      obtain ⟨c1, h1, hi1, hs1, hl1, hp1⟩ := ensure_peek c 1 _ hinv (by decide) hs2 (by simp)
      have hp := hp1 0 (by omega)
      simp only [List.getD_cons_zero] at hp
      obtain ⟨c2, h2, hi2b, hs4, hl2, _⟩ := ensure_peek c1 1 _ hi1 (by decide) hs1 (by simp)
      obtain ⟨c3, v, h3⟩ := read_int_digits_eof w digits fuel c2 0 hd hne hi2b hl2
        (by rw [hs4, hds]) hf
      refine ⟨⟨MJSON_ERROR_READING, c3, none⟩, ?_, rfl, rfl⟩
      simp only [mjson_read_int, h1, hp, hn45, ne_eq, not_true_eq_false, if_false, h2, h3,
        reading_ne_ok, not_false_eq_true, if_true]
  · intro fuel cap data hcap
    have htok : ∀ b ∈ (if neg then [45] else []) ++ digits, is_number_byte b := by
      intro b hb
      rcases List.mem_append.1 hb with h | h
      · cases neg with
        | true =>
          simp only [if_true, List.mem_singleton] at h
          rw [h]; right; right; right; right; right; rfl
        | false => simp at h
      · exact Or.inl (hd b h)
    have h1 := number_copy_loop_eof _ cap c data 0 htok hinv hs hcap
    refine ⟨⟨MJSON_ERROR_READING, (read_number_copy_loop cap c data 0).2.1,
      (read_number_copy_loop cap c data 0).2.2.1, none⟩, ?_, rfl, rfl⟩
    rw [mjson_read_number_as_string]
    simp only [h1, reading_ne_ok, ne_eq, not_false_eq_true, if_true]

/-- The stream `-12`, then the source is exhausted. -/
theorem number_at_end_of_stream_witness :
    (∃ r, mjson_read_int32 2 (mjson_init blank_ctx [45, 49, 50]) = some r ∧
      r.status = MJSON_ERROR_READING ∧ r.out = none) ∧
    (∃ r, mjson_read_number_as_string 0 (mjson_init blank_ctx [45, 49, 50]) NULL 8 = some r ∧
      r.status = MJSON_ERROR_READING ∧ r.out_length = none) :=
  ⟨(number_at_end_of_stream 32 true [49, 50] (mjson_init blank_ctx [45, 49, 50])
      (by decide) (by decide) (by decide) (by decide)).1 2 (by decide),
    (number_at_end_of_stream 32 true [49, 50] (mjson_init blank_ctx [45, 49, 50])
      (by decide) (by decide) (by decide) (by decide)).2 0 8 NULL (by decide)⟩

end MinimalJson
